import Mathlib

/-!
Howsit: stats parsing, rate tracking and slab pagination

A shallow embedding of `howsit.c`, a terminal dashboard for a memcached
server.  The embedding covers the text parsers (`fill_stats*`), the rate
bookkeeping inside them, `format_bytes`, `draw_screen` and the refresh step
of `main`.

Conventions of the embedding:

* a C string is the list of its characters before the terminating NUL;
* `long long` and `int` values are integers; where the C code can overflow
  on parsed input the result is wrapped to the machine width explicitly;
* a `long double` is the x87 extended format of the x86 ABI: a finite value
  is held as the rational it denotes, and a division rounds its exact
  quotient to the nearest value with a 64-bit significand, ties to even
  (every `long long` converts exactly, and the divisions by 1024 in
  `format_bytes`, which only change the exponent, are exact);
* the C library functions `atoi`, `atoll`, `strncmp`, `strtok_r` and `printf`
  are modelled as glibc implements them;
* a run of the C code that dereferences NULL, fails an `assert`, writes past
  a buffer or indexes outside an array ends in a `Fault`.
-/

namespace Howsit

/-! ## Constants -/

/-- Constant `#define MAX_SLABS 100`. -/
abbrev MAX_SLABS : Nat := 100

/-- Constant `#define MAX_SLABS_PER_PAGE 20`. -/
def MAX_SLABS_PER_PAGE : Int := 20

/-- Constant `#define PAGE_SIZE 1024*1024`. -/
def PAGE_SIZE : Int := 1024 * 1024

/-- Constant `#define WARN_THRESH 1000`. -/
def WARN_THRESH : Int := 1000

/-- Constant `#define REFRESH_SECONDS 5`. -/
def REFRESH_SECONDS : Int := 5

/-! ## Machine values -/

/-- A C string: the characters before the terminating NUL. -/
abbrev CStr := List Char

/-- The ways a run of the C code can end without returning. -/
inductive Fault where
  /-- Abort: `assert(...)` failed: the process aborts. -/
  | assertFail
  /-- A NULL pointer was passed to `strncmp`, `atoi` or `strcpy`. -/
  | nullDeref
  /-- Overflow: `strcpy` wrote past the end of its destination buffer. -/
  | bufferOverflow
  /-- An array was indexed outside `[0, MAX_SLABS)`. -/
  | outOfBounds
  deriving DecidableEq, Repr

/-- Two's complement wrap of an integer to 64 bits (`long long`). -/
def wrap64 (x : Int) : Int :=
  (x + 9223372036854775808) % 18446744073709551616 - 9223372036854775808

/-- Two's complement wrap of an integer to 32 bits (`int`). -/
def wrap32 (x : Int) : Int :=
  (x + 2147483648) % 4294967296 - 2147483648

/-- Saturation to the range of `long long`, as `strtoll` does. -/
def sat64 (x : Int) : Int :=
  if x < -9223372036854775808 then -9223372036854775808
  else if 9223372036854775807 < x then 9223372036854775807
  else x

/-- Rounding of a rational to the nearest integer, ties to even. -/
def roundHalfEven (q : ℚ) : Int :=
  let f := ⌊q⌋
  let r := q - f
  if r < 1 / 2 then f
  else if 1 / 2 < r then f + 1
  else if f % 2 = 0 then f else f + 1

/-- A `long double`: a finite value, held as the rational it denotes, or a
non-finite value.  The two zeros are not told apart. -/
inductive LongDouble where
  | finite (q : ℚ)
  | posInf
  | negInf
  | nan
  deriving DecidableEq

namespace LongDouble

/-- Conversion `(long double)x` of an integer; every `long long` fits the
64-bit significand, so the conversion is exact. -/
def ofInt (x : Int) : LongDouble := finite x

/-- The exact quotient of two `long double` values, before rounding; a
finite value divided by zero is an infinity of the sign of the numerator, and
`0/0` is NaN. -/
def div : LongDouble → LongDouble → LongDouble
  | finite a, finite b =>
    if b = 0 then (if 0 < a then posInf else if a < 0 then negInf else nan)
    else finite (a / b)
  | finite _, posInf => finite 0
  | finite _, negInf => finite 0
  | posInf, finite b => if 0 ≤ b then posInf else negInf
  | negInf, finite b => if 0 ≤ b then negInf else posInf
  | _, _ => nan

/-- The number of halvings that take `n` below 2, that is `⌊log₂ n⌋` for
`n ≥ 1`; `fuel` bounds the number of halvings. -/
def log2 : Nat → Nat → Nat
  | 0, _ => 0
  | fuel + 1, n => if n < 2 then 0 else log2 fuel (n / 2) + 1

/-- The power `2^k` for an integer exponent `k`. -/
def pow2 (k : Int) : ℚ :=
  if 0 ≤ k then ((2 ^ k.toNat : Nat) : ℚ) else 1 / ((2 ^ (-k).toNat : Nat) : ℚ)

/-- The binary exponent `⌊log₂ |q|⌋` of a rational `q ≠ 0`: the difference
of the exponents of numerator and denominator, or one less. -/
def exponent (q : ℚ) : Int :=
  let e : Int := (log2 q.num.natAbs q.num.natAbs : Int) - (log2 q.den q.den : Int)
  if pow2 e ≤ |q| then e else e - 1

/-- Rounding of an exact result to the nearest `long double`, ties to even.
The format has a 64-bit significand, so a value with binary exponent `e` is
rounded to a multiple of `2^(e-63)`; below the least normal exponent -16382
the spacing stays `2^-16445` (subnormal values), and a result that reaches
`2^16384` overflows to an infinity. -/
def round : LongDouble → LongDouble
  | finite q =>
    if q = 0 then finite 0
    else
      let k : Int := max (exponent q - 63) (-16445)
      let r : ℚ := (roundHalfEven (q / pow2 k) : ℚ) * pow2 k
      if pow2 16384 ≤ |r| then (if 0 < q then posInf else negInf) else finite r
  | x => x

/-- The C operator `/` on `long double` values: the exact quotient, rounded. -/
def fdiv (a b : LongDouble) : LongDouble := round (div a b)

end LongDouble

/-! ## The C library functions the parsers use -/

/-- C `isspace` in the "C" locale. -/
def isspace (c : Char) : Bool :=
  c = ' ' || c = '\t' || c = '\n' || c = '\x0b' || c = '\x0c' || c = '\r'

/-- C `isdigit`. -/
def isdigit (c : Char) : Bool := decide ('0' ≤ c ∧ c ≤ '9')

/-- The value of the longest prefix of decimal digits, continuing from `acc`. -/
def digitsVal (acc : Nat) : CStr → Nat
  | [] => acc
  | c :: cs => if isdigit c then digitsVal (acc * 10 + (c.toNat - 48)) cs else acc

/-- The mathematical value `strtol`/`strtoll` read in base 10: leading white
space, an optional sign, then the longest run of digits (0 when there is none). -/
def strtoValue (s : CStr) : Int :=
  match s.dropWhile isspace with
  | [] => 0
  | c :: r =>
    if c = '-' then -(digitsVal 0 r : Int)
    else if c = '+' then (digitsVal 0 r : Int)
    else (digitsVal 0 (c :: r) : Int)

/-- C `atoll`, i.e. `strtoll(s, NULL, 10)`: the value saturates at the ends
of the `long long` range. -/
def atoll (s : CStr) : Int := sat64 (strtoValue s)

/-- C `atoi`, i.e. `(int) strtol(s, NULL, 10)`: `strtol` saturates at the
64-bit `long` range and the conversion to `int` keeps the low 32 bits. -/
def atoi (s : CStr) : Int := wrap32 (sat64 (strtoValue s))

/-- C `strncmp`: compares at most `n` characters; the result is 0 when they
agree, else the difference of the first pair that differs (a string that
ends is compared through its NUL). -/
def strncmp : CStr → CStr → Nat → Int
  | _, _, 0 => 0
  | [], [], _ + 1 => 0
  | [], b :: _, _ + 1 => -(b.toNat : Int)
  | a :: _, [], _ + 1 => (a.toNat : Int)
  | a :: as, b :: bs, n + 1 =>
    if a = b then strncmp as bs n else (a.toNat : Int) - (b.toNat : Int)

/-- C `strtok_r` on the text at the save pointer: skips leading delimiters,
returns `none` (NULL) when nothing is left, else the token up to the next
delimiter together with the text after that delimiter (the new save
pointer). -/
def strtok_r (delim : CStr) (s : CStr) : Option (CStr × CStr) :=
  match s.dropWhile (fun c => decide (c ∈ delim)) with
  | [] => none
  | t => some (t.takeWhile (fun c => !decide (c ∈ delim)),
               (t.dropWhile (fun c => !decide (c ∈ delim))).tail)

/-- Output of `printf("%lld", n)`: the decimal numeral of `n`. -/
def lld (n : Int) : CStr :=
  if n < 0 then '-' :: Nat.toDigits 10 n.natAbs else Nat.toDigits 10 n.toNat

/-! ## Data model -/

/-- Type `typedef struct { long long value; long long value_prev; long double rate; } rate;` -/
structure rate where
  value : Int
  value_prev : Int
  rate : LongDouble

/-- Type `struct stats_slabs`. -/
structure SS where
  slab : Int
  chunk_size : Int
  total_pages : Int
  used_chunks : Int
  free_chunks : Int
  mem_requested : Int
  cmd_set : rate
  get_hits : rate

/-- Type `struct stats_items`. -/
structure SI where
  slab : Int
  number : Int
  evicted : rate
  evicted_time : Int

/-- Type `struct stats`. -/
structure STATS where
  server : CStr
  port : CStr
  time : Int
  time_prev : Int
  uptime : Int
  version : CStr
  limit_maxbytes : Int
  cmd_get : rate
  cmd_set : rate
  evictions : rate
  total_items : Int
  get_hits : Int
  si : Fin MAX_SLABS → SI
  ss : Fin MAX_SLABS → SS
  show_rates : Bool
  start_slab : Int
  more_slabs : Bool
  last_slab_shown : Int
  refresh_seconds : Int
  max_slabs_per_page : Int

/-- A zero-initialised `rate`. -/
def empty_rate : rate := ⟨0, 0, LongDouble.finite 0⟩

/-- Constant `static const SS empty_stats_slabs;` (zero-initialised). -/
def empty_stats_slabs : SS := ⟨0, 0, 0, 0, 0, 0, empty_rate, empty_rate⟩

/-- Constant `static const SI empty_stats_items;` (zero-initialised). -/
def empty_stats_items : SI := ⟨0, 0, empty_rate, 0⟩

/-- Constant `static const STATS empty_stats;` (zero-initialised; the two NULL string
pointers are shown as empty strings). -/
def empty_stats : STATS where
  server := []
  port := []
  time := 0
  time_prev := 0
  uptime := 0
  version := []
  limit_maxbytes := 0
  cmd_get := empty_rate
  cmd_set := empty_rate
  evictions := empty_rate
  total_items := 0
  get_hits := 0
  si := fun _ => empty_stats_items
  ss := fun _ => empty_stats_slabs
  show_rates := false
  start_slab := 0
  more_slabs := false
  last_slab_shown := 0
  refresh_seconds := 0
  max_slabs_per_page := 0

/-! ## Rate bookkeeping -/

/-- The three statements every rate-tracked branch of the `fill_stats*_vals`
functions runs on its field `r`:
`r.value = atoll(value); r.rate = (long double)(r.value - r.value_prev) /
((long double)(time - time_prev)/1000.0L); r.value_prev = r.value;`. -/
def rate_update (r : rate) (value : CStr) (time time_prev : Int) : rate :=
  let v := atoll value
  { value := v
    rate := LongDouble.fdiv (LongDouble.ofInt (wrap64 (v - r.value_prev)))
      (LongDouble.fdiv (LongDouble.ofInt (wrap64 (time - time_prev))) (LongDouble.finite 1000))
    value_prev := v }

/-! ## Per-slab statistics -/

/-- Function `fill_stats_slabs_vals(name, value, slab, s)`. -/
def fill_stats_slabs_vals (name value : CStr) (slab : Int) (s : STATS) : Except Fault STATS :=
  if h : 0 ≤ slab ∧ slab < MAX_SLABS then
    let i : Fin MAX_SLABS := ⟨slab.toNat, by omega⟩
    let ss : SS := { s.ss i with slab := slab + 1 }
    let ss : SS :=
      if name = "chunk_size".toList then { ss with chunk_size := atoll value }
      else if name = "total_pages".toList then { ss with total_pages := atoll value }
      else if name = "mem_requested".toList then { ss with mem_requested := atoll value }
      else if name = "used_chunks".toList then { ss with used_chunks := atoll value }
      else if name = "cmd_set".toList then
        { ss with cmd_set := rate_update ss.cmd_set value s.time s.time_prev }
      else if name = "get_hits".toList then
        { ss with get_hits := rate_update ss.get_hits value s.time s.time_prev }
      else ss
    .ok { s with ss := Function.update s.ss i ss }
  else .error .outOfBounds

/-- Function `fill_stats_slabs_element(line, s)`. -/
def fill_stats_slabs_element (line : CStr) (s : STATS) : Except Fault STATS :=
  match strtok_r " ".toList line with
  | none => .error .nullDeref
  | some (token, save) =>
    if strncmp token "STAT".toList 3 ≠ 0 then .ok s
    else
      match strtok_r " ".toList save with
      | none => .ok s
      | some (token, save) =>
        if ':' ∉ token then .ok s
        else
          match strtok_r ":".toList token with
          | none => .error .nullDeref
          | some (token, save2) =>
            let slab := atoi token
            match strtok_r ":".toList save2 with
            | none => .error .nullDeref
            | some (name, _) =>
              if 64 ≤ name.length then .error .bufferOverflow
              else
                match strtok_r " ".toList save with
                | none => .ok s
                | some (value, _) =>
                  if 64 ≤ value.length then .error .bufferOverflow
                  else if ¬ (slab > 0) then .error .assertFail
                  else fill_stats_slabs_vals name value (slab - 1) s

/-- The `token = strtok(input, "\n\r"); while (token != NULL) { element(token, s);
token = strtok(NULL, "\n\r"); }` loop shared by `fill_stats`, `fill_stats_items`
and `fill_stats_slabs`; `fuel` bounds the number of iterations and `input` is
the text at `strtok`'s save pointer.  A fault in a line ends the run. -/
def stat_lines_loop (element : CStr → STATS → Except Fault STATS) :
    Nat → CStr → STATS → Except Fault STATS
  | 0, _, s => .ok s
  | fuel + 1, input, s =>
    match strtok_r "\n\r".toList input with
    | none => .ok s
    | some (token, rest) =>
      match element token s with
      | .error f => .error f
      | .ok s1 => stat_lines_loop element fuel rest s1

/-- Function `fill_stats_slabs(input, s)`: deactivate every slot, then apply the
lines of `input`.  Each iteration of the loop consumes at least one
character, so `input.length` iterations are enough. -/
def fill_stats_slabs (input : CStr) (s : STATS) : Except Fault STATS :=
  stat_lines_loop fill_stats_slabs_element input.length input
    { s with ss := fun i => { s.ss i with slab := -1 } }

/-! ## Per-item statistics -/

/-- Function `fill_stats_items_vals(name, value, slab, s)`. -/
def fill_stats_items_vals (name value : CStr) (slab : Int) (s : STATS) : Except Fault STATS :=
  if h : 0 ≤ slab ∧ slab < MAX_SLABS then
    let i : Fin MAX_SLABS := ⟨slab.toNat, by omega⟩
    let si : SI := { s.si i with slab := slab + 1 }
    let si : SI :=
      if name = "evicted_time".toList then { si with evicted_time := atoll value }
      else if name = "evicted".toList then
        { si with evicted := rate_update si.evicted value s.time s.time_prev }
      else si
    .ok { s with si := Function.update s.si i si }
  else .error .outOfBounds

/-- Function `fill_stats_items_element(line, stats)`.  The key looks like
`items:<id>:<field>`; the first colon-separated part is read and dropped. -/
def fill_stats_items_element (line : CStr) (s : STATS) : Except Fault STATS :=
  match strtok_r " ".toList line with
  | none => .error .nullDeref
  | some (token, save) =>
    if strncmp token "STAT".toList 3 ≠ 0 then .ok s
    else
      match strtok_r " ".toList save with
      | none => .ok s
      | some (token, save) =>
        let save2 : CStr :=
          match strtok_r ":".toList token with
          | none => []
          | some (_, r) => r
        match strtok_r ":".toList save2 with
        | none => .error .nullDeref
        | some (token, save2) =>
          let slab := atoi token
          match strtok_r ":".toList save2 with
          | none => .error .nullDeref
          | some (name, _) =>
            if 64 ≤ name.length then .error .bufferOverflow
            else
              match strtok_r " ".toList save with
              | none => .ok s
              | some (value, _) =>
                if 64 ≤ value.length then .error .bufferOverflow
                else if ¬ (slab > 0) then .error .assertFail
                else fill_stats_items_vals name value (slab - 1) s

/-- Function `fill_stats_items(input, s)`. -/
def fill_stats_items (input : CStr) (s : STATS) : Except Fault STATS :=
  stat_lines_loop fill_stats_items_element input.length input
    { s with si := fun i => { s.si i with slab := -1 } }

/-! ## Global statistics -/

/-- Function `fill_stats_vals(name, value, stats)`; `version` is a `char[10]`. -/
def fill_stats_vals (name value : CStr) (s : STATS) : Except Fault STATS :=
  if name = "uptime".toList then .ok { s with uptime := atoll value }
  else if name = "version".toList then
    if 10 ≤ value.length then .error .bufferOverflow else .ok { s with version := value }
  else if name = "limit_maxbytes".toList then .ok { s with limit_maxbytes := atoll value }
  else if name = "total_items".toList then .ok { s with total_items := atoll value }
  else if name = "evictions".toList then
    .ok { s with evictions := rate_update s.evictions value s.time s.time_prev }
  else if name = "cmd_get".toList then
    .ok { s with cmd_get := rate_update s.cmd_get value s.time s.time_prev }
  else if name = "cmd_set".toList then
    .ok { s with cmd_set := rate_update s.cmd_set value s.time s.time_prev }
  else if name = "get_hits".toList then .ok { s with get_hits := atoll value }
  else .ok s

/-- Function `fill_stats_element(line, stats)`. -/
def fill_stats_element (line : CStr) (s : STATS) : Except Fault STATS :=
  match strtok_r " ".toList line with
  | none => .error .nullDeref
  | some (token, save) =>
    if strncmp token "STAT".toList 3 ≠ 0 then .ok s
    else
      match strtok_r " ".toList save with
      | none => .ok s
      | some (name, save) =>
        if 64 ≤ name.length then .error .bufferOverflow
        else
          match strtok_r " ".toList save with
          | none => .ok s
          | some (value, _) =>
            if 64 ≤ value.length then .error .bufferOverflow
            else fill_stats_vals name value s

/-- Function `fill_stats(input, stats)`. -/
def fill_stats (input : CStr) (s : STATS) : Except Fault STATS :=
  stat_lines_loop fill_stats_element input.length input s

/-! ## One refresh cycle -/

/-- What one call of `load_stats` reads from outside the program: the clock
and the three response texts (from the server or from the test files). -/
structure Cycle where
  now : Int
  slabs : CStr
  items : CStr
  stats : CStr

/-- The first statement of `load_stats`: `stats->time = current_timestamp();`. -/
def start_cycle (now : Int) (s : STATS) : STATS := { s with time := now }

/-- The last statement of `load_stats`: `stats->time_prev = stats->time;`. -/
def end_cycle (s : STATS) : STATS := { s with time_prev := s.time }

/-- Function `load_stats(stats, load_from_file)`. -/
def load_stats (c : Cycle) (s : STATS) : Except Fault STATS :=
  match fill_stats_slabs c.slabs (start_cycle c.now s) with
  | .error f => .error f
  | .ok s1 =>
    match fill_stats_items c.items s1 with
    | .error f => .error f
    | .ok s2 =>
      match fill_stats c.stats s2 with
      | .error f => .error f
      | .ok s3 => .ok (end_cycle s3)

/-! ## Formatting -/

/-- Output of `printf("%.1Lf", x)`: the value rounded to one decimal (ties to even,
the default rounding mode), written with one digit after the point. -/
def printf_1Lf : LongDouble → CStr
  | .finite q =>
    let t := (roundHalfEven (|q| * 10)).toNat
    (if q < 0 then ['-'] else []) ++ Nat.toDigits 10 (t / 10) ++ ['.'] ++ Nat.toDigits 10 (t % 10)
  | .posInf => "inf".toList
  | .negInf => "-inf".toList
  | .nan => "nan".toList

/-- Function `format_bytes(buf, bytes)`.  The divisions by 1024 only lower the
exponent of a `long long` value, so their exact quotients are the values the
machine computes. -/
def format_bytes (bytes : Int) : CStr :=
  if bytes < 1024 then lld bytes
  else if bytes < 1024 * 1024 then
    printf_1Lf (LongDouble.div (LongDouble.ofInt bytes) (.finite 1024)) ++ ['K']
  else if bytes < 1024 * 1024 * 1024 then
    printf_1Lf (LongDouble.div (LongDouble.div (LongDouble.ofInt bytes) (.finite 1024))
      (.finite 1024)) ++ ['M']
  else
    printf_1Lf (LongDouble.div (LongDouble.div (LongDouble.div (LongDouble.ofInt bytes)
      (.finite 1024)) (.finite 1024)) (.finite 1024)) ++ ['G']

/-! ## Drawing -/

/-- One of the three right-hand cells of a slab row: a raw counter (`%lld`)
or a rate (`%.1llf`), depending on `show_rates`. -/
inductive Cell where
  | count (v : Int)
  | perSecond (r : LongDouble)

/-- What `draw_screen` prints for one slab: the screen row, the index `i` of
the slot and the values given to `mvprintw`. -/
structure SlabRow where
  row : Int
  index : Fin MAX_SLABS
  slab : Int
  chunk_size : Int
  used_chunks : Int
  total_pages : Int
  wasted : CStr
  evicted_time : Int
  warn : Bool
  evicted : Cell
  cmd_set : Cell
  get_hits : Cell

/-- One of the three aggregate lines: a rate, or in raw mode the whole
`rate` struct that the code hands to `%lld`. -/
inductive Aggregate where
  | perSecond (r : LongDouble)
  | whole (r : rate)

/-- Everything one call of `draw_screen` prints. -/
structure Screen where
  server : CStr
  port : CStr
  version : CStr
  memory : CStr
  uptime : Int
  refresh_seconds : Int
  rate_headings : Bool
  slab_rows : List SlabRow
  evictions : Aggregate
  sets : Aggregate
  gets : Aggregate
  hit_ratio : LongDouble

/-- The body of the slab loop of `draw_screen` after the two tests: the
cells printed for slot `i` on screen row `row`. -/
def slab_row (s : STATS) (i : Fin MAX_SLABS) (row : Int) : SlabRow where
  row := row
  index := i
  slab := (s.ss i).slab
  chunk_size := (s.ss i).chunk_size
  used_chunks := (s.ss i).used_chunks
  total_pages := (s.ss i).total_pages
  wasted := format_bytes (wrap64 ((s.ss i).total_pages * PAGE_SIZE - (s.ss i).mem_requested))
  evicted_time := (s.si i).evicted_time
  warn := decide ((s.si i).evicted_time > 0 ∧ (s.si i).evicted_time < WARN_THRESH)
  evicted := if s.show_rates then .perSecond (s.si i).evicted.rate else .count (s.si i).evicted.value
  cmd_set := if s.show_rates then .perSecond (s.ss i).cmd_set.rate else .count (s.ss i).cmd_set.value
  get_hits := if s.show_rates then .perSecond (s.ss i).get_hits.rate else .count (s.ss i).get_hits.value

/-- The variables the slab loop of `draw_screen` changes. -/
structure DrawLoop where
  slab_rows : List SlabRow
  row : Int
  more_slabs : Bool
  last_slab_shown : Int

/-- The loop `for (i = start_slab; i < MAX_SLABS; i++)` of `draw_screen`,
from index `i` on; `fuel` bounds the number of iterations. -/
def draw_slabs (s : STATS) : Nat → Nat → DrawLoop → DrawLoop
  | 0, _, d => d
  | fuel + 1, i, d =>
    if h : i < MAX_SLABS then
      if (s.ss ⟨i, h⟩).slab = -1 then draw_slabs s fuel (i + 1) d
      else if d.row > s.max_slabs_per_page then
        { d with more_slabs := true, last_slab_shown := (i : Int) - 1 }
      else
        draw_slabs s fuel (i + 1)
          { d with row := d.row + 1, slab_rows := d.slab_rows ++ [slab_row s ⟨i, h⟩ (d.row + 1)] }
    else d

/-- Function `draw_screen(stats)`: what is printed and the updated `stats`.  The loop
starts with `row = 1` (the column headings) and runs at most
`MAX_SLABS - start_slab` times; a negative `start_slab` reads outside `ss`. -/
def draw_screen (s : STATS) : Except Fault (Screen × STATS) :=
  if s.start_slab < 0 then .error .outOfBounds
  else
    let d := draw_slabs s (MAX_SLABS - s.start_slab.toNat) s.start_slab.toNat
      { slab_rows := [], row := 1, more_slabs := s.more_slabs,
        last_slab_shown := s.last_slab_shown }
    .ok ({ server := s.server
           port := s.port
           version := s.version
           memory := format_bytes s.limit_maxbytes
           uptime := s.uptime
           refresh_seconds := s.refresh_seconds
           rate_headings := s.show_rates
           slab_rows := d.slab_rows
           evictions := if s.show_rates then .perSecond s.evictions.rate else .whole s.evictions
           sets := if s.show_rates then .perSecond s.cmd_set.rate else .whole s.cmd_set
           gets := if s.show_rates then .perSecond s.cmd_get.rate else .whole s.cmd_get
           hit_ratio := LongDouble.fdiv (LongDouble.ofInt s.get_hits)
             (LongDouble.ofInt s.cmd_get.value) },
         { s with more_slabs := d.more_slabs, last_slab_shown := d.last_slab_shown })

/-! ## The main loop -/

/-- The pagination update that follows `load_stats` inside the main loop:
`if (stats.more_slabs) { start_slab = last_slab_shown+1; more_slabs = FALSE;
if (start_slab >= MAX_SLABS) start_slab = 0; } else start_slab = 0;`. -/
def advance_page (s : STATS) : STATS :=
  if s.more_slabs then
    let s1 := { s with start_slab := s.last_slab_shown + 1, more_slabs := false }
    if s1.start_slab ≥ (MAX_SLABS : Int) then { s1 with start_slab := 0 } else s1
  else { s with start_slab := 0 }

/-- The refresh step of the main loop: `load_stats`, then the pagination
update. -/
def refresh (c : Cycle) (s : STATS) : Except Fault STATS :=
  match load_stats c s with
  | .error f => .error f
  | .ok s1 => .ok (advance_page s1)

/-- The local state of `main` that lives across iterations. -/
structure MainState where
  stats : STATS
  last_loaded_millis : Int

/-- What one iteration of the main loop reads from outside the program: the
clock at the refresh test, the refresh cycle that runs if the test passes,
the clock after loading, and the key returned by `getch` (-1 for none). -/
structure Tick where
  clock : Int
  cycle : Cycle
  loaded : Int
  key : Int

/-- One iteration of `while (1)` in `main`: what was drawn, and the next
state, or `none` when the user pressed `q` and the process exited. -/
def main_iteration (t : Tick) (m : MainState) : Except Fault (Screen × Option MainState) :=
  let due : Bool := decide (t.clock > m.last_loaded_millis + m.stats.refresh_seconds * 1000)
  let loaded : Except Fault MainState :=
    if due then
      match refresh t.cycle m.stats with
      | .error f => .error f
      | .ok s1 => .ok { stats := s1, last_loaded_millis := t.loaded }
    else .ok m
  match loaded with
  | .error f => .error f
  | .ok m1 =>
    match draw_screen m1.stats with
    | .error f => .error f
    | .ok (scr, s2) =>
      if t.key = ('r'.toNat : Int) then
        .ok (scr, some { m1 with stats := { s2 with show_rates := !s2.show_rates } })
      else if t.key = ('q'.toNat : Int) then .ok (scr, none)
      else .ok (scr, some { m1 with stats := s2 })

/-- The main loop over a sequence of iterations: the screens drawn and the
final state (`none` after the user quit; later ticks are then not used). -/
def main_loop : List Tick → MainState → Except Fault (List Screen × Option MainState)
  | [], m => .ok ([], some m)
  | t :: ts, m =>
    match main_iteration t m with
    | .error f => .error f
    | .ok (scr, none) => .ok ([scr], none)
    | .ok (scr, some m1) =>
      match main_loop ts m1 with
      | .error f => .error f
      | .ok (scrs, r) => .ok (scr :: scrs, r)

/-- The settings `check_options` leaves in `stats` when every option is at
its default except those given: refresh interval and page capacity. -/
def check_options (refresh_seconds max_slabs_per_page : Option CStr) (s : STATS) : STATS :=
  { s with
    server := "localhost".toList
    port := "11211".toList
    version := "N/A".toList
    refresh_seconds := match refresh_seconds with
      | none => REFRESH_SECONDS
      | some a => atoi a
    max_slabs_per_page := match max_slabs_per_page with
      | none => MAX_SLABS_PER_PAGE
      | some a => atoi a }

/-- The start of `main`: `stats = empty_stats`, `check_options`, the first
`load_stats` and the first reading of `last_loaded_millis`. -/
def main_start (refresh_seconds max_slabs_per_page : Option CStr) (c : Cycle) (loaded : Int) :
    Except Fault MainState :=
  match load_stats c (check_options refresh_seconds max_slabs_per_page empty_stats) with
  | .error f => .error f
  | .ok s => .ok { stats := s, last_loaded_millis := loaded }

/-! ## The shapes of lines and tokens the statements speak of -/

/-- A token that `strcpy` can copy into one of the parsers' `char[64]`
buffers and that `strtok_r` does not cut: non-empty, at most 63 characters,
none of them in `sep`. -/
def fits_token (sep : CStr) (t : CStr) : Prop :=
  t ≠ [] ∧ t.length < 64 ∧ ∀ c ∈ t, c ∉ sep

instance (sep t : CStr) : Decidable (fits_token sep t) := by
  unfold fits_token; infer_instance

/-- The text of the slab-stats line `STAT <id>:<field> <value>`, the slab id
given as text. -/
def slab_line (id field value : CStr) : CStr :=
  "STAT ".toList ++ id ++ ':' :: field ++ ' ' :: value

/-- The text of the item-stats line `STAT items:<id>:<field> <value>`, the
slab id given as text. -/
def item_line (id field value : CStr) : CStr :=
  "STAT items:".toList ++ id ++ ':' :: field ++ ' ' :: value

/-- The successive tokens `strtok(input, "\n\r")` returns, at most `fuel` of
them. -/
def strtok_lines : Nat → CStr → List CStr
  | 0, _ => []
  | fuel + 1, input =>
    match strtok_r "\n\r".toList input with
    | none => []
    | some (token, rest) => token :: strtok_lines fuel rest

/-- The lines of a response text: all the tokens `strtok(input, "\n\r")`
returns. -/
def blob_lines (input : CStr) : List CStr := strtok_lines input.length input

/-- A well-formed slab-stats line for the slot at index `i`:
`STAT <i+1>:<field> <value>` with the id a decimal numeral and field and value
non-empty tokens. -/
def well_formed_slab_line (i : Fin MAX_SLABS) (line : CStr) : Prop :=
  ∃ field value, fits_token " :\n\r".toList field ∧ fits_token " \n\r".toList value ∧
    line = slab_line (lld ((i : Nat) + 1)) field value

/-- The slab id a line names, if any: the integer that starts the second
space-separated token (read as `atoi` reads it), when that token has a colon
and the line has a third token. -/
def line_slab_id (line : CStr) : Option Int :=
  match strtok_r " ".toList line with
  | none => none
  | some (_, save) =>
    match strtok_r " ".toList save with
    | none => none
    | some (key, save1) =>
      if ':' ∈ key then
        match strtok_r ":".toList key, strtok_r " ".toList save1 with
        | some (id, _), some _ => some (atoi id)
        | _, _ => none
      else none

/-- Applying a line parser to a list of lines in order, stopping at the
first fault. -/
def apply_lines (element : CStr → STATS → Except Fault STATS) :
    List CStr → STATS → Except Fault STATS
  | [], s => .ok s
  | line :: rest, s =>
    match element line s with
    | .error f => .error f
    | .ok s1 => apply_lines element rest s1

/-- Whether the slot at index `n` is active: `ss[n].slab != -1`. -/
def active_at (s : STATS) (n : Nat) : Bool :=
  if h : n < MAX_SLABS then decide ((s.ss ⟨n, h⟩).slab ≠ -1) else false

/-- The indices of the active slots from index `start` on, in ascending
order. -/
def active_from (s : STATS) (start : Nat) : List Nat :=
  (List.range' start (MAX_SLABS - start)).filter (active_at s)

/-- A snapshot with the 25 active slabs 1..25 in the slots 0..24, every
other slot inactive, and the default settings (page capacity 20). -/
def twenty_five_slabs : STATS :=
  { check_options none none empty_stats with
    ss := fun i => { empty_stats_slabs with slab := if i.val < 25 then (i.val : Int) + 1 else -1 } }

/-- The invariant of a run in which every slab fits on one page: the window
starts at slot 0, no draw was truncated, the capacity is `cap` and at most
`cap` slots are active. -/
def fits_on_page (cap : Int) (s : STATS) : Prop :=
  s.start_slab = 0 ∧ s.more_slabs = false ∧ s.max_slabs_per_page = cap ∧
    ((active_from s 0).length : Int) ≤ cap

/-- The state of `main` after its start with the default options against a
server that reports the single slab 1 (a fault cannot occur on this input). -/
def one_slab_main : MainState :=
  match main_start none none ⟨0, "STAT 1:chunk_size 96\r\nEND\r\n".toList, [], []⟩ 0 with
  | .ok m => m
  | .error _ => ⟨empty_stats, 0⟩

/-- A token of the global parser: non-empty, free of white space (so also of
CR and LF), and short enough for the parser's `char[64]` buffers. -/
def plain_token (t : CStr) : Prop :=
  t ≠ [] ∧ t.length < 64 ∧ ∀ c ∈ t, isspace c = false

instance (t : CStr) : Decidable (plain_token t) := by
  unfold plain_token; infer_instance

/-- The text of the global stats line `STAT <key> <value>`. -/
def stat_line (key value : CStr) : CStr :=
  "STAT ".toList ++ key ++ ' ' :: value

/-- Whether a value text does not begin with a decimal number: after
optional white space and an optional sign there is no digit. -/
def no_leading_number (v : CStr) : Bool :=
  match v.dropWhile isspace with
  | [] => true
  | c :: r =>
    if c = '-' ∨ c = '+' then
      match r with
      | [] => true
      | d :: _ => !isdigit d
    else !isdigit c

/-- Successive refresh cycles: `load_stats` run once for each cycle of the
list, in order, stopping at the first fault. -/
def load_cycles : List Cycle → STATS → Except Fault STATS
  | [], s => .ok s
  | c :: rest, s =>
    match load_stats c s with
    | .error f => .error f
    | .ok s1 => load_cycles rest s1

/-- A snapshot as a cycle at 1000 ms leaves it when slab 3 alone was
reported, with `cmd_set 100`. -/
def slab_three_seen : STATS :=
  { check_options none none empty_stats with
    time := 1000
    time_prev := 1000
    ss := fun j =>
      { empty_stats_slabs with
        slab := if j.val = 2 then 3 else -1
        cmd_set := if j.val = 2 then ⟨100, 100, .finite 0⟩ else empty_rate } }

/-- The main loop seen from a draw, with every iteration due for a refresh:
`draw_screen`, then the refresh step with the next cycle, once for each cycle
of the list.  The result is the screens drawn, in order, and the final
snapshot. -/
def page_rounds : List Cycle → STATS → Except Fault (List Screen × STATS)
  | [], s => .ok ([], s)
  | c :: rest, s =>
    match draw_screen s with
    | .error f => .error f
    | .ok (scr, s1) =>
      match refresh c s1 with
      | .error f => .error f
      | .ok s2 =>
        match page_rounds rest s2 with
        | .error f => .error f
        | .ok (scrs, s3) => .ok (scr :: scrs, s3)

/-- The slot indices of the slab rows of a screen, in the order drawn. -/
def shown_slots (scr : Screen) : List Nat := scr.slab_rows.map (fun r => r.index.val)

/-- The position, in the ascending list of `n` active slots, at which the
page after the one starting at position `p` starts, for `c` rows to a page. -/
def next_pos (n c p : Nat) : Nat := if p + c < n then p + c else 0

/-- The state before a draw whose window starts at position `p` of the
ascending list `A` of active slots, for `c` rows to a page. -/
def page_state (A : List Nat) (c p : Nat) (s : STATS) : Prop :=
  0 ≤ s.start_slab ∧ s.more_slabs = false ∧ s.max_slabs_per_page = (c : Int) ∧
    active_from s 0 = A ∧ active_from s s.start_slab.toNat = A.drop p

/-- A slab response of 25 lines, `STAT <k>:chunk_size 96` for `k` from 1 to 25. -/
def twenty_five_slab_lines : CStr :=
  ((List.range 25).map fun k =>
    slab_line (lld ((k : Int) + 1)) "chunk_size".toList "96".toList ++ "\r\n".toList).flatten

/-! ## Lemmas on the C library models -/

theorem digitChar_isdigit : ∀ d : Nat, d < 10 →
    isdigit (Nat.digitChar d) = true ∧ (Nat.digitChar d).toNat - 48 = d := by
  decide

theorem isdigit_not_special (c : Char) (h : isdigit c = true) :
    c ≠ ' ' ∧ c ≠ ':' ∧ c ≠ '-' ∧ c ≠ '+' ∧ c ≠ '\n' ∧ c ≠ '\r' ∧ isspace c = false := by
  refine ⟨?_, ?_, ?_, ?_, ?_, ?_, ?_⟩ <;>
    first
    | (rintro rfl; revert h; decide)
    | (by_contra hsp
       simp only [Bool.not_eq_false, isspace, Bool.or_eq_true, decide_eq_true_eq] at hsp
       rcases hsp with ((((rfl | rfl) | rfl) | rfl) | rfl) | rfl <;> revert h <;> decide)

theorem digitsVal_append (l r : CStr) (hl : ∀ c ∈ l, isdigit c = true) (acc : Nat) :
    digitsVal acc (l ++ r) = digitsVal (digitsVal acc l) r := by
  induction l generalizing acc with
  | nil => rfl
  | cons c cs ih =>
    have hc : isdigit c = true := hl c (List.mem_cons_self _ _)
    simp only [List.cons_append, digitsVal, hc, if_true]
    exact ih (fun x hx => hl x (List.mem_cons_of_mem _ hx)) _

theorem toDigitsCore_append (f n : Nat) (ds : CStr) :
    Nat.toDigitsCore 10 f n ds = Nat.toDigitsCore 10 f n [] ++ ds := by
  induction f generalizing n ds with
  | zero => simp [Nat.toDigitsCore]
  | succ f ih =>
    simp only [Nat.toDigitsCore]
    split
    · simp
    · rw [ih (n / 10) (_ :: ds), ih (n / 10) [_]]
      simp

theorem toDigitsCore_spec (f n : Nat) (h : n < f) :
    (∀ c ∈ Nat.toDigitsCore 10 f n [], isdigit c = true) ∧
    digitsVal 0 (Nat.toDigitsCore 10 f n []) = n ∧ Nat.toDigitsCore 10 f n [] ≠ [] := by
  induction f generalizing n with
  | zero => omega
  | succ f ih =>
    have hd := digitChar_isdigit (n % 10) (Nat.mod_lt _ (by decide))
    simp only [Nat.toDigitsCore]
    split
    · rename_i h0
      have hn : n % 10 = n := by omega
      refine ⟨?_, ?_, by simp⟩
      · intro c hc
        simp only [List.mem_singleton] at hc
        rw [hc]; exact hd.1
      · simp only [digitsVal, hd.1, if_true, hd.2]
        omega
    · rename_i h0
      obtain ⟨h1, h2, h3⟩ := ih (n / 10) (by omega)
      rw [toDigitsCore_append]
      refine ⟨?_, ?_, by simp⟩
      · intro c hc
        rcases List.mem_append.1 hc with hc | hc
        · exact h1 c hc
        · simp only [List.mem_singleton] at hc
          rw [hc]; exact hd.1
      · rw [digitsVal_append _ _ h1, h2]
        simp only [digitsVal, hd.1, if_true, hd.2]
        omega

theorem toDigits_isdigit (n : Nat) : ∀ c ∈ Nat.toDigits 10 n, isdigit c = true :=
  (toDigitsCore_spec (n + 1) n (Nat.lt_succ_self n)).1

theorem digitsVal_toDigits (n : Nat) : digitsVal 0 (Nat.toDigits 10 n) = n :=
  (toDigitsCore_spec (n + 1) n (Nat.lt_succ_self n)).2.1

theorem toDigits_ne_nil (n : Nat) : Nat.toDigits 10 n ≠ [] :=
  (toDigitsCore_spec (n + 1) n (Nat.lt_succ_self n)).2.2

theorem strtoValue_toDigits (n : Nat) : strtoValue (Nat.toDigits 10 n) = n := by
  have hd := toDigits_isdigit n
  have hv := digitsVal_toDigits n
  have hne := toDigits_ne_nil n
  cases hl : Nat.toDigits 10 n with
  | nil => exact absurd hl hne
  | cons c cs =>
    rw [hl] at hd hv
    have hc := isdigit_not_special c (hd c (List.mem_cons_self _ _))
    simp only [strtoValue, List.dropWhile, hc.2.2.2.2.2.2, hc.2.2.1, hc.2.2.2.1, if_false, hv]

theorem strtoValue_lld (n : Int) : strtoValue (lld n) = n := by
  unfold lld
  split
  · rename_i h
    have hv := digitsVal_toDigits n.natAbs
    have : isspace '-' = false := by decide
    simp only [strtoValue, List.dropWhile, this, if_true, hv]
    omega
  · rename_i h
    rw [strtoValue_toDigits]
    omega

theorem atoll_lld (n : Int) (h : -9223372036854775808 ≤ n ∧ n ≤ 9223372036854775807) :
    atoll (lld n) = n := by
  unfold atoll sat64
  rw [strtoValue_lld]
  split_ifs <;> omega

theorem atoi_lld (n : Int) (h : -2147483648 ≤ n ∧ n ≤ 2147483647) : atoi (lld n) = n := by
  unfold atoi sat64 wrap32
  rw [strtoValue_lld]
  split_ifs <;> omega

theorem lld_ne_nil (n : Int) : lld n ≠ [] := by
  unfold lld
  split
  · simp
  · exact toDigits_ne_nil _

theorem lld_chars (n : Int) : ∀ c ∈ lld n, c ≠ ' ' ∧ c ≠ ':' ∧ c ≠ '\n' ∧ c ≠ '\r' := by
  intro c hc
  unfold lld at hc
  have key : ∀ m : Nat, c ∈ Nat.toDigits 10 m → c ≠ ' ' ∧ c ≠ ':' ∧ c ≠ '\n' ∧ c ≠ '\r' := by
    intro m hm
    have := isdigit_not_special c (toDigits_isdigit m c hm)
    exact ⟨this.1, this.2.1, this.2.2.2.2.1, this.2.2.2.2.2.1⟩
  split at hc
  · rcases List.mem_cons.1 hc with rfl | hc
    · decide
    · exact key _ hc
  · exact key _ hc

theorem strtok_r_sep (delim tok rest : CStr) (d : Char) (hne : tok ≠ [])
    (hno : ∀ c ∈ tok, c ∉ delim) (hd : d ∈ delim) :
    strtok_r delim (tok ++ d :: rest) = some (tok, rest) := by
  cases tok with
  | nil => exact absurd rfl hne
  | cons c cs =>
    have hc : c ∉ delim := hno c (List.mem_cons_self _ _)
    have hp : ∀ a ∈ c :: cs, (fun c => !decide (c ∈ delim)) a = true := by
      intro a ha; simp [hno a ha]
    have h1 : List.takeWhile (fun c => !decide (c ∈ delim)) ((c :: cs) ++ d :: rest) = c :: cs := by
      rw [List.takeWhile_append_of_pos hp]; simp [List.takeWhile, hd]
    have h2 : List.dropWhile (fun c => !decide (c ∈ delim)) ((c :: cs) ++ d :: rest) = d :: rest := by
      rw [List.dropWhile_append_of_pos hp]; simp [List.dropWhile, hd]
    have h0 : List.dropWhile (fun c => decide (c ∈ delim)) ((c :: cs) ++ d :: rest)
        = (c :: cs) ++ d :: rest := by
      simp [List.dropWhile, hc]
    unfold strtok_r
    rw [h0]
    show some (List.takeWhile _ ((c :: cs) ++ d :: rest),
      (List.dropWhile _ ((c :: cs) ++ d :: rest)).tail) = _
    rw [h1, h2]; rfl

theorem strtok_r_last (delim tok : CStr) (hne : tok ≠ []) (hno : ∀ c ∈ tok, c ∉ delim) :
    strtok_r delim tok = some (tok, []) := by
  cases tok with
  | nil => exact absurd rfl hne
  | cons c cs =>
    have hc : c ∉ delim := hno c (List.mem_cons_self _ _)
    have hp : ∀ a ∈ c :: cs, (fun c => !decide (c ∈ delim)) a = true := by
      intro a ha; simp [hno a ha]
    have h1 : List.takeWhile (fun c => !decide (c ∈ delim)) (c :: cs) = c :: cs :=
      List.takeWhile_eq_self_iff.2 hp
    have h2 : List.dropWhile (fun c => !decide (c ∈ delim)) (c :: cs) = [] :=
      List.dropWhile_eq_nil_iff.2 hp
    have h0 : List.dropWhile (fun c => decide (c ∈ delim)) (c :: cs) = c :: cs := by
      simp [List.dropWhile, hc]
    unfold strtok_r
    rw [h0]
    show some (List.takeWhile _ (c :: cs), (List.dropWhile _ (c :: cs)).tail) = _
    rw [h1, h2]; rfl

/-! ## Slab and item lines -/

theorem fits_token_ne (sep t : CStr) (h : fits_token sep t) (d : Char) (hd : d ∈ sep) :
    ∀ c ∈ t, c ≠ d := by
  intro c hc hcd
  exact h.2.2 c hc (hcd ▸ hd)

theorem fill_stats_slabs_element_line (id field value : CStr) (s : STATS)
    (hi1 : id ≠ []) (hi2 : ∀ c ∈ id, c ≠ ' ') (hi3 : ∀ c ∈ id, c ≠ ':')
    (hf1 : field ≠ []) (hf2 : field.length < 64)
    (hf3 : ∀ c ∈ field, c ≠ ' ') (hf4 : ∀ c ∈ field, c ≠ ':')
    (hv1 : value ≠ []) (hv2 : value.length < 64) (hv3 : ∀ c ∈ value, c ≠ ' ') :
    fill_stats_slabs_element (slab_line id field value) s =
      if ¬ (atoi id > 0) then .error .assertFail
      else fill_stats_slabs_vals field value (atoi id - 1) s := by
  have hkey_ne : id ++ ':' :: field ≠ [] := by
    intro h
    exact hi1 (List.append_eq_nil.1 h).1
  have hkey_sp : ∀ c ∈ id ++ ':' :: field, c ∉ " ".toList := by
    intro c hc
    simp only [String.toList, List.mem_singleton]
    rcases List.mem_append.1 hc with h | h
    · exact hi2 c h
    · rcases List.mem_cons.1 h with rfl | h
      · decide
      · exact hf3 c h
  have e1 : strtok_r " ".toList (slab_line id field value)
      = some ("STAT".toList, (id ++ ':' :: field) ++ ' ' :: value) := by
    have := strtok_r_sep " ".toList "STAT".toList ((id ++ ':' :: field) ++ ' ' :: value) ' '
      (by decide) (by decide) (by decide)
    rw [← this]
    simp [slab_line]
  have e2 : strtok_r " ".toList ((id ++ ':' :: field) ++ ' ' :: value)
      = some (id ++ ':' :: field, value) :=
    strtok_r_sep _ _ _ _ hkey_ne hkey_sp (by decide)
  have e3 : strtok_r ":".toList (id ++ ':' :: field) = some (id, field) :=
    strtok_r_sep _ _ _ _ hi1 (fun c hc => by simpa using hi3 c hc) (by decide)
  have e4 : strtok_r ":".toList field = some (field, []) :=
    strtok_r_last _ _ hf1 (fun c hc => by simpa using hf4 c hc)
  have e5 : strtok_r " ".toList value = some (value, []) :=
    strtok_r_last _ _ hv1 (fun c hc => by simpa using hv3 c hc)
  have hcolon : ':' ∈ id ++ ':' :: field := by simp
  have hcmp : strncmp "STAT".toList "STAT".toList 3 = 0 := by decide
  unfold fill_stats_slabs_element
  rw [e1]
  simp only [hcmp, ne_eq, not_true_eq_false, if_false]
  rw [e2]
  simp only [hcolon, not_true_eq_false, if_false]
  rw [e3]
  simp only []
  rw [e4]
  simp only [Nat.not_le.2 hf2, if_false]
  rw [e5]
  simp only [Nat.not_le.2 hv2, if_false]

theorem fill_stats_items_element_line (id field value : CStr) (s : STATS)
    (hi1 : id ≠ []) (hi2 : ∀ c ∈ id, c ≠ ' ') (hi3 : ∀ c ∈ id, c ≠ ':')
    (hf1 : field ≠ []) (hf2 : field.length < 64)
    (hf3 : ∀ c ∈ field, c ≠ ' ') (hf4 : ∀ c ∈ field, c ≠ ':')
    (hv1 : value ≠ []) (hv2 : value.length < 64) (hv3 : ∀ c ∈ value, c ≠ ' ') :
    fill_stats_items_element (item_line id field value) s =
      if ¬ (atoi id > 0) then .error .assertFail
      else fill_stats_items_vals field value (atoi id - 1) s := by
  have hkey_ne : "items".toList ++ ':' :: (id ++ ':' :: field) ≠ [] := by
    simp
  have hkey_sp : ∀ c ∈ "items".toList ++ ':' :: (id ++ ':' :: field), c ∉ " ".toList := by
    intro c hc
    simp only [String.toList, List.mem_singleton]
    rcases List.mem_append.1 hc with h | h
    · have hall : ∀ x ∈ "items".toList, x ≠ ' ' := by decide
      exact hall c h
    · rcases List.mem_cons.1 h with rfl | h
      · decide
      · rcases List.mem_append.1 h with h | h
        · exact hi2 c h
        · rcases List.mem_cons.1 h with rfl | h
          · decide
          · exact hf3 c h
  have e1 : strtok_r " ".toList (item_line id field value)
      = some ("STAT".toList, ("items".toList ++ ':' :: (id ++ ':' :: field)) ++ ' ' :: value) := by
    have := strtok_r_sep " ".toList "STAT".toList
      (("items".toList ++ ':' :: (id ++ ':' :: field)) ++ ' ' :: value) ' '
      (by decide) (by decide) (by decide)
    rw [← this]
    simp [item_line]
  have e2 : strtok_r " ".toList (("items".toList ++ ':' :: (id ++ ':' :: field)) ++ ' ' :: value)
      = some ("items".toList ++ ':' :: (id ++ ':' :: field), value) :=
    strtok_r_sep _ _ _ _ hkey_ne hkey_sp (by decide)
  have e0 : strtok_r ":".toList ("items".toList ++ ':' :: (id ++ ':' :: field))
      = some ("items".toList, id ++ ':' :: field) :=
    strtok_r_sep _ _ _ _ (by decide) (by decide) (by decide)
  have e3 : strtok_r ":".toList (id ++ ':' :: field) = some (id, field) :=
    strtok_r_sep _ _ _ _ hi1 (fun c hc => by simpa using hi3 c hc) (by decide)
  have e4 : strtok_r ":".toList field = some (field, []) :=
    strtok_r_last _ _ hf1 (fun c hc => by simpa using hf4 c hc)
  have e5 : strtok_r " ".toList value = some (value, []) :=
    strtok_r_last _ _ hv1 (fun c hc => by simpa using hv3 c hc)
  have hcmp : strncmp "STAT".toList "STAT".toList 3 = 0 := by decide
  unfold fill_stats_items_element
  rw [e1]
  simp only [hcmp, ne_eq, not_true_eq_false, if_false]
  rw [e2]
  simp only []
  rw [e0]
  simp only []
  rw [e3]
  simp only []
  rw [e4]
  simp only [Nat.not_le.2 hf2, if_false]
  rw [e5]
  simp only [Nat.not_le.2 hv2, if_false]

theorem stat_lines_loop_first (element : CStr → STATS → Except Fault STATS)
    (line rest : CStr) (s : STATS) (fuel : Nat)
    (h1 : line ≠ []) (h2 : ∀ c ∈ line, c ≠ '\n' ∧ c ≠ '\r') :
    stat_lines_loop element (fuel + 1) (line ++ '\r' :: rest) s =
      match element line s with
      | .error f => .error f
      | .ok s1 => stat_lines_loop element fuel rest s1 := by
  have e : strtok_r "\n\r".toList (line ++ '\r' :: rest) = some (line, rest) :=
    strtok_r_sep _ _ _ _ h1 (fun c hc => by simpa using h2 c hc) (by decide)
  rw [stat_lines_loop, e]

/-- C1 (as amended): a slab-stats line `STAT <id>:<field> <value>` with
`1 ≤ id ≤ MAX_SLABS` whose field and value have at most 63 characters each
is applied by `fill_stats_slabs_element` as the record `(field, value)` to the
slot at zero-based index `id - 1`: that slot's `slab` becomes `id`, no other
slab slot and nothing else in the snapshot changes, and a `chunk_size` record
stores its value there. -/
theorem slab_line_updates_slot (id : Int) (field value : CStr) (s : STATS)
    (hid : 1 ≤ id ∧ id ≤ MAX_SLABS)
    (hfield : fits_token " :".toList field) (hvalue : fits_token " ".toList value) :
    ∃ s1, fill_stats_slabs_element (slab_line (lld id) field value) s = .ok s1 ∧
      fill_stats_slabs_vals field value (id - 1) s = .ok s1 ∧
      (∀ j : Fin MAX_SLABS, (j : Int) = id - 1 → (s1.ss j).slab = id) ∧
      (∀ j : Fin MAX_SLABS, (j : Int) ≠ id - 1 → s1.ss j = s.ss j) ∧
      s1 = { s with ss := s1.ss } ∧
      (field = "chunk_size".toList →
        ∀ j : Fin MAX_SLABS, (j : Int) = id - 1 → (s1.ss j).chunk_size = atoll value) := by
  have hat : atoi (lld id) = id := atoi_lld id (by simp only [MAX_SLABS] at hid; omega)
  have hrange : 0 ≤ id - 1 ∧ id - 1 < (MAX_SLABS : Int) := by
    simp only [MAX_SLABS] at hid ⊢; omega
  rw [fill_stats_slabs_element_line (lld id) field value s (lld_ne_nil id)
    (fun c hc => (lld_chars id c hc).1) (fun c hc => (lld_chars id c hc).2.1)
    hfield.1 hfield.2.1 (fits_token_ne _ _ hfield ' ' (by decide))
    (fits_token_ne _ _ hfield ':' (by decide))
    hvalue.1 hvalue.2.1 (fits_token_ne _ _ hvalue ' ' (by decide)), hat]
  have hpos : id > 0 := by omega
  simp only [hpos, not_true_eq_false, if_false]
  unfold fill_stats_slabs_vals
  rw [dif_pos hrange]
  have hb : (id - 1).toNat < MAX_SLABS := by omega
  have hidx : ∀ j : Fin MAX_SLABS, (j : Int) = id - 1 ↔ j = ⟨(id - 1).toNat, hb⟩ := by
    intro j
    constructor
    · intro hj; exact Fin.ext (by simp only []; omega)
    · intro hj; rw [hj]; simp only []; omega
  refine ⟨_, rfl, rfl, ?_, ?_, rfl, ?_⟩
  · intro j hj
    rw [(hidx j).1 hj]
    simp only [Function.update_same]
    split_ifs <;> simp
  · intro j hj
    have hj2 : j ≠ ⟨(id - 1).toNat, hb⟩ := fun h => hj ((hidx j).2 h)
    simp only [Function.update_noteq hj2]
  · intro hfn j hj
    rw [(hidx j).1 hj]
    simp only [Function.update_same, hfn, if_true]

/-- Witness for C1 (as amended): `STAT 3:chunk_size 96` on the initial snapshot sets
`ss[2].slab = 3` and `ss[2].chunk_size = 96`. -/
theorem slab_line_updates_slot_witness :
    ∃ s1, fill_stats_slabs_element "STAT 3:chunk_size 96".toList empty_stats = .ok s1 ∧
      (s1.ss 2).slab = 3 ∧ (s1.ss 2).chunk_size = 96 := by
  obtain ⟨s1, h1, _, h3, _, _, h6⟩ :=
    slab_line_updates_slot 3 "chunk_size".toList "96".toList empty_stats
      (by decide) (by decide) (by decide)
  exact ⟨s1, h1, h3 2 (by decide), by rw [h6 rfl 2 (by decide)]; decide⟩

/-- C1 (counterexample): the line `STAT 3:chunk_size <value>` whose value is 96
written with 64 digits names slab 3, yet `fill_stats_slabs_element` does not
apply the record: its `strcpy` into `char value[64]` is unchecked and the run
ends in the buffer overflow, while `fill_stats_slabs_vals` on the same record
sets `ss[2].slab = 3` and `ss[2].chunk_size = 96`.  A field name of 64
characters ends the run the same way at the `strcpy` into `char name[64]`. -/
theorem long_token_overflows_slab_line :
    (List.replicate 62 '0' ++ "96".toList).length = 64 ∧
    (∀ c ∈ List.replicate 62 '0' ++ "96".toList, c ∉ " ".toList) ∧
    fill_stats_slabs_element
        (slab_line (lld 3) "chunk_size".toList (List.replicate 62 '0' ++ "96".toList))
        empty_stats = .error .bufferOverflow ∧
    (∃ s1, fill_stats_slabs_vals "chunk_size".toList (List.replicate 62 '0' ++ "96".toList)
        (3 - 1) empty_stats = .ok s1 ∧ (s1.ss 2).slab = 3 ∧ (s1.ss 2).chunk_size = 96) ∧
    (List.replicate 64 'x').length = 64 ∧
    (∀ c ∈ List.replicate 64 'x', c ∉ " :".toList) ∧
    fill_stats_slabs_element (slab_line (lld 3) (List.replicate 64 'x') "96".toList)
        empty_stats = .error .bufferOverflow ∧
    (∃ s1, fill_stats_slabs_vals (List.replicate 64 'x') "96".toList (3 - 1) empty_stats = .ok s1 ∧
      (s1.ss 2).slab = 3) :=
  ⟨by decide, by decide, rfl, ⟨_, rfl, by decide, by decide!⟩, by decide, by decide,
    rfl, ⟨_, rfl, by decide⟩⟩

/-! ## What a line parser can do, and what no parser touches -/

theorem fill_stats_slabs_element_ok (line : CStr) (s s1 : STATS)
    (h : fill_stats_slabs_element line s = .ok s1) :
    s1 = s ∨ ∃ tok save key save1 id save2 name r1 value r2,
      strtok_r " ".toList line = some (tok, save) ∧ strncmp tok "STAT".toList 3 = 0 ∧
      strtok_r " ".toList save = some (key, save1) ∧ ':' ∈ key ∧
      strtok_r ":".toList key = some (id, save2) ∧
      strtok_r ":".toList save2 = some (name, r1) ∧
      strtok_r " ".toList save1 = some (value, r2) ∧
      0 < atoi id ∧ fill_stats_slabs_vals name value (atoi id - 1) s = .ok s1 := by
  unfold fill_stats_slabs_element at h
  rcases h1 : strtok_r " ".toList line with _ | ⟨tok, save⟩
  · rw [h1] at h; cases h
  rw [h1] at h; dsimp only at h
  by_cases hc : strncmp tok "STAT".toList 3 ≠ 0
  · rw [if_pos hc] at h; cases h; exact Or.inl rfl
  rw [if_neg hc] at h
  rcases h2 : strtok_r " ".toList save with _ | ⟨key, save1⟩
  · rw [h2] at h; cases h; exact Or.inl rfl
  rw [h2] at h; dsimp only at h
  by_cases hk : ':' ∉ key
  · rw [if_pos hk] at h; cases h; exact Or.inl rfl
  rw [if_neg hk] at h
  rcases h3 : strtok_r ":".toList key with _ | ⟨id, save2⟩
  · rw [h3] at h; cases h
  rw [h3] at h; dsimp only at h
  rcases h4 : strtok_r ":".toList save2 with _ | ⟨name, r1⟩
  · rw [h4] at h; cases h
  rw [h4] at h; dsimp only at h
  by_cases hn : 64 ≤ name.length
  · rw [if_pos hn] at h; cases h
  rw [if_neg hn] at h
  rcases h5 : strtok_r " ".toList save1 with _ | ⟨value, r2⟩
  · rw [h5] at h; cases h; exact Or.inl rfl
  rw [h5] at h; dsimp only at h
  by_cases hv : 64 ≤ value.length
  · rw [if_pos hv] at h; cases h
  rw [if_neg hv] at h
  by_cases hp : ¬ (atoi id > 0)
  · rw [if_pos hp] at h; cases h
  rw [if_neg hp] at h
  exact Or.inr ⟨tok, save, key, save1, id, save2, name, r1, value, r2, rfl, not_not.1 hc, h2,
    not_not.1 hk, h3, h4, h5, not_not.1 hp, h⟩


theorem fill_stats_items_element_ok (line : CStr) (s s1 : STATS)
    (h : fill_stats_items_element line s = .ok s1) :
    s1 = s ∨ ∃ name value slab, 0 < slab ∧
      fill_stats_items_vals name value (slab - 1) s = .ok s1 := by
  unfold fill_stats_items_element at h
  rcases h1 : strtok_r " ".toList line with _ | ⟨tok, save⟩
  · rw [h1] at h; cases h
  rw [h1] at h; dsimp only at h
  by_cases hc : strncmp tok "STAT".toList 3 ≠ 0
  · rw [if_pos hc] at h; cases h; exact Or.inl rfl
  rw [if_neg hc] at h
  rcases h2 : strtok_r " ".toList save with _ | ⟨key, save1⟩
  · rw [h2] at h; cases h; exact Or.inl rfl
  rw [h2] at h; dsimp only at h
  generalize (match strtok_r ":".toList key with
    | none => ([] : CStr)
    | some (_, r) => r) = save2 at h
  rcases h3 : strtok_r ":".toList save2 with _ | ⟨id, save3⟩
  · rw [h3] at h; cases h
  rw [h3] at h; dsimp only at h
  rcases h4 : strtok_r ":".toList save3 with _ | ⟨name, r1⟩
  · rw [h4] at h; cases h
  rw [h4] at h; dsimp only at h
  by_cases hn : 64 ≤ name.length
  · rw [if_pos hn] at h; cases h
  rw [if_neg hn] at h
  rcases h5 : strtok_r " ".toList save1 with _ | ⟨value, r2⟩
  · rw [h5] at h; cases h; exact Or.inl rfl
  rw [h5] at h; dsimp only at h
  by_cases hv : 64 ≤ value.length
  · rw [if_pos hv] at h; cases h
  rw [if_neg hv] at h
  by_cases hp : ¬ (atoi id > 0)
  · rw [if_pos hp] at h; cases h
  rw [if_neg hp] at h
  exact Or.inr ⟨name, value, atoi id, not_not.1 hp, h⟩

theorem fill_stats_element_ok (line : CStr) (s s1 : STATS)
    (h : fill_stats_element line s = .ok s1) :
    s1 = s ∨ ∃ name value, fill_stats_vals name value s = .ok s1 := by
  unfold fill_stats_element at h
  rcases h1 : strtok_r " ".toList line with _ | ⟨tok, save⟩
  · rw [h1] at h; cases h
  rw [h1] at h; dsimp only at h
  by_cases hc : strncmp tok "STAT".toList 3 ≠ 0
  · rw [if_pos hc] at h; cases h; exact Or.inl rfl
  rw [if_neg hc] at h
  rcases h2 : strtok_r " ".toList save with _ | ⟨name, save1⟩
  · rw [h2] at h; cases h; exact Or.inl rfl
  rw [h2] at h; dsimp only at h
  by_cases hn : 64 ≤ name.length
  · rw [if_pos hn] at h; cases h
  rw [if_neg hn] at h
  rcases h5 : strtok_r " ".toList save1 with _ | ⟨value, r2⟩
  · rw [h5] at h; cases h; exact Or.inl rfl
  rw [h5] at h; dsimp only at h
  by_cases hv : 64 ≤ value.length
  · rw [if_pos hv] at h; cases h
  rw [if_neg hv] at h
  exact Or.inr ⟨name, value, h⟩

theorem fill_stats_slabs_vals_frame (name value : CStr) (slab : Int) (s s1 : STATS)
    (h : fill_stats_slabs_vals name value slab s = .ok s1) : s1 = { s with ss := s1.ss } := by
  unfold fill_stats_slabs_vals at h
  split at h
  · injection h with h; rw [← h]
  · cases h

theorem fill_stats_items_vals_frame (name value : CStr) (slab : Int) (s s1 : STATS)
    (h : fill_stats_items_vals name value slab s = .ok s1) : s1 = { s with si := s1.si } := by
  unfold fill_stats_items_vals at h
  split at h
  · injection h with h; rw [← h]
  · cases h

theorem fill_stats_vals_frame (name value : CStr) (s s1 : STATS)
    (h : fill_stats_vals name value s = .ok s1) :
    s1 = { s with uptime := s1.uptime, version := s1.version,
                  limit_maxbytes := s1.limit_maxbytes, total_items := s1.total_items,
                  evictions := s1.evictions, cmd_get := s1.cmd_get, cmd_set := s1.cmd_set,
                  get_hits := s1.get_hits } := by
  unfold fill_stats_vals at h
  split_ifs at h <;> first | (cases h; done) | (injection h with h; rw [← h])

theorem stat_lines_loop_inv (P : STATS → Prop) (element : CStr → STATS → Except Fault STATS)
    (hel : ∀ line s s1, P s → element line s = .ok s1 → P s1) :
    ∀ (fuel : Nat) (input : CStr) (s s1 : STATS), P s →
      stat_lines_loop element fuel input s = .ok s1 → P s1 := by
  intro fuel
  induction fuel with
  | zero =>
    intro input s s1 hp h
    simp only [stat_lines_loop] at h
    cases h; exact hp
  | succ n ih =>
    intro input s s1 hp h
    rw [stat_lines_loop] at h
    rcases h1 : strtok_r "\n\r".toList input with _ | ⟨token, rest⟩
    · rw [h1] at h; cases h; exact hp
    rw [h1] at h; dsimp only at h
    rcases h2 : element token s with f | s2
    · rw [h2] at h; cases h
    rw [h2] at h
    exact ih _ _ _ (hel _ _ _ hp h2) h

theorem fill_stats_slabs_frame (input : CStr) (s s1 : STATS)
    (h : fill_stats_slabs input s = .ok s1) : s1 = { s with ss := s1.ss } := by
  unfold fill_stats_slabs at h
  refine stat_lines_loop_inv (fun x => x = { s with ss := x.ss }) _ ?_ _ _ _ _ rfl h
  intro line a b ha hb
  rcases fill_stats_slabs_element_ok line a b hb with
    h1 | ⟨_, _, _, _, _, _, _, _, _, _, _, _, _, _, _, _, _, _, h1⟩
  · rw [h1]; exact ha
  · have := fill_stats_slabs_vals_frame _ _ _ _ _ h1
    rw [this, ha]

theorem fill_stats_items_frame (input : CStr) (s s1 : STATS)
    (h : fill_stats_items input s = .ok s1) : s1 = { s with si := s1.si } := by
  unfold fill_stats_items at h
  refine stat_lines_loop_inv (fun x => x = { s with si := x.si }) _ ?_ _ _ _ _ rfl h
  intro line a b ha hb
  rcases fill_stats_items_element_ok line a b hb with h1 | ⟨_, _, _, _, h1⟩
  · rw [h1]; exact ha
  · have := fill_stats_items_vals_frame _ _ _ _ _ h1
    rw [this, ha]

theorem fill_stats_frame (input : CStr) (s s1 : STATS)
    (h : fill_stats input s = .ok s1) :
    s1 = { s with uptime := s1.uptime, version := s1.version,
                  limit_maxbytes := s1.limit_maxbytes, total_items := s1.total_items,
                  evictions := s1.evictions, cmd_get := s1.cmd_get, cmd_set := s1.cmd_set,
                  get_hits := s1.get_hits } := by
  unfold fill_stats at h
  refine stat_lines_loop_inv (fun x => x = { s with
      uptime := x.uptime, version := x.version,
      limit_maxbytes := x.limit_maxbytes, total_items := x.total_items,
      evictions := x.evictions, cmd_get := x.cmd_get, cmd_set := x.cmd_set,
      get_hits := x.get_hits }) _ ?_ _ _ _ _ rfl h
  intro line a b ha hb
  rcases fill_stats_element_ok line a b hb with h1 | ⟨_, _, h1⟩
  · rw [h1]; exact ha
  · have := fill_stats_vals_frame _ _ _ _ h1
    rw [this, ha]

/-! ## Lines with a slab id that is not positive -/

theorem stat_lines_loop_abort (element : CStr → STATS → Except Fault STATS)
    (line rest : CStr) (s : STATS) (f : Fault)
    (h1 : line ≠ []) (h2 : ∀ c ∈ line, c ≠ '\n' ∧ c ≠ '\r') (he : element line s = .error f) :
    stat_lines_loop element (line ++ '\r' :: rest).length (line ++ '\r' :: rest) s = .error f := by
  have hlen : (line ++ '\r' :: rest).length = (line.length + rest.length) + 1 := by
    simp only [List.length_append, List.length_cons]; omega
  rw [hlen, stat_lines_loop_first element line rest s _ h1 h2, he]

theorem slab_line_chars (id field value : CStr) (d : Char) (hd : d ∉ "STAT :".toList)
    (hi : ∀ c ∈ id, c ≠ d) (hf : ∀ c ∈ field, c ≠ d)
    (hv : ∀ c ∈ value, c ≠ d) : ∀ c ∈ slab_line id field value, c ≠ d := by
  intro c hc
  simp only [slab_line, List.mem_append, List.mem_cons] at hc
  rcases hc with ((h | h) | h | h) | h | h
  · have hsub : ∀ x ∈ "STAT ".toList, x ∈ "STAT :".toList := by decide
    intro e; exact hd (e ▸ hsub c h)
  · exact hi c h
  · rw [h]; intro e; exact hd (e ▸ (by decide : ':' ∈ "STAT :".toList))
  · exact hf c h
  · rw [h]; intro e; exact hd (e ▸ (by decide : ' ' ∈ "STAT :".toList))
  · exact hv c h

theorem item_line_chars (id field value : CStr) (d : Char) (hd : d ∉ "STAT items:".toList)
    (hi : ∀ c ∈ id, c ≠ d) (hf : ∀ c ∈ field, c ≠ d)
    (hv : ∀ c ∈ value, c ≠ d) : ∀ c ∈ item_line id field value, c ≠ d := by
  intro c hc
  simp only [item_line, List.mem_append, List.mem_cons] at hc
  rcases hc with ((h | h) | h | h) | h | h
  · intro e; exact hd (e ▸ h)
  · exact hi c h
  · rw [h]; intro e; exact hd (e ▸ (by decide : ':' ∈ "STAT items:".toList))
  · exact hf c h
  · rw [h]; intro e; exact hd (e ▸ (by decide : ' ' ∈ "STAT items:".toList))
  · exact hv c h

/-- C2 (as amended): a slab-stats line `STAT <id>:<field> <value>` or item-stats
line `STAT items:<id>:<field> <value>` whose slab id parses (`atoi`) as an
integer `≤ 0` is not skipped: the line parser fails `assert(slab > 0)`, so it
does not return, and `fill_stats_slabs` / `fill_stats_items`, meeting such a
line first, abort too and apply none of the lines after it. -/
theorem nonpositive_slab_id_aborts (id field value rest : CStr) (s : STATS)
    (hid : id ≠ [] ∧ ∀ c ∈ id, c ∉ " :\n\r".toList) (hpos : atoi id ≤ 0)
    (hfield : fits_token " :\n\r".toList field) (hvalue : fits_token " \n\r".toList value) :
    fill_stats_slabs_element (slab_line id field value) s = .error .assertFail ∧
    fill_stats_items_element (item_line id field value) s = .error .assertFail ∧
    fill_stats_slabs (slab_line id field value ++ "\r\n".toList ++ rest) s = .error .assertFail ∧
    fill_stats_items (item_line id field value ++ "\r\n".toList ++ rest) s
      = .error .assertFail := by
  have hic : ∀ d ∈ " :\n\r".toList, ∀ c ∈ id, c ≠ d := by
    intro d hd c hc hcd
    exact hid.2 c hc (hcd ▸ hd)
  have hfc := fits_token_ne _ _ hfield
  have hvc := fits_token_ne _ _ hvalue
  have hnot : ¬ (atoi id > 0) := by omega
  have hs : ∀ s : STATS, fill_stats_slabs_element (slab_line id field value) s
      = .error .assertFail := by
    intro s
    rw [fill_stats_slabs_element_line id field value s hid.1 (hic ' ' (by decide))
      (hic ':' (by decide)) hfield.1 hfield.2.1 (hfc ' ' (by decide)) (hfc ':' (by decide))
      hvalue.1 hvalue.2.1 (hvc ' ' (by decide)), if_pos hnot]
  have hi : ∀ s : STATS, fill_stats_items_element (item_line id field value) s
      = .error .assertFail := by
    intro s
    rw [fill_stats_items_element_line id field value s hid.1 (hic ' ' (by decide))
      (hic ':' (by decide)) hfield.1 hfield.2.1 (hfc ' ' (by decide)) (hfc ':' (by decide))
      hvalue.1 hvalue.2.1 (hvc ' ' (by decide)), if_pos hnot]
  have hsl : ∀ c ∈ slab_line id field value, c ≠ '\n' ∧ c ≠ '\r' := fun c hc =>
    ⟨slab_line_chars id field value '\n' (by decide) (hic '\n' (by decide))
        (hfc '\n' (by decide)) (hvc '\n' (by decide)) c hc,
     slab_line_chars id field value '\r' (by decide) (hic '\r' (by decide))
        (hfc '\r' (by decide)) (hvc '\r' (by decide)) c hc⟩
  have hil : ∀ c ∈ item_line id field value, c ≠ '\n' ∧ c ≠ '\r' := fun c hc =>
    ⟨item_line_chars id field value '\n' (by decide) (hic '\n' (by decide))
        (hfc '\n' (by decide)) (hvc '\n' (by decide)) c hc,
     item_line_chars id field value '\r' (by decide) (hic '\r' (by decide))
        (hfc '\r' (by decide)) (hvc '\r' (by decide)) c hc⟩
  refine ⟨hs s, hi s, ?_, ?_⟩
  · unfold fill_stats_slabs
    have e : slab_line id field value ++ "\r\n".toList ++ rest
        = slab_line id field value ++ '\r' :: ('\n' :: rest) := by simp
    rw [e]
    exact stat_lines_loop_abort _ _ _ _ _ (by simp [slab_line]) hsl (hs _)
  · unfold fill_stats_items
    have e : item_line id field value ++ "\r\n".toList ++ rest
        = item_line id field value ++ '\r' :: ('\n' :: rest) := by simp
    rw [e]
    exact stat_lines_loop_abort _ _ _ _ _ (by simp [item_line]) hil (hi _)

/-- Witness for C2 (as amended): lines with the slab id `-1`. -/
theorem nonpositive_slab_id_aborts_witness :
    fill_stats_slabs_element "STAT -1:chunk_size 96".toList empty_stats = .error .assertFail ∧
    fill_stats_items_element "STAT items:-1:evicted 96".toList empty_stats
      = .error .assertFail ∧
    fill_stats_slabs "STAT -1:chunk_size 96\r\nSTAT 2:chunk_size 120\r\n".toList empty_stats
      = .error .assertFail ∧
    fill_stats_items "STAT items:-1:evicted 96\r\nSTAT items:2:evicted 1\r\n".toList empty_stats
      = .error .assertFail :=
  nonpositive_slab_id_aborts "-1".toList "chunk_size".toList "96".toList
    "STAT 2:chunk_size 120\r\n".toList empty_stats (by decide) (by decide) (by decide) (by decide)

/-- C2 (counterexample): `STAT 0:chunk_size 96` is not skipped by the slab
line parser, nor `STAT items:0:evicted 96` by the item line parser; both
runs end in the failed assertion, and `fill_stats_slabs` does not go on to
the following line `STAT 1:chunk_size 96`. -/
theorem nonpositive_slab_id_not_skipped :
    fill_stats_slabs_element "STAT 0:chunk_size 96".toList empty_stats = .error .assertFail ∧
    fill_stats_items_element "STAT items:0:evicted 96".toList empty_stats
      = .error .assertFail ∧
    fill_stats_slabs "STAT 0:chunk_size 96\r\nSTAT 1:chunk_size 96\r\n".toList empty_stats
      = .error .assertFail :=
  ⟨rfl, rfl, rfl⟩

/-! ## Rates across two refresh cycles -/

theorem LongDouble.div_finite (a b : ℚ) (hb : b ≠ 0) :
    LongDouble.div (.finite a) (.finite b) = .finite (a / b) := by
  simp only [LongDouble.div, hb, if_false]

/-! ## Rounding to `long double` -/

theorem roundHalfEven_near (x : ℚ) : |((roundHalfEven x : Int) : ℚ) - x| ≤ 1 / 2 := by
  have h1 : ((⌊x⌋ : Int) : ℚ) ≤ x := Int.floor_le x
  have h2 : x < ((⌊x⌋ : Int) : ℚ) + 1 := Int.lt_floor_add_one x
  unfold roundHalfEven
  dsimp only
  rw [abs_le]
  split_ifs with a b c
  · constructor <;> linarith
  · push_cast; constructor <;> linarith
  · constructor <;> linarith
  · push_cast; constructor <;> linarith

theorem LongDouble.log2_spec (fuel n : Nat) (h : n ≤ fuel) (hn : 0 < n) :
    2 ^ LongDouble.log2 fuel n ≤ n ∧ n < 2 ^ (LongDouble.log2 fuel n + 1) := by
  induction fuel generalizing n with
  | zero => omega
  | succ f ih =>
    rw [LongDouble.log2]
    by_cases h2 : n < 2
    · rw [if_pos h2]
      have : n = 1 := by omega
      subst this
      exact ⟨by norm_num, by norm_num⟩
    · rw [if_neg h2]
      obtain ⟨a, b⟩ := ih (n / 2) (by omega) (by omega)
      rw [pow_succ]
      constructor
      · omega
      · rw [pow_succ] at b ⊢
        rw [pow_succ]
        omega

theorem LongDouble.pow2_eq (k : Int) : LongDouble.pow2 k = (2 : ℚ) ^ k := by
  unfold LongDouble.pow2
  by_cases h : 0 ≤ k
  · rw [if_pos h]
    obtain ⟨n, rfl⟩ := Int.eq_ofNat_of_zero_le h
    rw [Int.toNat_natCast, zpow_natCast]
    push_cast
    rfl
  · rw [if_neg h]
    obtain ⟨n, hn⟩ := Int.eq_ofNat_of_zero_le (show 0 ≤ -k by omega)
    have hk : k = -(n : Int) := by omega
    rw [hn, Int.toNat_natCast, hk, zpow_neg, zpow_natCast]
    push_cast
    rw [one_div]

theorem LongDouble.exponent_spec (q : ℚ) (hq : q ≠ 0) :
    (2 : ℚ) ^ LongDouble.exponent q ≤ |q| ∧ |q| < (2 : ℚ) ^ (LongDouble.exponent q + 1) := by
  have hnum : 0 < q.num.natAbs := Int.natAbs_pos.2 (Rat.num_ne_zero.2 hq)
  have hden : 0 < q.den := q.den_pos
  obtain ⟨a1, a2⟩ := LongDouble.log2_spec _ _ (le_refl q.num.natAbs) hnum
  obtain ⟨b1, b2⟩ := LongDouble.log2_spec _ _ (le_refl q.den) hden
  have habs : |q| = (q.num.natAbs : ℚ) / (q.den : ℚ) := by
    conv_lhs => rw [← Rat.num_div_den q]
    rw [abs_div, Nat.abs_cast, Nat.cast_natAbs, Int.cast_abs]
  have hdq : (0 : ℚ) < (q.den : ℚ) := by exact_mod_cast hden
  have two : (2 : ℚ) ≠ 0 := by norm_num
  have A1 : ((2 : ℚ) ^ (LongDouble.log2 q.num.natAbs q.num.natAbs : Int)) ≤ (q.num.natAbs : ℚ) := by
    rw [zpow_natCast]; exact_mod_cast a1
  have A2 : (q.num.natAbs : ℚ) < (2 : ℚ) ^ ((LongDouble.log2 q.num.natAbs q.num.natAbs : Int) + 1) := by
    rw [zpow_add_one₀ two, zpow_natCast, ← pow_succ]; exact_mod_cast a2
  have B1 : ((2 : ℚ) ^ (LongDouble.log2 q.den q.den : Int)) ≤ (q.den : ℚ) := by
    rw [zpow_natCast]; exact_mod_cast b1
  have B2 : (q.den : ℚ) < (2 : ℚ) ^ ((LongDouble.log2 q.den q.den : Int) + 1) := by
    rw [zpow_add_one₀ two, zpow_natCast, ← pow_succ]; exact_mod_cast b2
  unfold LongDouble.exponent
  dsimp only
  rw [LongDouble.pow2_eq]
  generalize (LongDouble.log2 q.num.natAbs q.num.natAbs : Int) = a at A1 A2 ⊢
  generalize (LongDouble.log2 q.den q.den : Int) = b at B1 B2 ⊢
  have hpos : ∀ k : Int, (0 : ℚ) < (2 : ℚ) ^ k := fun k => zpow_pos (by norm_num) k
  split_ifs with h
  · refine ⟨h, ?_⟩
    rw [habs, div_lt_iff₀ hdq]
    calc (q.num.natAbs : ℚ) < (2 : ℚ) ^ (a + 1) := A2
      _ = (2 : ℚ) ^ (a - b + 1) * (2 : ℚ) ^ b := by
        rw [← zpow_add₀ two]; congr 1; ring
      _ ≤ (2 : ℚ) ^ (a - b + 1) * (q.den : ℚ) :=
        mul_le_mul_of_nonneg_left B1 (le_of_lt (hpos _))
  · refine ⟨?_, ?_⟩
    · rw [habs, le_div_iff₀ hdq]
      calc (2 : ℚ) ^ (a - b - 1) * (q.den : ℚ)
          ≤ (2 : ℚ) ^ (a - b - 1) * (2 : ℚ) ^ (b + 1) :=
            mul_le_mul_of_nonneg_left (le_of_lt B2) (le_of_lt (hpos _))
        _ = (2 : ℚ) ^ a := by rw [← zpow_add₀ two]; congr 1; ring
        _ ≤ (q.num.natAbs : ℚ) := A1
    · have : a - b - 1 + 1 = a - b := by ring
      rw [this]
      exact not_le.1 h

theorem fin_index (i : Fin MAX_SLABS) :
    0 ≤ ((i : Nat) : Int) ∧ ((i : Nat) : Int) < (MAX_SLABS : Int) := by
  have := i.isLt
  simp only [MAX_SLABS] at this ⊢
  omega

theorem fill_stats_slabs_vals_cmd_set (value : CStr) (i : Fin MAX_SLABS) (s : STATS) :
    fill_stats_slabs_vals "cmd_set".toList value i s = .ok { s with
      ss := Function.update s.ss i { s.ss i with
        slab := ((i : Nat) : Int) + 1
        cmd_set := rate_update (s.ss i).cmd_set value s.time s.time_prev } } := by
  unfold fill_stats_slabs_vals
  rw [dif_pos (fin_index i)]
  have hidx : (⟨((i : Nat) : Int).toNat, by have := fin_index i; omega⟩ : Fin MAX_SLABS) = i :=
    Fin.ext (by simp)
  simp only [hidx]
  rfl

theorem fill_stats_slabs_vals_get_hits (value : CStr) (i : Fin MAX_SLABS) (s : STATS) :
    fill_stats_slabs_vals "get_hits".toList value i s = .ok { s with
      ss := Function.update s.ss i { s.ss i with
        slab := ((i : Nat) : Int) + 1
        get_hits := rate_update (s.ss i).get_hits value s.time s.time_prev } } := by
  unfold fill_stats_slabs_vals
  rw [dif_pos (fin_index i)]
  have hidx : (⟨((i : Nat) : Int).toNat, by have := fin_index i; omega⟩ : Fin MAX_SLABS) = i :=
    Fin.ext (by simp)
  simp only [hidx]
  rfl

theorem load_stats_time (c : Cycle) (s s1 : STATS) (h : load_stats c s = .ok s1) :
    s1.time = c.now ∧ s1.time_prev = c.now := by
  unfold load_stats at h
  rcases h1 : fill_stats_slabs c.slabs (start_cycle c.now s) with f | a
  · rw [h1] at h; cases h
  rw [h1] at h; dsimp only at h
  rcases h2 : fill_stats_items c.items a with f | b
  · rw [h2] at h; cases h
  rw [h2] at h; dsimp only at h
  rcases h3 : fill_stats c.stats b with f | d
  · rw [h3] at h; cases h
  rw [h3] at h; dsimp only at h
  have e1 := congrArg STATS.time (fill_stats_slabs_frame _ _ _ h1)
  have e2 := congrArg STATS.time (fill_stats_items_frame _ _ _ h2)
  have e3 := congrArg STATS.time (fill_stats_frame _ _ _ h3)
  simp only [start_cycle] at e1 e2 e3
  cases h
  simp only [end_cycle, e3, e2, e1, and_self]

theorem strtok_r_length (delim s tok rest : CStr) (h : strtok_r delim s = some (tok, rest)) :
    rest.length < s.length := by
  unfold strtok_r at h
  have h1 := (List.dropWhile_sublist (fun c => decide (c ∈ delim)) (l := s)).length_le
  generalize List.dropWhile (fun c => decide (c ∈ delim)) s = t at h h1
  cases t with
  | nil => cases h
  | cons c cs =>
    simp only [Option.some.injEq, Prod.mk.injEq] at h
    rw [← h.2]
    have h2 := List.Sublist.length_le
      (List.dropWhile_sublist (fun c => !decide (c ∈ delim)) (l := c :: cs))
    generalize List.dropWhile (fun c => !decide (c ∈ delim)) (c :: cs) = u at h2
    cases u with
    | nil => simp only [List.tail_nil, List.length_nil]; simp only [List.length_cons] at h1; omega
    | cons d ds =>
      simp only [List.tail_cons]
      simp only [List.length_cons] at h1 h2
      omega

theorem strtok_lines_fuel (f1 f2 : Nat) (input : CStr)
    (h1 : input.length ≤ f1) (h2 : input.length ≤ f2) :
    strtok_lines f1 input = strtok_lines f2 input := by
  induction f1 generalizing f2 input with
  | zero =>
    have hnil : input = [] := List.length_eq_zero.1 (Nat.le_zero.1 h1)
    subst hnil
    cases f2 with
    | zero => rfl
    | succ n => rfl
  | succ n ih =>
    cases f2 with
    | zero =>
      have hnil : input = [] := List.length_eq_zero.1 (Nat.le_zero.1 h2)
      subst hnil
      rfl
    | succ m =>
      simp only [strtok_lines]
      rcases h : strtok_r "\n\r".toList input with _ | ⟨tok, rest⟩
      · rfl
      · have := strtok_r_length _ _ _ _ h
        simp only
        rw [ih m rest (by omega) (by omega)]

theorem stat_lines_loop_eq (element : CStr → STATS → Except Fault STATS) (fuel : Nat)
    (input : CStr) (s : STATS) :
    stat_lines_loop element fuel input s = apply_lines element (strtok_lines fuel input) s := by
  induction fuel generalizing input s with
  | zero => rfl
  | succ n ih =>
    simp only [stat_lines_loop, strtok_lines]
    rcases h : strtok_r "\n\r".toList input with _ | ⟨tok, rest⟩
    · rfl
    · simp only [apply_lines]
      rcases element tok s with f | s1
      · rfl
      · exact ih rest s1

theorem stat_lines_loop_fuel (element : CStr → STATS → Except Fault STATS) (fuel : Nat)
    (input : CStr) (s : STATS) (h : input.length ≤ fuel) :
    stat_lines_loop element fuel input s = apply_lines element (blob_lines input) s := by
  rw [stat_lines_loop_eq, blob_lines, strtok_lines_fuel fuel input.length input h (le_refl _)]

/-! ## The slab loop of `draw_screen` -/

theorem filter_active_beyond (s : STATS) (i n : Nat) (h : MAX_SLABS ≤ i) :
    (List.range' i n).filter (active_at s) = [] := by
  rw [List.filter_eq_nil_iff]
  intro a ha
  have := (List.mem_range'_1.1 ha).1
  simp only [active_at, dif_neg (show ¬ a < MAX_SLABS by omega), Bool.false_eq_true,
    not_false_eq_true]

theorem draw_slabs_spec (s : STATS) (fuel i : Nat) (d : DrawLoop) :
    ((draw_slabs s fuel i d).slab_rows.map (fun r => r.index.val)
      = d.slab_rows.map (fun r => r.index.val)
        ++ ((List.range' i fuel).filter (active_at s)).take
            (s.max_slabs_per_page + 1 - d.row).toNat) ∧
    ((draw_slabs s fuel i d).more_slabs
      = (d.more_slabs || decide ((s.max_slabs_per_page + 1 - d.row).toNat
          < ((List.range' i fuel).filter (active_at s)).length))) ∧
    ((draw_slabs s fuel i d).last_slab_shown
      = match ((List.range' i fuel).filter (active_at s)).drop
            (s.max_slabs_per_page + 1 - d.row).toNat with
        | [] => d.last_slab_shown
        | a :: _ => (a : Int) - 1) ∧
    (∀ x ∈ (draw_slabs s fuel i d).slab_rows,
      x ∈ d.slab_rows ∨ x = slab_row s x.index x.row) := by
  induction fuel generalizing i d with
  | zero =>
    simp only [draw_slabs, List.range'_zero, List.filter_nil, List.take_nil, List.append_nil,
      List.length_nil, List.drop_nil, true_and]
    exact ⟨by simp, fun x hx => Or.inl hx⟩
  | succ n ih =>
    rw [draw_slabs, List.range'_succ]
    by_cases h : i < MAX_SLABS
    · rw [dif_pos h]
      by_cases ha : (s.ss ⟨i, h⟩).slab = -1
      · have hact : active_at s i = false := by
          simp [active_at, h, ha]
        rw [if_pos ha, List.filter_cons_of_neg (by simp [hact])]
        exact ih (i + 1) d
      · have hact : active_at s i = true := by
          simp [active_at, h, ha]
        rw [if_neg ha, List.filter_cons_of_pos hact]
        by_cases hrow : d.row > s.max_slabs_per_page
        · rw [if_pos hrow]
          have hk : (s.max_slabs_per_page + 1 - d.row).toNat = 0 := by omega
          rw [hk]
          exact ⟨by simp, by simp, by simp, fun x hx => Or.inl hx⟩
        · rw [if_neg hrow]
          obtain ⟨h1, h2, h3, h4⟩ := ih (i + 1)
            { d with row := d.row + 1, slab_rows := d.slab_rows ++ [slab_row s ⟨i, h⟩ (d.row + 1)] }
          have hk : (s.max_slabs_per_page + 1 - d.row).toNat
              = (s.max_slabs_per_page + 1 - (d.row + 1)).toNat + 1 := by omega
          rw [hk]
          refine ⟨?_, ?_, ?_, ?_⟩
          · rw [h1]; simp [slab_row]
          · rw [h2]; simp
          · rw [h3]; simp
          · intro x hx
            rcases h4 x hx with hx | hx
            · simp only [List.mem_append, List.mem_singleton] at hx
              rcases hx with hx | hx
              · exact Or.inl hx
              · right; rw [hx]; rfl
            · exact Or.inr hx
    · rw [dif_neg h]
      have := filter_active_beyond s i (n + 1) (by omega)
      rw [List.range'_succ] at this
      rw [this]
      exact ⟨by simp, by simp, by simp, fun x hx => Or.inl hx⟩

theorem draw_screen_spec (s : STATS) (h : 0 ≤ s.start_slab) :
    ∃ scr s1, draw_screen s = .ok (scr, s1) ∧
      scr.slab_rows.map (fun r => r.index.val)
        = (active_from s s.start_slab.toNat).take s.max_slabs_per_page.toNat ∧
      s1.more_slabs = (s.more_slabs || decide (s.max_slabs_per_page.toNat
        < (active_from s s.start_slab.toNat).length)) ∧
      (s1.last_slab_shown
        = match (active_from s s.start_slab.toNat).drop s.max_slabs_per_page.toNat with
          | [] => s.last_slab_shown
          | a :: _ => (a : Int) - 1) ∧
      s1 = { s with more_slabs := s1.more_slabs, last_slab_shown := s1.last_slab_shown } ∧
      (∀ x ∈ scr.slab_rows, x = slab_row s x.index x.row) := by
  obtain ⟨h1, h2, h3, h4⟩ := draw_slabs_spec s (MAX_SLABS - s.start_slab.toNat) s.start_slab.toNat
    { slab_rows := [], row := 1, more_slabs := s.more_slabs,
      last_slab_shown := s.last_slab_shown }
  have hk : (s.max_slabs_per_page + 1 - 1).toNat = s.max_slabs_per_page.toNat := by
    congr 1; omega
  simp only [hk, List.map_nil, List.nil_append] at h1 h2 h3
  unfold draw_screen
  rw [if_neg (by omega)]
  refine ⟨_, _, rfl, h1, h2, h3, rfl, ?_⟩
  intro x hx
  rcases h4 x hx with hx | hx
  · simp at hx
  · exact hx

/-! ## Which slabs are active after `fill_stats_slabs` -/

theorem fill_stats_slabs_vals_slot (name value : CStr) (slab : Int) (s s1 : STATS)
    (h : fill_stats_slabs_vals name value slab s = .ok s1) (j : Fin MAX_SLABS) :
    (((j : Nat) : Int) = slab → (s1.ss j).slab = slab + 1) ∧
    (((j : Nat) : Int) ≠ slab → s1.ss j = s.ss j) := by
  unfold fill_stats_slabs_vals at h
  split at h
  · rename_i hr
    have hidx : ((j : Nat) : Int) = slab ↔ j = ⟨slab.toNat, by omega⟩ := by
      constructor
      · intro hj; exact Fin.ext (by simp only []; omega)
      · intro hj; rw [hj]; simp only []; omega
    injection h with h
    rw [← h]
    constructor
    · intro hj
      rw [hidx.1 hj]
      simp only [Function.update_same]
      split_ifs <;> rfl
    · intro hj
      have hj2 : j ≠ ⟨slab.toNat, by omega⟩ := fun e => hj (hidx.2 e)
      simp only [Function.update_noteq hj2]
  · cases h

theorem fill_stats_slabs_element_slot (line : CStr) (s s1 : STATS)
    (h : fill_stats_slabs_element line s = .ok s1) (j : Fin MAX_SLABS) :
    s1.ss j = s.ss j ∨
      (line_slab_id line = some (((j : Nat) : Int) + 1) ∧ (s1.ss j).slab = ((j : Nat) : Int) + 1) := by
  rcases fill_stats_slabs_element_ok line s s1 h with
    h1 | ⟨tok, save, key, save1, id, save2, name, r1, value, r2, e1, _, e2, hk, e3, _, e5, _, hv⟩
  · left; rw [h1]
  · have hs := fill_stats_slabs_vals_slot _ _ _ _ _ hv j
    by_cases hj : ((j : Nat) : Int) = atoi id - 1
    · right
      refine ⟨?_, ?_⟩
      · unfold line_slab_id
        rw [e1]; dsimp only
        rw [e2]; dsimp only
        rw [if_pos hk, e3, e5]
        dsimp only
        congr 1; omega
      · rw [hs.1 hj]; omega
    · left; exact hs.2 hj

theorem well_formed_slab_line_slot (i : Fin MAX_SLABS) (line : CStr) (s s1 : STATS)
    (hw : well_formed_slab_line i line) (h : fill_stats_slabs_element line s = .ok s1) :
    (s1.ss i).slab = ((i : Nat) : Int) + 1 := by
  obtain ⟨field, value, hf, hv, rfl⟩ := hw
  have hi := fin_index i
  simp only [MAX_SLABS] at hi
  rw [fill_stats_slabs_element_line _ field value s (lld_ne_nil _)
    (fun c hc => (lld_chars _ c hc).1) (fun c hc => (lld_chars _ c hc).2.1)
    hf.1 hf.2.1 (fits_token_ne _ _ hf ' ' (by decide)) (fits_token_ne _ _ hf ':' (by decide))
    hv.1 hv.2.1 (fits_token_ne _ _ hv ' ' (by decide)),
    atoi_lld _ (by omega), if_neg (by omega)] at h
  have := (fill_stats_slabs_vals_slot _ _ _ _ _ h i).1 (by omega)
  rw [this]; omega

theorem apply_lines_active (lines : List CStr) (s s1 : STATS)
    (h : apply_lines fill_stats_slabs_element lines s = .ok s1) (j : Fin MAX_SLABS) :
    ((s1.ss j).slab ≠ -1 →
      (s.ss j).slab ≠ -1 ∨ ∃ line ∈ lines, line_slab_id line = some (((j : Nat) : Int) + 1)) ∧
    ((s.ss j).slab ≠ -1 → (s1.ss j).slab ≠ -1) ∧
    (∀ line ∈ lines, well_formed_slab_line j line → (s1.ss j).slab ≠ -1) := by
  induction lines generalizing s with
  | nil =>
    simp only [apply_lines] at h
    cases h
    exact ⟨fun h => Or.inl h, fun h => h, fun line hl => by simp at hl⟩
  | cons line rest ih =>
    rw [apply_lines] at h
    rcases he : fill_stats_slabs_element line s with f | s2
    · rw [he] at h; cases h
    rw [he] at h; dsimp only at h
    obtain ⟨ih1, ih2, ih3⟩ := ih s2 h
    have hslot := fill_stats_slabs_element_slot line s s2 he j
    have hpos : (0 : Int) ≤ ((j : Nat) : Int) := Int.ofNat_nonneg _
    refine ⟨?_, ?_, ?_⟩
    · intro ha
      rcases ih1 ha with h2 | ⟨l, hl, hid⟩
      · rcases hslot with hs | ⟨hs, _⟩
        · left; rw [← hs]; exact h2
        · right; exact ⟨line, List.mem_cons_self _ _, hs⟩
      · right; exact ⟨l, List.mem_cons_of_mem _ hl, hid⟩
    · intro ha
      apply ih2
      rcases hslot with hs | ⟨_, hs⟩
      · rw [hs]; exact ha
      · rw [hs]; omega
    · intro l hl hw
      rcases List.mem_cons.1 hl with rfl | hl
      · apply ih2
        rw [well_formed_slab_line_slot j l s s2 hw he]; omega
      · exact ih3 l hl hw

theorem drawn_rows_active (s scr_s : STATS) (scr : Screen)
    (h : draw_screen s = .ok (scr, scr_s)) :
    ∀ r ∈ scr.slab_rows, (s.ss r.index).slab ≠ -1 := by
  by_cases hs : 0 ≤ s.start_slab
  · obtain ⟨scr1, s1, h1, h2, _⟩ := draw_screen_spec s hs
    rw [h1] at h
    injection h with h
    injection h with ha hb
    subst ha
    intro r hr
    have hm : r.index.val ∈ scr1.slab_rows.map (fun r => r.index.val) :=
      List.mem_map.2 ⟨r, hr, rfl⟩
    rw [h2] at hm
    have hm2 := List.mem_of_mem_take hm
    simp only [active_from, List.mem_filter, active_at] at hm2
    have := hm2.2
    rw [dif_pos r.index.isLt] at this
    simpa using this
  · unfold draw_screen at h
    rw [if_pos (by omega)] at h
    cases h

/-- C5 (as amended): when `fill_stats_slabs` processes a response without a
fault, (1) the slot at index `i` is active afterwards if the response contains
a well-formed line `STAT <i+1>:<field> <value>`; (2) it is active afterwards
only if the response contains a line whose second token has a colon and
starts with an integer that `atoi` reads as `i+1`, and that has a third
token; (3) so a slab that no line of the response names is inactive
afterwards, whether or not it was active before, and no following draw emits
it. -/
theorem active_after_fill_stats_slabs (s s1 : STATS) (blob : CStr) (i : Fin MAX_SLABS)
    (h : fill_stats_slabs blob s = .ok s1) :
    ((∃ line ∈ blob_lines blob, well_formed_slab_line i line) → (s1.ss i).slab ≠ -1) ∧
    ((s1.ss i).slab ≠ -1 →
      ∃ line ∈ blob_lines blob, line_slab_id line = some (((i : Nat) : Int) + 1)) ∧
    ((¬ ∃ line ∈ blob_lines blob, line_slab_id line = some (((i : Nat) : Int) + 1)) →
      (s1.ss i).slab = -1 ∧
      ∀ (s2 s3 : STATS) (scr : Screen), s2.ss = s1.ss → draw_screen s2 = .ok (scr, s3) →
        ∀ r ∈ scr.slab_rows, r.index ≠ i) := by
  unfold fill_stats_slabs at h
  rw [stat_lines_loop_fuel _ _ _ _ (le_refl _)] at h
  obtain ⟨h1, _, h3⟩ := apply_lines_active _ _ _ h i
  have hback : (s1.ss i).slab ≠ -1 →
      ∃ line ∈ blob_lines blob, line_slab_id line = some (((i : Nat) : Int) + 1) := by
    intro ha
    rcases h1 ha with hb | hb
    · exact absurd rfl hb
    · exact hb
  refine ⟨?_, hback, ?_⟩
  · rintro ⟨line, hl, hw⟩
    exact h3 line hl hw
  · intro hno
    have hin : (s1.ss i).slab = -1 := by
      by_contra hc
      exact hno (hback hc)
    refine ⟨hin, ?_⟩
    intro s2 s3 scr hss hd r hr hri
    have := drawn_rows_active s2 s3 scr hd r hr
    rw [hss, hri] at this
    exact this hin

/-- Witness for C5 (as amended): a response that names slab 3 only, applied
to a snapshot in which the slot at index 5 counted as active. -/
theorem active_after_fill_stats_slabs_witness :
    ∃ s1, fill_stats_slabs "STAT 3:chunk_size 96\r\nSTAT active_slabs 1\r\nEND\r\n".toList
        empty_stats = .ok s1 ∧
      (s1.ss 2).slab ≠ -1 ∧ (empty_stats.ss 5).slab ≠ -1 ∧ (s1.ss 5).slab = -1 :=
  ⟨_, rfl,
    (active_after_fill_stats_slabs empty_stats _
      "STAT 3:chunk_size 96\r\nSTAT active_slabs 1\r\nEND\r\n".toList 2 rfl).1
      ⟨"STAT 3:chunk_size 96".toList, by decide,
        "chunk_size".toList, "96".toList, by decide, by decide, rfl⟩,
    by decide,
    ((active_after_fill_stats_slabs empty_stats _
      "STAT 3:chunk_size 96\r\nSTAT active_slabs 1\r\nEND\r\n".toList 5 rfl).2.2
      (by decide)).1⟩

/-- C5 (counterexample): the response `STAT 3x:chunk_size 96` is processed
without a fault and leaves the slot at index 2 active, although it contains
no well-formed line `STAT 3:<field> <value>`. -/
theorem lenient_slab_line_activates :
    ∃ s1, fill_stats_slabs "STAT 3x:chunk_size 96\r\n".toList empty_stats = .ok s1 ∧
      (s1.ss 2).slab ≠ -1 ∧
      ¬ ∃ line ∈ blob_lines "STAT 3x:chunk_size 96\r\n".toList, well_formed_slab_line 2 line := by
  refine ⟨_, rfl, by decide, ?_⟩
  have hl : blob_lines "STAT 3x:chunk_size 96\r\n".toList = ["STAT 3x:chunk_size 96".toList] := by
    decide
  rw [hl]
  rintro ⟨line, hmem, field, value, _, _, he⟩
  rw [List.mem_singleton] at hmem
  subst hmem
  have h3 : lld (((2 : Fin MAX_SLABS) : Nat) + 1) = ['3'] := by decide
  rw [slab_line, h3] at he
  simp [String.toList] at he

/-! ## One page of slabs -/

theorem mem_active_from (s : STATS) (start n : Nat) :
    n ∈ active_from s start ↔
      start ≤ n ∧ ∃ h : n < MAX_SLABS, (s.ss ⟨n, h⟩).slab ≠ -1 := by
  simp only [active_from, List.mem_filter, List.mem_range'_1, active_at]
  constructor
  · rintro ⟨⟨h1, h2⟩, h3⟩
    have hn : n < MAX_SLABS := by omega
    rw [dif_pos hn] at h3
    exact ⟨h1, hn, by simpa using h3⟩
  · rintro ⟨h1, hn, h3⟩
    refine ⟨⟨h1, by omega⟩, ?_⟩
    rw [dif_pos hn]
    simpa using h3

theorem active_from_ascending (s : STATS) (start : Nat) :
    (active_from s start).Pairwise (· < ·) :=
  (List.pairwise_lt_range' start (MAX_SLABS - start)).sublist (List.filter_sublist _)

/-- C6: for every snapshot with a start index `start_slab ≥ 0`, page capacity
`max_slabs_per_page ≥ 0` and `more_slabs` false before the draw, `draw_screen`
returns, its slab rows are exactly the first `min(c, k)` active slots with
index `≥ start_slab` in ascending order, each row showing the data of its
slot, where `k` is the number of such active slots, and it sets `more_slabs`
if and only if `k > c`. -/
theorem draw_screen_page (s : STATS) (hs : 0 ≤ s.start_slab)
    (hc : 0 ≤ s.max_slabs_per_page) (hm : s.more_slabs = false) :
    ∃ scr s1, draw_screen s = .ok (scr, s1) ∧
      scr.slab_rows.map (fun r => r.index.val)
        = (active_from s s.start_slab.toNat).take
            (min s.max_slabs_per_page.toNat (active_from s s.start_slab.toNat).length) ∧
      (∀ r ∈ scr.slab_rows, r = slab_row s r.index r.row) ∧
      (s1.more_slabs = true ↔
        ((active_from s s.start_slab.toNat).length : Int) > s.max_slabs_per_page) ∧
      (active_from s s.start_slab.toNat).Pairwise (· < ·) ∧
      (∀ n : Nat, n ∈ active_from s s.start_slab.toNat ↔
        s.start_slab ≤ n ∧ ∃ h : n < MAX_SLABS, (s.ss ⟨n, h⟩).slab ≠ -1) := by
  obtain ⟨scr, s1, h1, h2, h3, _, _, h6⟩ := draw_screen_spec s hs
  refine ⟨scr, s1, h1, ?_, h6, ?_, active_from_ascending _ _, ?_⟩
  · rw [h2, List.take_eq_take]
    simp
  · rw [h3, hm]
    simp only [Bool.false_or, decide_eq_true_eq]
    omega
  · intro n
    rw [mem_active_from]
    constructor
    · rintro ⟨h, hh⟩; exact ⟨by omega, hh⟩
    · rintro ⟨h, hh⟩; exact ⟨by omega, hh⟩

/-- Witness for C6: 25 active slabs 1..25, capacity 20, start index 0. -/
theorem draw_screen_page_witness :
    ∃ scr s1, draw_screen twenty_five_slabs = .ok (scr, s1) ∧
      scr.slab_rows.map (fun r => r.index.val) = List.range 20 ∧
      scr.slab_rows.map (fun r => r.slab)
        = [1, 2, 3, 4, 5, 6, 7, 8, 9, 10, 11, 12, 13, 14, 15, 16, 17, 18, 19, 20] ∧
      s1.more_slabs = true := by
  obtain ⟨scr, s1, h1, h2, h3, h4, _⟩ :=
    draw_screen_page twenty_five_slabs (by decide) (by decide) rfl
  have hA : active_from twenty_five_slabs (0 : Int).toNat = List.range 25 := by decide
  have hst : twenty_five_slabs.start_slab = 0 := rfl
  have hcap : twenty_five_slabs.max_slabs_per_page = 20 := rfl
  rw [hst, hA, hcap] at h2 h4
  have hidx : scr.slab_rows.map (fun r => r.index.val) = List.range 20 := by
    rw [h2]; decide
  refine ⟨scr, s1, h1, hidx, ?_, h4.2 (by decide)⟩
  have hslab : ∀ r ∈ scr.slab_rows,
      r.slab = (fun n : Nat => if n < 25 then (n : Int) + 1 else -1) r.index.val := by
    intro r hr
    rw [h3 r hr]
    rfl
  have hmap : scr.slab_rows.map (fun r => r.slab)
      = (scr.slab_rows.map (fun r => r.index.val)).map
          (fun n : Nat => if n < 25 then (n : Int) + 1 else -1) := by
    rw [List.map_map]
    exact List.map_congr_left hslab
  rw [hmap, hidx]
  decide

/-! ## What a truncated draw records -/

theorem load_stats_frame (c : Cycle) (s s1 : STATS) (h : load_stats c s = .ok s1) :
    s1.start_slab = s.start_slab ∧ s1.more_slabs = s.more_slabs ∧
    s1.last_slab_shown = s.last_slab_shown ∧ s1.max_slabs_per_page = s.max_slabs_per_page ∧
    s1.refresh_seconds = s.refresh_seconds ∧ s1.show_rates = s.show_rates := by
  unfold load_stats at h
  rcases h1 : fill_stats_slabs c.slabs (start_cycle c.now s) with f | a
  · rw [h1] at h; cases h
  rw [h1] at h; dsimp only at h
  rcases h2 : fill_stats_items c.items a with f | b
  · rw [h2] at h; cases h
  rw [h2] at h; dsimp only at h
  rcases h3 : fill_stats c.stats b with f | d
  · rw [h3] at h; cases h
  rw [h3] at h; dsimp only at h
  have e1 := fill_stats_slabs_frame _ _ _ h1
  have e2 := fill_stats_items_frame _ _ _ h2
  have e3 := fill_stats_frame _ _ _ h3
  cases h
  rw [e3, e2, e1]
  simp only [end_cycle, start_cycle, and_self]

theorem draw_screen_frame (x y : STATS) (scr : Screen) (h : draw_screen x = .ok (scr, y)) :
    y = { x with more_slabs := y.more_slabs, last_slab_shown := y.last_slab_shown } := by
  unfold draw_screen at h
  split at h
  · cases h
  · injection h with h
    injection h with _ h
    rw [← h]

/-- C8: the refresh step of the main loop (`load_stats`, then the page
update), whenever it returns: if the previous draw was truncated
(`more_slabs` true) `start_slab` becomes `last_slab_shown + 1`, replaced by 0
when that is `≥ MAX_SLABS`, and `more_slabs` is cleared; otherwise `start_slab`
becomes 0.  `draw_screen` never changes `start_slab`, and an iteration of the
main loop whose refresh test fails leaves `start_slab` as it was. -/
theorem refresh_advances_page (c : Cycle) (s s1 : STATS) (h : refresh c s = .ok s1) :
    (s.more_slabs = true →
      s1.start_slab = (if s.last_slab_shown + 1 ≥ (MAX_SLABS : Int) then 0
        else s.last_slab_shown + 1) ∧ s1.more_slabs = false) ∧
    (s.more_slabs = false → s1.start_slab = 0 ∧ s1.more_slabs = false) ∧
    (∀ (x y : STATS) (scr : Screen), draw_screen x = .ok (scr, y) →
      y.start_slab = x.start_slab) ∧
    (∀ (t : Tick) (m m1 : MainState) (scr : Screen),
      ¬ (t.clock > m.last_loaded_millis + m.stats.refresh_seconds * 1000) →
      main_iteration t m = .ok (scr, some m1) → m1.stats.start_slab = m.stats.start_slab) := by
  have hdraw : ∀ (x y : STATS) (scr : Screen), draw_screen x = .ok (scr, y) →
      y.start_slab = x.start_slab := by
    intro x y scr hd
    rw [draw_screen_frame x y scr hd]
  unfold refresh at h
  rcases hl : load_stats c s with f | s0
  · rw [hl] at h; cases h
  rw [hl] at h; dsimp only at h
  obtain ⟨_, f2, f3, _⟩ := load_stats_frame c s s0 hl
  injection h with h
  refine ⟨?_, ?_, hdraw, ?_⟩
  · intro hm
    rw [← h, advance_page, if_pos (by rw [f2]; exact hm)]
    dsimp only
    rw [f3]
    split_ifs <;> exact ⟨rfl, rfl⟩
  · intro hm
    rw [← h, advance_page, if_neg (by rw [f2, hm]; decide)]
    exact ⟨rfl, by rw [f2]; exact hm⟩
  · intro t m m1 scr hnd hit
    unfold main_iteration at hit
    simp only [hnd, decide_False, Bool.false_eq_true, if_false] at hit
    rcases hd : draw_screen m.stats with f | ⟨scr1, s2⟩
    · rw [hd] at hit; cases hit
    rw [hd] at hit; dsimp only at hit
    have := hdraw _ _ _ hd
    split_ifs at hit <;> first
      | (injection hit with hit
         injection hit with _ hit
         injection hit with hit
         rw [← hit]; exact this)
      | cases hit

/-- Witness for C8: a refresh after a draw that was truncated at index 19. -/
theorem refresh_advances_page_witness :
    ∃ s1, refresh ⟨5000, [], [], []⟩
        { twenty_five_slabs with more_slabs := true, last_slab_shown := 19 } = .ok s1 ∧
      s1.start_slab = 20 ∧ s1.more_slabs = false := by
  have h := (refresh_advances_page ⟨5000, [], [], []⟩
    { twenty_five_slabs with more_slabs := true, last_slab_shown := 19 } _ rfl).1 rfl
  exact ⟨_, rfl, h⟩

/-! ## When every slab fits on one page -/

theorem active_from_congr (x y : STATS) (n : Nat) (h : y.ss = x.ss) :
    active_from y n = active_from x n := by
  have : active_at y = active_at x := by
    funext k
    simp only [active_at, h]
  simp only [active_from, this]

theorem refresh_fits (cap : Int) (c : Cycle) (s s1 : STATS) (hinv : fits_on_page cap s)
    (hfit : ∀ x y : STATS, load_stats c x = .ok y → ((active_from y 0).length : Int) ≤ cap)
    (h : refresh c s = .ok s1) : fits_on_page cap s1 := by
  obtain ⟨_, i2, i3, _⟩ := hinv
  unfold refresh at h
  rcases hl : load_stats c s with f | s0
  · rw [hl] at h; cases h
  rw [hl] at h; dsimp only at h
  obtain ⟨_, f2, _, f4, _⟩ := load_stats_frame c s s0 hl
  injection h with h
  have hm : s0.more_slabs = false := by rw [f2]; exact i2
  rw [← h, advance_page, if_neg (by rw [hm]; decide)]
  refine ⟨rfl, hm, by rw [← i3, ← f4], ?_⟩
  rw [active_from_congr s0 { s0 with start_slab := 0 } 0 rfl]
  exact hfit s s0 hl

theorem draw_fits (cap : Int) (s s1 : STATS) (scr : Screen) (hinv : fits_on_page cap s)
    (h : draw_screen s = .ok (scr, s1)) : fits_on_page cap s1 := by
  obtain ⟨i1, i2, i3, i4⟩ := hinv
  obtain ⟨scr0, s0, e0, _, h3, _, h5, _⟩ := draw_screen_spec s (by omega)
  rw [e0] at h
  injection h with h
  injection h with _ hb
  subst hb
  have hmore : s0.more_slabs = false := by
    rw [h3, i2, i1]
    simp only [Bool.false_or, decide_eq_false_iff_not, not_lt]
    rw [i3]
    have : (0 : Int).toNat = 0 := rfl
    rw [this]
    omega
  have hss : s0.ss = s.ss := by rw [h5]
  refine ⟨by rw [h5]; exact i1, hmore, by rw [h5]; exact i3, ?_⟩
  rw [active_from_congr s _ 0 hss]
  exact i4

theorem main_iteration_fits (cap : Int) (t : Tick) (m m1 : MainState) (scr : Screen)
    (hinv : fits_on_page cap m.stats)
    (hfit : ∀ x y : STATS, load_stats t.cycle x = .ok y → ((active_from y 0).length : Int) ≤ cap)
    (h : main_iteration t m = .ok (scr, some m1)) : fits_on_page cap m1.stats := by
  unfold main_iteration at h
  dsimp only at h
  have key : ∀ ml : MainState, fits_on_page cap ml.stats →
      (match draw_screen ml.stats with
        | .error f => (.error f : Except Fault (Screen × Option MainState))
        | .ok (scr, s2) =>
          if t.key = ('r'.toNat : Int) then
            .ok (scr, some { ml with stats := { s2 with show_rates := !s2.show_rates } })
          else if t.key = ('q'.toNat : Int) then .ok (scr, none)
          else .ok (scr, some { ml with stats := s2 })) = .ok (scr, some m1) →
      fits_on_page cap m1.stats := by
    intro ml hml hk
    rcases hd : draw_screen ml.stats with f | ⟨scr1, s2⟩
    · rw [hd] at hk; cases hk
    rw [hd] at hk; dsimp only at hk
    have hf := draw_fits cap _ _ _ hml hd
    split_ifs at hk
    · injection hk with hk
      injection hk with _ hk
      injection hk with hk
      rw [← hk]
      obtain ⟨a1, a2, a3, a4⟩ := hf
      exact ⟨a1, a2, a3, by
        rw [active_from_congr s2 { s2 with show_rates := !s2.show_rates } 0 rfl]; exact a4⟩
    · cases hk
    · injection hk with hk
      injection hk with _ hk
      injection hk with hk
      rw [← hk]; exact hf
  by_cases hdue : t.clock > m.last_loaded_millis + m.stats.refresh_seconds * 1000
  · simp only [hdue, decide_True, if_true] at h
    rcases hr : refresh t.cycle m.stats with f | sr
    · rw [hr] at h; cases h
    rw [hr] at h; dsimp only at h
    exact key { stats := sr, last_loaded_millis := t.loaded }
      (refresh_fits cap _ _ _ hinv hfit hr) h
  · simp only [hdue, decide_False, Bool.false_eq_true, if_false] at h
    exact key m hinv h

/-- C9: start a run of the main loop in a state with `start_slab = 0` and
`more_slabs` false whose active slabs number at most the page capacity, and
let every refresh cycle of the run load at most that many active slabs.  Then
after any sequence of iterations `start_slab` is 0 and `more_slabs` is false,
the next refresh leaves `start_slab = 0` and `more_slabs` false, and the next
draw does not set `more_slabs` and leaves `start_slab = 0`. -/
theorem no_truncation_when_slabs_fit (ticks : List Tick) (m0 m : MainState)
    (scrs : List Screen)
    (h0 : m0.stats.start_slab = 0 ∧ m0.stats.more_slabs = false)
    (hfit0 : ((active_from m0.stats 0).length : Int) ≤ m0.stats.max_slabs_per_page)
    (hfit : ∀ t ∈ ticks, ∀ x y : STATS, load_stats t.cycle x = .ok y →
      ((active_from y 0).length : Int) ≤ m0.stats.max_slabs_per_page)
    (hrun : main_loop ticks m0 = .ok (scrs, some m)) :
    m.stats.start_slab = 0 ∧ m.stats.more_slabs = false ∧
    (∀ (c : Cycle) (s1 : STATS),
      (∀ x y : STATS, load_stats c x = .ok y →
        ((active_from y 0).length : Int) ≤ m0.stats.max_slabs_per_page) →
      refresh c m.stats = .ok s1 → s1.start_slab = 0 ∧ s1.more_slabs = false) ∧
    (∀ (scr : Screen) (s2 : STATS), draw_screen m.stats = .ok (scr, s2) →
      s2.more_slabs = false ∧ s2.start_slab = 0) := by
  have hinv0 : fits_on_page m0.stats.max_slabs_per_page m0.stats := ⟨h0.1, h0.2, rfl, hfit0⟩
  have hrun2 : ∀ (ticks : List Tick) (a b : MainState) (scrs : List Screen),
      fits_on_page m0.stats.max_slabs_per_page a.stats →
      (∀ t ∈ ticks, ∀ x y : STATS, load_stats t.cycle x = .ok y →
        ((active_from y 0).length : Int) ≤ m0.stats.max_slabs_per_page) →
      main_loop ticks a = .ok (scrs, some b) →
      fits_on_page m0.stats.max_slabs_per_page b.stats := by
    intro ticks
    induction ticks with
    | nil =>
      intro a b scrs ha _ hr
      simp only [main_loop] at hr
      injection hr with hr
      injection hr with _ hr
      injection hr with hr
      rw [← hr]; exact ha
    | cons t ts ih =>
      intro a b scrs ha hf hr
      rw [main_loop] at hr
      rcases hi : main_iteration t a with f | ⟨scr, _ | a1⟩
      · rw [hi] at hr; cases hr
      · rw [hi] at hr; cases hr
      · rw [hi] at hr; dsimp only at hr
        have ha1 := main_iteration_fits _ t a a1 scr ha (hf t (List.mem_cons_self _ _)) hi
        rcases hl : main_loop ts a1 with f | ⟨scrs1, r⟩
        · rw [hl] at hr; cases hr
        · rw [hl] at hr; dsimp only at hr
          injection hr with hr
          injection hr with _ hr
          subst hr
          exact ih a1 b scrs1 ha1 (fun t ht => hf t (List.mem_cons_of_mem _ ht)) hl
  have hinv := hrun2 ticks m0 m scrs hinv0 hfit hrun
  refine ⟨hinv.1, hinv.2.1, ?_, ?_⟩
  · intro c s1 hc hr
    have := refresh_fits _ c _ _ hinv hc hr
    exact ⟨this.1, this.2.1⟩
  · intro scr s2 hd
    have := draw_fits _ _ _ _ hinv hd
    exact ⟨this.2.1, this.1⟩

theorem load_stats_active_named (c : Cycle) (x y : STATS) (h : load_stats c x = .ok y)
    (n : Nat) (hn : n ∈ active_from y 0) :
    ∃ line ∈ blob_lines c.slabs, line_slab_id line = some ((n : Int) + 1) := by
  unfold load_stats at h
  rcases h1 : fill_stats_slabs c.slabs (start_cycle c.now x) with f | a
  · rw [h1] at h; cases h
  rw [h1] at h; dsimp only at h
  rcases h2 : fill_stats_items c.items a with f | b
  · rw [h2] at h; cases h
  rw [h2] at h; dsimp only at h
  rcases h3 : fill_stats c.stats b with f | d
  · rw [h3] at h; cases h
  rw [h3] at h; dsimp only at h
  have e2 := fill_stats_items_frame _ _ _ h2
  have e3 := fill_stats_frame _ _ _ h3
  have hss : y.ss = a.ss := by
    cases h
    rw [e3, e2]
    rfl
  obtain ⟨_, hlt, hact⟩ := (mem_active_from y 0 n).1 hn
  rw [hss] at hact
  unfold fill_stats_slabs at h1
  rw [stat_lines_loop_fuel _ _ _ _ (le_refl _)] at h1
  rcases (apply_lines_active _ _ _ h1 ⟨n, hlt⟩).1 hact with hb | hb
  · exact absurd rfl hb
  · exact hb

/-- Witness for C9: a run of two iterations, the second with a refresh that
loads the two slabs 1 and 2, at the default capacity 20. -/
theorem no_truncation_when_slabs_fit_witness :
    ∃ m scrs,
      main_start none none ⟨0, "STAT 1:chunk_size 96\r\nEND\r\n".toList, [], []⟩ 0
        = .ok one_slab_main ∧
      main_loop
        [⟨100, ⟨100, [], [], []⟩, 100, -1⟩,
         ⟨6000, ⟨6000, "STAT 1:chunk_size 96\r\nSTAT 2:chunk_size 120\r\nEND\r\n".toList, [],
            "STAT cmd_get 5\r\nEND\r\n".toList⟩, 6001, 114⟩] one_slab_main = .ok (scrs, some m) ∧
      m.stats.start_slab = 0 ∧ m.stats.more_slabs = false := by
  have hsub : ∀ (l : List Nat), l.Nodup → l ⊆ [0, 1] → (l.length : Int) ≤ 20 := by
    intro l hl hs
    have := (List.subperm_of_subset hl hs).length_le
    simp only [List.length_cons, List.length_nil] at this
    omega
  have hfit : ∀ t ∈ ([⟨100, ⟨100, [], [], []⟩, 100, -1⟩,
      ⟨6000, ⟨6000, "STAT 1:chunk_size 96\r\nSTAT 2:chunk_size 120\r\nEND\r\n".toList, [],
        "STAT cmd_get 5\r\nEND\r\n".toList⟩, 6001, 114⟩] : List Tick),
      ∀ x y : STATS, load_stats t.cycle x = .ok y →
        ((active_from y 0).length : Int) ≤ one_slab_main.stats.max_slabs_per_page := by
    intro t ht x y hl
    apply hsub _ ((active_from_ascending y 0).imp Nat.ne_of_lt)
    intro n hn
    obtain ⟨line, hline, hid⟩ := load_stats_active_named _ x y hl n hn
    simp only [List.mem_cons, List.mem_singleton, List.not_mem_nil, or_false] at ht
    rcases ht with rfl | rfl
    · have hl0 : blob_lines ([] : CStr) = [] := rfl
      rw [hl0] at hline
      simp at hline
    · have hl1 : blob_lines "STAT 1:chunk_size 96\r\nSTAT 2:chunk_size 120\r\nEND\r\n".toList
          = ["STAT 1:chunk_size 96".toList, "STAT 2:chunk_size 120".toList, "END".toList] := by
        decide
      simp only [hl1, List.mem_cons, List.mem_singleton, List.not_mem_nil, or_false] at hline
      rcases hline with rfl | rfl | rfl
      · have e : line_slab_id "STAT 1:chunk_size 96".toList = some 1 := by decide
        rw [e] at hid
        injection hid with hid
        have : n = 0 := by omega
        simp [this]
      · have e : line_slab_id "STAT 2:chunk_size 120".toList = some 2 := by decide
        rw [e] at hid
        injection hid with hid
        have : n = 1 := by omega
        simp [this]
      · have e : line_slab_id "END".toList = none := by decide
        rw [e] at hid
        cases hid
  have key := no_truncation_when_slabs_fit _ one_slab_main _ _ ⟨rfl, rfl⟩ (by decide) hfit rfl
  exact ⟨_, _, rfl, rfl, key.1, key.2.1⟩

/-! ## `format_bytes` -/

theorem roundHalfEven_nonneg (x : ℚ) (hx : 0 ≤ x) : 0 ≤ roundHalfEven x := by
  have h0 : (0 : Int) ≤ ⌊x⌋ := Int.floor_nonneg.2 hx
  unfold roundHalfEven
  dsimp only
  split_ifs <;> omega

theorem toDigits_digit (d : Nat) (h : d < 10) : Nat.toDigits 10 d = [Nat.digitChar d] := by
  have h0 : d / 10 = 0 := Nat.div_eq_of_lt h
  have h1 : d % 10 = d := Nat.mod_eq_of_lt h
  simp [Nat.toDigits, Nat.toDigitsCore, h0, h1]

theorem printf_1Lf_nonneg (q : ℚ) (hq : 0 ≤ q) :
    ∃ t : Nat, printf_1Lf (.finite q)
        = Nat.toDigits 10 (t / 10) ++ ['.', Nat.digitChar (t % 10)] ∧
      |(t : ℚ) / 10 - q| ≤ 1 / 20 := by
  refine ⟨(roundHalfEven (|q| * 10)).toNat, ?_, ?_⟩
  · simp only [printf_1Lf, if_neg (not_lt.2 hq), List.nil_append]
    rw [toDigits_digit _ (Nat.mod_lt _ (by decide))]
    simp
  · rw [abs_of_nonneg hq]
    have hnn := roundHalfEven_nonneg (q * 10) (by positivity)
    have hcast : (((roundHalfEven (q * 10)).toNat : Nat) : ℚ) = ((roundHalfEven (q * 10) : Int) : ℚ) := by
      have : (((roundHalfEven (q * 10)).toNat : Nat) : Int) = roundHalfEven (q * 10) :=
        Int.toNat_of_nonneg hnn
      exact_mod_cast this
    rw [hcast]
    have := abs_le.1 (roundHalfEven_near (q * 10))
    rw [abs_le]
    constructor <;> linarith [this.1, this.2]

theorem roundHalfEven_intCast (z : Int) : roundHalfEven (z : ℚ) = z := by
  unfold roundHalfEven
  dsimp only
  rw [Int.floor_intCast, sub_self, if_pos (by norm_num)]

theorem LongDouble.round_exact (m j : Int) (hm : m ≠ 0)
    (hm2 : |m| < 18446744073709551616) (hj1 : -16445 ≤ j) (hj2 : j ≤ 16320) :
    LongDouble.round (.finite ((m : ℚ) * (2 : ℚ) ^ j)) = .finite ((m : ℚ) * (2 : ℚ) ^ j) := by
  have two : (2 : ℚ) ≠ 0 := by norm_num
  have hpos : ∀ k : Int, (0 : ℚ) < (2 : ℚ) ^ k := fun k => zpow_pos (by norm_num) k
  have hmq : (m : ℚ) ≠ 0 := by exact_mod_cast hm
  have hq : (m : ℚ) * (2 : ℚ) ^ j ≠ 0 := mul_ne_zero hmq (ne_of_gt (hpos j))
  obtain ⟨h1, _⟩ := LongDouble.exponent_spec _ hq
  have habs : |(m : ℚ) * (2 : ℚ) ^ j| < (2 : ℚ) ^ (64 + j) := by
    rw [abs_mul, abs_of_pos (hpos j), zpow_add₀ two]
    apply mul_lt_mul_of_pos_right _ (hpos j)
    have : ((|m| : Int) : ℚ) < 18446744073709551616 := by exact_mod_cast hm2
    rw [Int.cast_abs] at this
    refine lt_of_lt_of_eq this ?_
    norm_num
  have he : LongDouble.exponent ((m : ℚ) * (2 : ℚ) ^ j) < 64 + j :=
    (zpow_lt_zpow_iff_right₀ (show (1 : ℚ) < 2 by norm_num)).1 (lt_of_le_of_lt h1 habs)
  generalize hk : max (LongDouble.exponent ((m : ℚ) * (2 : ℚ) ^ j) - 63) (-16445) = k
  have hkj : k ≤ j := by rw [← hk]; exact max_le (by omega) hj1
  obtain ⟨n, hn⟩ := Int.eq_ofNat_of_zero_le (show 0 ≤ j - k by omega)
  have hdiv : (m : ℚ) * (2 : ℚ) ^ j / (2 : ℚ) ^ k = ((m * 2 ^ n : Int) : ℚ) := by
    rw [mul_div_assoc, ← zpow_sub₀ two, hn, zpow_natCast]
    push_cast
    rfl
  unfold LongDouble.round
  dsimp only
  rw [if_neg hq, hk, LongDouble.pow2_eq, LongDouble.pow2_eq, hdiv, roundHalfEven_intCast,
    ← hdiv, div_mul_cancel₀ _ (ne_of_gt (hpos k)), if_neg]
  rw [not_le]
  refine lt_of_lt_of_le habs ?_
  exact zpow_le_zpow_right₀ (by norm_num) (by omega)

theorem LongDouble.fdiv_1024 (m j : Int) (hm2 : |m| < 18446744073709551616)
    (hj1 : -16435 ≤ j) (hj2 : j ≤ 16320) :
    LongDouble.fdiv (.finite ((m : ℚ) * (2 : ℚ) ^ j)) (.finite 1024)
      = .finite ((m : ℚ) * (2 : ℚ) ^ (j - 10)) ∧
    LongDouble.div (.finite ((m : ℚ) * (2 : ℚ) ^ j)) (.finite 1024)
      = .finite ((m : ℚ) * (2 : ℚ) ^ (j - 10)) := by
  have two : (2 : ℚ) ≠ 0 := by norm_num
  have e : (m : ℚ) * (2 : ℚ) ^ j / 1024 = (m : ℚ) * (2 : ℚ) ^ (j - 10) := by
    rw [zpow_sub₀ two, mul_div_assoc]
    norm_num
  have hd : LongDouble.div (.finite ((m : ℚ) * (2 : ℚ) ^ j)) (.finite 1024)
      = .finite ((m : ℚ) * (2 : ℚ) ^ (j - 10)) := by
    rw [LongDouble.div_finite _ _ (by norm_num), e]
  refine ⟨?_, hd⟩
  rw [LongDouble.fdiv, hd]
  by_cases hm : m = 0
  · rw [hm]; simp [LongDouble.round]
  · exact LongDouble.round_exact m (j - 10) hm hm2 (by omega) (by omega)

/-- The three divisions of `format_bytes` are exact: for every `long long`
value the rounded quotients are the exact ones the definition uses. -/
theorem format_bytes_divisions_exact (b : Int)
    (hb : -9223372036854775808 ≤ b ∧ b ≤ 9223372036854775807) :
    LongDouble.fdiv (LongDouble.ofInt b) (.finite 1024)
      = LongDouble.div (LongDouble.ofInt b) (.finite 1024) ∧
    LongDouble.fdiv (LongDouble.fdiv (LongDouble.ofInt b) (.finite 1024)) (.finite 1024)
      = LongDouble.div (LongDouble.div (LongDouble.ofInt b) (.finite 1024)) (.finite 1024) ∧
    LongDouble.fdiv (LongDouble.fdiv (LongDouble.fdiv (LongDouble.ofInt b) (.finite 1024))
        (.finite 1024)) (.finite 1024)
      = LongDouble.div (LongDouble.div (LongDouble.div (LongDouble.ofInt b) (.finite 1024))
        (.finite 1024)) (.finite 1024) := by
  have hm2 : |b| < 18446744073709551616 := abs_lt.2 ⟨by omega, by omega⟩
  have e0 : LongDouble.ofInt b = .finite ((b : ℚ) * (2 : ℚ) ^ (0 : Int)) := by
    rw [zpow_zero, mul_one]; rfl
  obtain ⟨a1, a2⟩ := LongDouble.fdiv_1024 b 0 hm2 (by norm_num) (by norm_num)
  obtain ⟨b1, b2⟩ := LongDouble.fdiv_1024 b (0 - 10) hm2 (by norm_num) (by norm_num)
  obtain ⟨c1, c2⟩ := LongDouble.fdiv_1024 b (0 - 10 - 10) hm2 (by norm_num) (by norm_num)
  rw [e0, a1, a2, b1, b2, c1, c2]
  exact ⟨rfl, rfl, rfl⟩

/-- C10: `format_bytes` on a byte count `b ≥ 0`: for `b < 1024` the text is the
decimal numeral of `b`; for `1024 ≤ b < 2^20` it is a decimal with one digit
after the point within 0.05 of `b/1024`, followed by `K`; likewise with
`b/2^20` and `M` for `2^20 ≤ b < 2^30`, and with `b/2^30` and `G` for
`b ≥ 2^30`.  In particular 1536 gives `1.5K`, 1073741824 gives `1.0G` and 512
gives `512`. -/
theorem format_bytes_spec (b : Int) (hb : 0 ≤ b) :
    (b < 1024 → format_bytes b = Nat.toDigits 10 b.toNat) ∧
    (1024 ≤ b → b < 1048576 →
      ∃ t : Nat, format_bytes b
          = Nat.toDigits 10 (t / 10) ++ ['.', Nat.digitChar (t % 10)] ++ ['K'] ∧
        |(t : ℚ) / 10 - (b : ℚ) / 1024| ≤ 1 / 20) ∧
    (1048576 ≤ b → b < 1073741824 →
      ∃ t : Nat, format_bytes b
          = Nat.toDigits 10 (t / 10) ++ ['.', Nat.digitChar (t % 10)] ++ ['M'] ∧
        |(t : ℚ) / 10 - (b : ℚ) / 1048576| ≤ 1 / 20) ∧
    (1073741824 ≤ b →
      ∃ t : Nat, format_bytes b
          = Nat.toDigits 10 (t / 10) ++ ['.', Nat.digitChar (t % 10)] ++ ['G'] ∧
        |(t : ℚ) / 10 - (b : ℚ) / 1073741824| ≤ 1 / 20) ∧
    format_bytes 1536 = "1.5K".toList ∧
    format_bytes 1073741824 = "1.0G".toList ∧
    format_bytes 512 = "512".toList := by
  have hbq : (0 : ℚ) ≤ (b : ℚ) := by exact_mod_cast hb
  have hne : (1024 : ℚ) ≠ 0 := by norm_num
  refine ⟨?_, ?_, ?_, ?_, by decide!, by decide!, by decide⟩
  · intro h
    unfold format_bytes lld
    rw [if_pos h, if_neg (by omega)]
  · intro h1 h2
    unfold format_bytes
    rw [if_neg (by omega), if_pos (by omega)]
    simp only [LongDouble.ofInt]
    rw [LongDouble.div_finite _ _ hne]
    obtain ⟨t, e, ht⟩ := printf_1Lf_nonneg ((b : ℚ) / 1024) (by positivity)
    exact ⟨t, by rw [e], ht⟩
  · intro h1 h2
    unfold format_bytes
    rw [if_neg (by omega), if_neg (by omega), if_pos (by omega)]
    simp only [LongDouble.ofInt]
    rw [LongDouble.div_finite _ _ hne, LongDouble.div_finite _ _ hne]
    have e2 : (b : ℚ) / 1024 / 1024 = (b : ℚ) / 1048576 := by
      rw [div_div]; norm_num
    rw [e2]
    obtain ⟨t, e, ht⟩ := printf_1Lf_nonneg ((b : ℚ) / 1048576) (by positivity)
    exact ⟨t, by rw [e], ht⟩
  · intro h1
    unfold format_bytes
    rw [if_neg (by omega), if_neg (by omega), if_neg (by omega)]
    simp only [LongDouble.ofInt]
    rw [LongDouble.div_finite _ _ hne, LongDouble.div_finite _ _ hne,
      LongDouble.div_finite _ _ hne]
    have e3 : (b : ℚ) / 1024 / 1024 / 1024 = (b : ℚ) / 1073741824 := by
      rw [div_div, div_div]; norm_num
    rw [e3]
    obtain ⟨t, e, ht⟩ := printf_1Lf_nonneg ((b : ℚ) / 1073741824) (by positivity)
    exact ⟨t, by rw [e], ht⟩

/-- Witness for C10: 1536 bytes. -/
theorem format_bytes_spec_witness :
    (0 : Int) ≤ 1536 ∧ format_bytes 1536 = "1.5K".toList :=
  ⟨by decide, (format_bytes_spec 1536 (by decide)).2.2.2.2.1⟩

/-! ## The hit ratio -/

/-- C11 (as amended): for every snapshot whose `cmd_get.value` is 0 (and whose
`start_slab` is not negative, so that the draw returns), the hit ratio that
`draw_screen` prints is the `long double` quotient `get_hits / 0`: NaN when
`get_hits` is 0, plus infinity when it is positive, minus infinity when it is
negative.  No sentinel is substituted, and the value is never finite. -/
theorem hit_ratio_without_gets (s : STATS) (hs : 0 ≤ s.start_slab)
    (h0 : s.cmd_get.value = 0) :
    ∃ scr s1, draw_screen s = .ok (scr, s1) ∧
      scr.hit_ratio = (if 0 < s.get_hits then LongDouble.posInf
        else if s.get_hits < 0 then LongDouble.negInf else LongDouble.nan) ∧
      ∀ q : ℚ, scr.hit_ratio ≠ .finite q := by
  unfold draw_screen
  rw [if_neg (by omega)]
  refine ⟨_, _, rfl, ?_, ?_⟩
  · simp only [LongDouble.ofInt, LongDouble.fdiv, LongDouble.div, h0, Int.cast_zero, if_true,
      Int.cast_pos, Int.cast_lt_zero]
    split_ifs <;> rfl
  · intro q
    simp only [LongDouble.ofInt, LongDouble.fdiv, LongDouble.div, h0, Int.cast_zero, if_true]
    split_ifs <;> simp [LongDouble.round]

/-- Witness for C11 (as amended): 7 hits recorded and no get. -/
theorem hit_ratio_without_gets_witness :
    ∃ scr s1, draw_screen { check_options none none empty_stats with get_hits := 7 }
        = .ok (scr, s1) ∧ scr.hit_ratio = LongDouble.posInf := by
  obtain ⟨scr, s1, h1, h2, _⟩ :=
    hit_ratio_without_gets { check_options none none empty_stats with get_hits := 7 }
      (by decide) rfl
  exact ⟨scr, s1, h1, h2⟩

/-- C11 (counterexample): after the first `load_stats` against a server that
reports `cmd_get 0` and `get_hits 0`, the hit ratio that `draw_screen` prints
is the NaN that `0 / 0` gives, not a sentinel. -/
theorem hit_ratio_is_nan_without_gets :
    ∃ s scr s1,
      load_stats ⟨1000, [], [], "STAT cmd_get 0\r\nSTAT get_hits 0\r\nEND\r\n".toList⟩
        (check_options none none empty_stats) = .ok s ∧
      s.cmd_get.value = 0 ∧ draw_screen s = .ok (scr, s1) ∧
      scr.hit_ratio = LongDouble.div (.finite 0) (.finite 0) ∧
      scr.hit_ratio = LongDouble.nan :=
  ⟨_, _, _, rfl, by decide, rfl, by decide!, by decide!⟩

/-! ## Lines the parsers ought to skip -/

/-- C12 (the code at the failing input): the two-token line `STAT bad` is
skipped by `fill_stats_element` and by `fill_stats_slabs_element`, which
tests the key for a colon first; `fill_stats_items_element` has no such test,
gets NULL from its second `strtok_r(NULL, ":")` and passes it to `atoi`. -/
theorem short_line_faults_item_side (s : STATS) :
    fill_stats_element "STAT bad".toList s = .ok s ∧
    fill_stats_slabs_element "STAT bad".toList s = .ok s ∧
    fill_stats_items_element "STAT bad".toList s = .error .nullDeref ∧
    fill_stats_items "STAT bad\r\nSTAT items:1:evicted 5\r\n".toList s = .error .nullDeref :=
  ⟨rfl, rfl, rfl, rfl⟩

/-- C13 (the code at the failing input): the test `strncmp(token, "STAT", 3)`
looks at three characters only, so lines whose first token is `STAR` or `STA`
are applied like `STAT` lines by all three parsers; a line such as `END` is
skipped. -/
theorem prefix_test_compares_three_characters (s : STATS) :
    fill_stats_element "STAR uptime 5".toList s = .ok { s with uptime := 5 } ∧
    fill_stats_element "STA uptime 5".toList s = .ok { s with uptime := 5 } ∧
    (∃ s1, fill_stats_slabs_element "STAR 3:chunk_size 96".toList s = .ok s1 ∧
      (s1.ss 2).slab = 3 ∧ (s1.ss 2).chunk_size = 96) ∧
    (∃ s1, fill_stats_items_element "STAR items:7:evicted_time 42".toList s = .ok s1 ∧
      (s1.si 6).slab = 7 ∧ (s1.si 6).evicted_time = 42) ∧
    fill_stats_element "END".toList s = .ok s ∧
    fill_stats_slabs_element "END".toList s = .ok s ∧
    fill_stats_items_element "END".toList s = .ok s :=
  ⟨rfl, rfl, ⟨_, rfl, rfl, rfl⟩, ⟨_, rfl, rfl, rfl⟩, rfl, rfl, rfl⟩

/-! ## Fields that are copied -/

theorem lld_length (v : Int)
    (hv : -9223372036854775808 ≤ v ∧ v ≤ 9223372036854775807) : (lld v).length < 64 := by
  have key : ∀ n : Nat, n < 10 ^ 19 → (Nat.toDigits 10 n).length ≤ 19 := fun n hn =>
    Nat.toDigitsCore_length 10 (by decide) (n + 1) n 19 hn (by decide)
  unfold lld
  split
  · have := key v.natAbs (by omega)
    simp only [List.length_cons]
    omega
  · have := key v.toNat (by omega)
    omega

theorem fill_stats_items_vals_other (name value : CStr) (i : Fin MAX_SLABS) (s : STATS)
    (h1 : name ≠ "evicted_time".toList) (h2 : name ≠ "evicted".toList) :
    fill_stats_items_vals name value i s = .ok { s with
      si := Function.update s.si i { s.si i with slab := ((i : Nat) : Int) + 1 } } := by
  unfold fill_stats_items_vals
  rw [dif_pos (fin_index i)]
  have hidx : (⟨((i : Nat) : Int).toNat, by have := fin_index i; omega⟩ : Fin MAX_SLABS) = i :=
    Fin.ext (by simp)
  simp only [hidx, if_neg h1, if_neg h2]

theorem fill_stats_slabs_vals_other (name value : CStr) (i : Fin MAX_SLABS) (s : STATS)
    (h1 : name ≠ "chunk_size".toList) (h2 : name ≠ "total_pages".toList)
    (h3 : name ≠ "mem_requested".toList) (h4 : name ≠ "used_chunks".toList)
    (h5 : name ≠ "cmd_set".toList) (h6 : name ≠ "get_hits".toList) :
    fill_stats_slabs_vals name value i s = .ok { s with
      ss := Function.update s.ss i { s.ss i with slab := ((i : Nat) : Int) + 1 } } := by
  unfold fill_stats_slabs_vals
  rw [dif_pos (fin_index i)]
  have hidx : (⟨((i : Nat) : Int).toNat, by have := fin_index i; omega⟩ : Fin MAX_SLABS) = i :=
    Fin.ext (by simp)
  simp only [hidx, if_neg h1, if_neg h2, if_neg h3, if_neg h4, if_neg h5, if_neg h6]

theorem fill_stats_slabs_vals_at (name value : CStr) (i : Fin MAX_SLABS) (s : STATS) :
    ∃ slot : SS, fill_stats_slabs_vals name value i s
        = .ok { s with ss := Function.update s.ss i slot } ∧
      slot.slab = ((i : Nat) : Int) + 1 ∧
      (name = "chunk_size".toList → slot.chunk_size = atoll value) ∧
      (name = "total_pages".toList → slot.total_pages = atoll value) ∧
      (name = "mem_requested".toList → slot.mem_requested = atoll value) ∧
      (name = "used_chunks".toList → slot.used_chunks = atoll value) ∧
      (name = "cmd_set".toList → slot.cmd_set.value = atoll value) ∧
      (name = "get_hits".toList → slot.get_hits.value = atoll value) := by
  unfold fill_stats_slabs_vals
  rw [dif_pos (fin_index i)]
  have hidx : (⟨((i : Nat) : Int).toNat, by have := fin_index i; omega⟩ : Fin MAX_SLABS) = i :=
    Fin.ext (by simp)
  simp only [hidx]
  refine ⟨_, rfl, ?_, ?_, ?_, ?_, ?_, ?_, ?_⟩
  · split_ifs <;> rfl
  all_goals
    intro hn
    subst hn
    rfl

/-- C14 (as amended): for every decimal value `v` in the 64-bit signed range,
applying a record named `chunk_size`, `total_pages`, `used_chunks` or
`mem_requested` (per slab), `uptime` or `limit_maxbytes` (global) leaves that
field equal to `v`, and `version <s>` with `s` of at most 9 characters leaves
`version` equal to `s`.  The item count is not stored: the line
`STAT items:<id>:number <v>` marks the item slot active and leaves its
`number` field, like everything else, as it was. -/
theorem non_rate_fields_copied (v : Int) (i : Fin MAX_SLABS) (ver : CStr) (s : STATS)
    (hv : -9223372036854775808 ≤ v ∧ v ≤ 9223372036854775807) (hver : ver.length < 10) :
    (∃ s1, fill_stats_slabs_vals "chunk_size".toList (lld v) i s = .ok s1 ∧
      (s1.ss i).chunk_size = v) ∧
    (∃ s1, fill_stats_slabs_vals "total_pages".toList (lld v) i s = .ok s1 ∧
      (s1.ss i).total_pages = v) ∧
    (∃ s1, fill_stats_slabs_vals "used_chunks".toList (lld v) i s = .ok s1 ∧
      (s1.ss i).used_chunks = v) ∧
    (∃ s1, fill_stats_slabs_vals "mem_requested".toList (lld v) i s = .ok s1 ∧
      (s1.ss i).mem_requested = v) ∧
    (∃ s1, fill_stats_vals "uptime".toList (lld v) s = .ok s1 ∧ s1.uptime = v) ∧
    (∃ s1, fill_stats_vals "limit_maxbytes".toList (lld v) s = .ok s1 ∧
      s1.limit_maxbytes = v) ∧
    (∃ s1, fill_stats_vals "version".toList ver s = .ok s1 ∧ s1.version = ver) ∧
    fill_stats_items_element (item_line (lld (((i : Nat) : Int) + 1)) "number".toList (lld v)) s
      = .ok { s with
          si := Function.update s.si i { s.si i with slab := ((i : Nat) : Int) + 1 } } := by
  have hat := atoll_lld v hv
  have hslab : ∀ name : CStr, ∃ slot : SS, fill_stats_slabs_vals name (lld v) i s
        = .ok { s with ss := Function.update s.ss i slot } ∧
      (name = "chunk_size".toList → slot.chunk_size = v) ∧
      (name = "total_pages".toList → slot.total_pages = v) ∧
      (name = "mem_requested".toList → slot.mem_requested = v) ∧
      (name = "used_chunks".toList → slot.used_chunks = v) := by
    intro name
    obtain ⟨slot, e, _, a, b, c, d, _⟩ := fill_stats_slabs_vals_at name (lld v) i s
    rw [hat] at a b c d
    exact ⟨slot, e, a, b, c, d⟩
  refine ⟨?_, ?_, ?_, ?_, ?_, ?_, ?_, ?_⟩
  · obtain ⟨slot, e, a, _, _, _⟩ := hslab "chunk_size".toList
    exact ⟨_, e, by simp only [Function.update_same]; exact a rfl⟩
  · obtain ⟨slot, e, _, a, _, _⟩ := hslab "total_pages".toList
    exact ⟨_, e, by simp only [Function.update_same]; exact a rfl⟩
  · obtain ⟨slot, e, _, _, _, a⟩ := hslab "used_chunks".toList
    exact ⟨_, e, by simp only [Function.update_same]; exact a rfl⟩
  · obtain ⟨slot, e, _, _, a, _⟩ := hslab "mem_requested".toList
    exact ⟨_, e, by simp only [Function.update_same]; exact a rfl⟩
  · exact ⟨_, rfl, hat⟩
  · exact ⟨_, rfl, hat⟩
  · refine ⟨{ s with version := ver }, ?_, rfl⟩
    unfold fill_stats_vals
    rw [if_neg (by decide), if_pos rfl, if_neg (by omega)]
  · have hi := fin_index i
    simp only [MAX_SLABS] at hi
    rw [fill_stats_items_element_line _ "number".toList (lld v) s (lld_ne_nil _)
      (fun c hc => (lld_chars _ c hc).1) (fun c hc => (lld_chars _ c hc).2.1)
      (by decide) (by decide) (by decide) (by decide)
      (lld_ne_nil _) (lld_length v hv) (fun c hc => (lld_chars _ c hc).1),
      atoi_lld _ (by omega), if_neg (by omega)]
    have e : ((i : Nat) : Int) + 1 - 1 = ((i : Nat) : Int) := by omega
    rw [e]
    exact fill_stats_items_vals_other _ _ i s (by decide) (by decide)

/-- Witness for C14 (as amended): the value 96, the slot at index 2 and the
version text `1.4.13`. -/
theorem non_rate_fields_copied_witness :
    (∃ s1, fill_stats_slabs_vals "chunk_size".toList "96".toList 2 empty_stats = .ok s1 ∧
      (s1.ss 2).chunk_size = 96) ∧
    (∃ s1, fill_stats_vals "version".toList "1.4.13".toList empty_stats = .ok s1 ∧
      s1.version = "1.4.13".toList) := by
  have h := non_rate_fields_copied 96 2 "1.4.13".toList empty_stats (by decide) (by decide)
  exact ⟨h.1, h.2.2.2.2.2.2.1⟩

/-- C14 (counterexample): the line `STAT items:3:number 17` is applied
without a fault and activates the item slot at index 2, but its `number`
field stays 0; it does not become 17. -/
theorem item_count_is_not_stored :
    ∃ s1, fill_stats_items_element "STAT items:3:number 17".toList empty_stats = .ok s1 ∧
      (s1.si 2).slab = 3 ∧ (s1.si 2).number = 0 ∧ (s1.si 2).number ≠ 17 :=
  ⟨_, rfl, by decide, by decide, by decide⟩

/-! ## One global line -/

theorem not_isspace (c : Char) (h : isspace c = false) : c ≠ ' ' ∧ c ≠ '\n' ∧ c ≠ '\r' := by
  refine ⟨?_, ?_, ?_⟩ <;> (rintro rfl; revert h; decide)

theorem strtok_r_all_delims (delim s : CStr) (h : ∀ c ∈ s, c ∈ delim) :
    strtok_r delim s = none := by
  have : List.dropWhile (fun c => decide (c ∈ delim)) s = [] :=
    List.dropWhile_eq_nil_iff.2 (fun c hc => by simpa using h c hc)
  unfold strtok_r
  rw [this]

theorem strtok_lines_all_delims (fuel : Nat) (s : CStr) (h : ∀ c ∈ s, c ∈ "\n\r".toList) :
    strtok_lines fuel s = [] := by
  cases fuel with
  | zero => rfl
  | succ n => rw [strtok_lines, strtok_r_all_delims _ _ h]

theorem blob_lines_single (line trailing : CStr) (h1 : line ≠ [])
    (h2 : ∀ c ∈ line, c ≠ '\n' ∧ c ≠ '\r') (ht : ∀ c ∈ trailing, c = '\r' ∨ c = '\n') :
    blob_lines (line ++ trailing) = [line] := by
  have hno : ∀ c ∈ line, c ∉ "\n\r".toList := fun c hc => by simpa using h2 c hc
  have hlen : (line ++ trailing).length = (line.length - 1 + trailing.length) + 1 := by
    have : 0 < line.length := List.length_pos.2 h1
    simp only [List.length_append]; omega
  unfold blob_lines
  rw [hlen, strtok_lines]
  cases trailing with
  | nil =>
    rw [List.append_nil, strtok_r_last _ _ h1 hno]
    dsimp only
    rw [strtok_lines_all_delims _ [] (by simp)]
  | cons d rest =>
    have hd : d ∈ "\n\r".toList := by
      rcases ht d (List.mem_cons_self _ _) with rfl | rfl <;> decide
    rw [strtok_r_sep _ _ _ _ h1 hno hd]
    dsimp only
    rw [strtok_lines_all_delims _ rest (fun c hc => by
      rcases ht c (List.mem_cons_of_mem _ hc) with rfl | rfl <;> decide)]

theorem fill_stats_element_line (key value : CStr) (s : STATS)
    (hk : plain_token key) (hv : plain_token value) :
    strtok_r " ".toList (stat_line key value) = some ("STAT".toList, key ++ ' ' :: value) ∧
    strtok_r " ".toList (key ++ ' ' :: value) = some (key, value) ∧
    strtok_r " ".toList value = some (value, []) ∧
    fill_stats_element (stat_line key value) s = fill_stats_vals key value s := by
  obtain ⟨hk1, hk2, hk3⟩ := hk
  obtain ⟨hv1, hv2, hv3⟩ := hv
  have e1 : strtok_r " ".toList (stat_line key value)
      = some ("STAT".toList, key ++ ' ' :: value) := by
    have := strtok_r_sep " ".toList "STAT".toList (key ++ ' ' :: value) ' '
      (by decide) (by decide) (by decide)
    rw [← this]
    simp [stat_line]
  have e2 : strtok_r " ".toList (key ++ ' ' :: value) = some (key, value) :=
    strtok_r_sep _ _ _ _ hk1 (fun c hc => by simpa using (not_isspace c (hk3 c hc)).1)
      (by decide)
  have e3 : strtok_r " ".toList value = some (value, []) :=
    strtok_r_last _ _ hv1 (fun c hc => by simpa using (not_isspace c (hv3 c hc)).1)
  have hcmp : strncmp "STAT".toList "STAT".toList 3 = 0 := by decide
  refine ⟨e1, e2, e3, ?_⟩
  unfold fill_stats_element
  rw [e1]
  simp only [hcmp, ne_eq, not_true_eq_false, if_false]
  rw [e2]
  simp only [Nat.not_le.2 hk2, if_false]
  rw [e3]
  simp only [Nat.not_le.2 hv2, if_false]

theorem stat_line_chars (key value : CStr) (hk : plain_token key) (hv : plain_token value) :
    stat_line key value ≠ [] ∧ ∀ c ∈ stat_line key value, c ≠ '\n' ∧ c ≠ '\r' := by
  refine ⟨by simp [stat_line], ?_⟩
  intro c hc
  simp only [stat_line, List.mem_append, List.mem_cons] at hc
  rcases hc with (h | h) | h | h
  · have hall : ∀ x ∈ "STAT ".toList, x ≠ '\n' ∧ x ≠ '\r' := by decide
    exact hall c h
  · exact (not_isspace c (hk.2.2 c h)).2
  · rw [h]; decide
  · exact (not_isspace c (hv.2.2 c h)).2

/-- C15 (as amended): for every key and value that are non-empty, free of
white space, CR and LF and at most 63 characters long, `fill_stats` on the
text `STAT <key> <value>` followed by any number of CR/LF characters returns
exactly what `fill_stats_vals(key, value)` returns: the text is one line, its
second space-separated token is the key and its third the value, and the
record is applied once. -/
theorem fill_stats_single_line (key value trailing : CStr) (s : STATS)
    (hk : plain_token key) (hv : plain_token value)
    (ht : ∀ c ∈ trailing, c = '\r' ∨ c = '\n') :
    fill_stats (stat_line key value ++ trailing) s = fill_stats_vals key value s ∧
    blob_lines (stat_line key value ++ trailing) = [stat_line key value] ∧
    strtok_r " ".toList (stat_line key value) = some ("STAT".toList, key ++ ' ' :: value) ∧
    strtok_r " ".toList (key ++ ' ' :: value) = some (key, value) ∧
    strtok_r " ".toList value = some (value, []) := by
  obtain ⟨e1, e2, e3, e4⟩ := fill_stats_element_line key value s hk hv
  obtain ⟨c1, c2⟩ := stat_line_chars key value hk hv
  have hl := blob_lines_single _ trailing c1 c2 ht
  refine ⟨?_, hl, e1, e2, e3⟩
  unfold fill_stats
  rw [stat_lines_loop_fuel _ _ _ _ (le_refl _), hl]
  simp only [apply_lines, e4]
  rcases fill_stats_vals key value s with f | s1 <;> rfl

/-- Witness for C15 (as amended): `STAT uptime 5` followed by CR LF. -/
theorem fill_stats_single_line_witness :
    fill_stats "STAT uptime 5\r\n".toList empty_stats = .ok { empty_stats with uptime := 5 } := by
  have h := (fill_stats_single_line "uptime".toList "5".toList "\r\n".toList empty_stats
    (by decide) (by decide) (by decide)).1
  exact h

/-- C15 (counterexample): the value 7 written with 64 digits is non-empty and
free of white space, CR and LF; `fill_stats_vals` stores `uptime = 7` for it,
but `fill_stats` on `STAT uptime <value>` followed by CR LF ends in the buffer
overflow of the unchecked `strcpy` into `char value[64]`. -/
theorem long_value_overflows_global_line :
    (List.replicate 63 '0' ++ "7".toList).length = 64 ∧
    (List.replicate 63 '0' ++ "7".toList) ≠ [] ∧
    (∀ c ∈ List.replicate 63 '0' ++ "7".toList, isspace c = false) ∧
    fill_stats (stat_line "uptime".toList (List.replicate 63 '0' ++ "7".toList) ++ "\r\n".toList)
        empty_stats = .error .bufferOverflow ∧
    (∃ s1, fill_stats_vals "uptime".toList (List.replicate 63 '0' ++ "7".toList) empty_stats
      = .ok s1 ∧ s1.uptime = 7) :=
  ⟨by decide, by decide, by decide, rfl, ⟨_, rfl, by decide!⟩⟩

/-! ## Values that are not numbers -/

theorem digitsVal_no_digit (r : CStr)
    (h : match r with
      | [] => True
      | d :: _ => isdigit d = false) : digitsVal 0 r = 0 := by
  cases r with
  | nil => rfl
  | cons d ds =>
    simp only at h
    simp only [digitsVal, h, Bool.false_eq_true, if_false]

theorem strtoValue_no_number (v : CStr) (h : no_leading_number v = true) : strtoValue v = 0 := by
  unfold no_leading_number at h
  unfold strtoValue
  rcases hd : List.dropWhile isspace v with _ | ⟨c, r⟩
  · rfl
  · rw [hd] at h
    dsimp only at h ⊢
    by_cases hm : c = '-'
    · rw [if_pos (Or.inl hm)] at h
      rw [if_pos hm]
      have : digitsVal 0 r = 0 := by
        apply digitsVal_no_digit
        cases r with
        | nil => trivial
        | cons d ds => simpa using h
      rw [this]; rfl
    · rw [if_neg hm]
      by_cases hp : c = '+'
      · rw [if_pos (Or.inr hp)] at h
        rw [if_pos hp]
        have : digitsVal 0 r = 0 := by
          apply digitsVal_no_digit
          cases r with
          | nil => trivial
          | cons d ds => simpa using h
        rw [this]; rfl
      · rw [if_neg (by rintro (h1 | h1) <;> contradiction)] at h
        rw [if_neg hp]
        have : digitsVal 0 (c :: r) = 0 := by
          apply digitsVal_no_digit
          simpa using h
        rw [this]; rfl

theorem atoll_no_number (v : CStr) (h : no_leading_number v = true) : atoll v = 0 := by
  unfold atoll
  rw [strtoValue_no_number v h]
  rfl

theorem fill_stats_items_vals_at (name value : CStr) (i : Fin MAX_SLABS) (s : STATS) :
    ∃ slot : SI, fill_stats_items_vals name value i s
        = .ok { s with si := Function.update s.si i slot } ∧
      slot.slab = ((i : Nat) : Int) + 1 ∧
      (name = "evicted_time".toList → slot.evicted_time = atoll value) ∧
      (name = "evicted".toList → slot.evicted.value = atoll value) := by
  unfold fill_stats_items_vals
  rw [dif_pos (fin_index i)]
  have hidx : (⟨((i : Nat) : Int).toNat, by have := fin_index i; omega⟩ : Fin MAX_SLABS) = i :=
    Fin.ext (by simp)
  simp only [hidx]
  refine ⟨_, rfl, ?_, ?_, ?_⟩
  · split_ifs <;> rfl
  all_goals
    intro hn
    subst hn
    rfl

/-- C16: for every value text that does not begin with a decimal number,
applying a record for any recognized numeric field returns (no fault) and
leaves the field, or for a rate-tracked field its `value`, equal to 0: the
global fields `uptime`, `limit_maxbytes`, `total_items`, `get_hits`,
`evictions`, `cmd_get`, `cmd_set`; in every slab slot `chunk_size`,
`total_pages`, `mem_requested`, `used_chunks`, `cmd_set`, `get_hits`; in every
item slot `evicted_time` and `evicted`. -/
theorem non_numeric_value_gives_zero (value : CStr) (i : Fin MAX_SLABS) (s : STATS)
    (h : no_leading_number value = true) :
    fill_stats_vals "uptime".toList value s = .ok { s with uptime := 0 } ∧
    fill_stats_vals "limit_maxbytes".toList value s = .ok { s with limit_maxbytes := 0 } ∧
    fill_stats_vals "total_items".toList value s = .ok { s with total_items := 0 } ∧
    fill_stats_vals "get_hits".toList value s = .ok { s with get_hits := 0 } ∧
    (∃ s1, fill_stats_vals "evictions".toList value s = .ok s1 ∧ s1.evictions.value = 0) ∧
    (∃ s1, fill_stats_vals "cmd_get".toList value s = .ok s1 ∧ s1.cmd_get.value = 0) ∧
    (∃ s1, fill_stats_vals "cmd_set".toList value s = .ok s1 ∧ s1.cmd_set.value = 0) ∧
    (∃ s1, fill_stats_slabs_vals "chunk_size".toList value i s = .ok s1 ∧
      (s1.ss i).chunk_size = 0) ∧
    (∃ s1, fill_stats_slabs_vals "total_pages".toList value i s = .ok s1 ∧
      (s1.ss i).total_pages = 0) ∧
    (∃ s1, fill_stats_slabs_vals "mem_requested".toList value i s = .ok s1 ∧
      (s1.ss i).mem_requested = 0) ∧
    (∃ s1, fill_stats_slabs_vals "used_chunks".toList value i s = .ok s1 ∧
      (s1.ss i).used_chunks = 0) ∧
    (∃ s1, fill_stats_slabs_vals "cmd_set".toList value i s = .ok s1 ∧
      (s1.ss i).cmd_set.value = 0) ∧
    (∃ s1, fill_stats_slabs_vals "get_hits".toList value i s = .ok s1 ∧
      (s1.ss i).get_hits.value = 0) ∧
    (∃ s1, fill_stats_items_vals "evicted_time".toList value i s = .ok s1 ∧
      (s1.si i).evicted_time = 0) ∧
    (∃ s1, fill_stats_items_vals "evicted".toList value i s = .ok s1 ∧
      (s1.si i).evicted.value = 0) := by
  have h0 := atoll_no_number value h
  have hslab : ∀ name : CStr, ∃ slot : SS, fill_stats_slabs_vals name value i s
        = .ok { s with ss := Function.update s.ss i slot } ∧
      (name = "chunk_size".toList → slot.chunk_size = 0) ∧
      (name = "total_pages".toList → slot.total_pages = 0) ∧
      (name = "mem_requested".toList → slot.mem_requested = 0) ∧
      (name = "used_chunks".toList → slot.used_chunks = 0) ∧
      (name = "cmd_set".toList → slot.cmd_set.value = 0) ∧
      (name = "get_hits".toList → slot.get_hits.value = 0) := by
    intro name
    obtain ⟨slot, e, _, a, b, c, d, e5, e6⟩ := fill_stats_slabs_vals_at name value i s
    rw [h0] at a b c d e5 e6
    exact ⟨slot, e, a, b, c, d, e5, e6⟩
  have hitem : ∀ name : CStr, ∃ slot : SI, fill_stats_items_vals name value i s
        = .ok { s with si := Function.update s.si i slot } ∧
      (name = "evicted_time".toList → slot.evicted_time = 0) ∧
      (name = "evicted".toList → slot.evicted.value = 0) := by
    intro name
    obtain ⟨slot, e, _, a, b⟩ := fill_stats_items_vals_at name value i s
    rw [h0] at a b
    exact ⟨slot, e, a, b⟩
  have hg : ∀ r : rate, ∀ t tp : Int, (rate_update r value t tp).value = 0 := by
    intro r t tp
    simp only [rate_update, h0]
  refine ⟨?_, ?_, ?_, ?_, ?_, ?_, ?_, ?_, ?_, ?_, ?_, ?_, ?_, ?_, ?_⟩
  · simp only [fill_stats_vals, h0, if_true]
  · rw [← h0]; rfl
  · rw [← h0]; rfl
  · rw [← h0]; rfl
  · exact ⟨_, rfl, hg _ _ _⟩
  · exact ⟨_, rfl, hg _ _ _⟩
  · exact ⟨_, rfl, hg _ _ _⟩
  · obtain ⟨slot, e, a, _⟩ := hslab "chunk_size".toList
    exact ⟨_, e, by simp only [Function.update_same]; exact a rfl⟩
  · obtain ⟨slot, e, _, a, _⟩ := hslab "total_pages".toList
    exact ⟨_, e, by simp only [Function.update_same]; exact a rfl⟩
  · obtain ⟨slot, e, _, _, a, _⟩ := hslab "mem_requested".toList
    exact ⟨_, e, by simp only [Function.update_same]; exact a rfl⟩
  · obtain ⟨slot, e, _, _, _, a, _⟩ := hslab "used_chunks".toList
    exact ⟨_, e, by simp only [Function.update_same]; exact a rfl⟩
  · obtain ⟨slot, e, _, _, _, _, a, _⟩ := hslab "cmd_set".toList
    exact ⟨_, e, by simp only [Function.update_same]; exact a rfl⟩
  · obtain ⟨slot, e, _, _, _, _, _, a⟩ := hslab "get_hits".toList
    exact ⟨_, e, by simp only [Function.update_same]; exact a rfl⟩
  · obtain ⟨slot, e, a, _⟩ := hitem "evicted_time".toList
    exact ⟨_, e, by simp only [Function.update_same]; exact a rfl⟩
  · obtain ⟨slot, e, _, a⟩ := hitem "evicted".toList
    exact ⟨_, e, by simp only [Function.update_same]; exact a rfl⟩

/-- Witness for C16: the record `uptime abc`, and the whole line
`STAT uptime abc` through the global line parser. -/
theorem non_numeric_value_gives_zero_witness :
    fill_stats_vals "uptime".toList "abc".toList { empty_stats with uptime := 77 }
      = .ok { empty_stats with uptime := 0 } ∧
    fill_stats_element "STAT uptime abc".toList { empty_stats with uptime := 77 }
      = .ok { empty_stats with uptime := 0 } :=
  ⟨(non_numeric_value_gives_zero "abc".toList 0 { empty_stats with uptime := 77 }
      (by decide)).1, rfl⟩

/-! ## Names that are not recognized -/

/-- C17: a record whose name is none of the eight recognized global names is
ignored by `fill_stats_vals`, which returns the snapshot unchanged; a record
whose name is none of the six recognized per-slab names changes nothing
through `fill_stats_slabs_vals` except the `slab` id of the addressed slot,
which becomes its index plus one; and likewise `fill_stats_items_vals` for a
name that is neither `evicted_time` nor `evicted`. -/
theorem unrecognized_names_ignored (name value : CStr) (i : Fin MAX_SLABS) (s : STATS) :
    (name ∉ ["uptime".toList, "version".toList, "limit_maxbytes".toList,
        "total_items".toList, "evictions".toList, "cmd_get".toList, "cmd_set".toList,
        "get_hits".toList] →
      fill_stats_vals name value s = .ok s) ∧
    (name ∉ ["chunk_size".toList, "total_pages".toList, "mem_requested".toList,
        "used_chunks".toList, "cmd_set".toList, "get_hits".toList] →
      fill_stats_slabs_vals name value i s = .ok { s with
        ss := Function.update s.ss i { s.ss i with slab := ((i : Nat) : Int) + 1 } }) ∧
    (name ∉ ["evicted_time".toList, "evicted".toList] →
      fill_stats_items_vals name value i s = .ok { s with
        si := Function.update s.si i { s.si i with slab := ((i : Nat) : Int) + 1 } }) := by
  refine ⟨?_, ?_, ?_⟩
  · intro h
    simp only [List.mem_cons, List.mem_singleton, List.not_mem_nil, or_false, not_or] at h
    obtain ⟨h1, h2, h3, h4, h5, h6, h7, h8⟩ := h
    unfold fill_stats_vals
    rw [if_neg h1, if_neg h2, if_neg h3, if_neg h4, if_neg h5, if_neg h6, if_neg h7, if_neg h8]
  · intro h
    simp only [List.mem_cons, List.mem_singleton, List.not_mem_nil, or_false, not_or] at h
    obtain ⟨h1, h2, h3, h4, h5, h6⟩ := h
    exact fill_stats_slabs_vals_other name value i s h1 h2 h3 h4 h5 h6
  · intro h
    simp only [List.mem_cons, List.mem_singleton, List.not_mem_nil, or_false, not_or] at h
    obtain ⟨h1, h2⟩ := h
    exact fill_stats_items_vals_other name value i s h1 h2

/-- Witness for C17: the names `pid`, `chunks_per_page` and `age`. -/
theorem unrecognized_names_ignored_witness :
    fill_stats_vals "pid".toList "4711".toList empty_stats = .ok empty_stats ∧
    (∃ s1, fill_stats_slabs_vals "chunks_per_page".toList "10922".toList 2 empty_stats = .ok s1 ∧
      (s1.ss 2).slab = 3 ∧ (s1.ss 2).chunk_size = 0) ∧
    (∃ s1, fill_stats_items_vals "age".toList "55".toList 2 empty_stats = .ok s1 ∧
      (s1.si 2).slab = 3 ∧ (s1.si 2).evicted_time = 0) :=
  ⟨(unrecognized_names_ignored "pid".toList "4711".toList 0 empty_stats).1 (by decide),
   ⟨_, (unrecognized_names_ignored "chunks_per_page".toList "10922".toList 2 empty_stats).2.1
      (by decide), by decide, by decide⟩,
   ⟨_, (unrecognized_names_ignored "age".toList "55".toList 2 empty_stats).2.2
      (by decide), by decide, by decide⟩⟩

/-! ## Item lines -/

theorem fill_stats_items_vals_slot (name value : CStr) (slab : Int) (s s1 : STATS)
    (h : fill_stats_items_vals name value slab s = .ok s1) (j : Fin MAX_SLABS) :
    (((j : Nat) : Int) = slab → (s1.si j).slab = slab + 1) ∧
    (((j : Nat) : Int) ≠ slab → s1.si j = s.si j) := by
  unfold fill_stats_items_vals at h
  split at h
  · rename_i hr
    have hidx : ((j : Nat) : Int) = slab ↔ j = ⟨slab.toNat, by omega⟩ := by
      constructor
      · intro hj; exact Fin.ext (by simp only []; omega)
      · intro hj; rw [hj]; simp only []; omega
    injection h with h
    rw [← h]
    constructor
    · intro hj
      rw [hidx.1 hj]
      simp only [Function.update_same]
      split_ifs <;> rfl
    · intro hj
      have hj2 : j ≠ ⟨slab.toNat, by omega⟩ := fun e => hj (hidx.2 e)
      simp only [Function.update_noteq hj2]
  · cases h

/-- C20 (as amended): an item-stats line `STAT items:<id>:<field> <value>` with
`1 ≤ id ≤ MAX_SLABS` whose field and value have at most 63 characters each
is cut by `fill_stats_items_element` so that the second
colon-separated part of the key is the slab id and the third the field name,
and is applied as the record `(field, value)` to the item slot at zero-based
index `id - 1`: that slot's `slab` becomes `id`, no other item slot and
nothing else in the snapshot changes, and an `evicted_time` record stores its
value there. -/
theorem item_line_updates_slot (id : Int) (field value : CStr) (s : STATS)
    (hid : 1 ≤ id ∧ id ≤ MAX_SLABS)
    (hfield : fits_token " :".toList field) (hvalue : fits_token " ".toList value) :
    ∃ s1, fill_stats_items_element (item_line (lld id) field value) s = .ok s1 ∧
      fill_stats_items_vals field value (id - 1) s = .ok s1 ∧
      (∀ j : Fin MAX_SLABS, (j : Int) = id - 1 → (s1.si j).slab = id) ∧
      (∀ j : Fin MAX_SLABS, (j : Int) ≠ id - 1 → s1.si j = s.si j) ∧
      s1 = { s with si := s1.si } ∧
      (field = "evicted_time".toList →
        ∀ j : Fin MAX_SLABS, (j : Int) = id - 1 → (s1.si j).evicted_time = atoll value) ∧
      strtok_r ":".toList ("items".toList ++ ':' :: (lld id ++ ':' :: field))
        = some ("items".toList, lld id ++ ':' :: field) ∧
      strtok_r ":".toList (lld id ++ ':' :: field) = some (lld id, field) ∧
      strtok_r ":".toList field = some (field, []) := by
  have hat : atoi (lld id) = id := atoi_lld id (by simp only [MAX_SLABS] at hid; omega)
  have hrange : 0 ≤ id - 1 ∧ id - 1 < (MAX_SLABS : Int) := by
    simp only [MAX_SLABS] at hid ⊢; omega
  have hfc := fits_token_ne _ _ hfield
  have e0 : strtok_r ":".toList ("items".toList ++ ':' :: (lld id ++ ':' :: field))
      = some ("items".toList, lld id ++ ':' :: field) :=
    strtok_r_sep _ _ _ _ (by decide) (by decide) (by decide)
  have e3 : strtok_r ":".toList (lld id ++ ':' :: field) = some (lld id, field) :=
    strtok_r_sep _ _ _ _ (lld_ne_nil id)
      (fun c hc => by simpa using (lld_chars id c hc).2.1) (by decide)
  have e4 : strtok_r ":".toList field = some (field, []) :=
    strtok_r_last _ _ hfield.1 (fun c hc => by simpa using hfc ':' (by decide) c hc)
  have hel := fill_stats_items_element_line (lld id) field value s (lld_ne_nil id)
    (fun c hc => (lld_chars id c hc).1) (fun c hc => (lld_chars id c hc).2.1)
    hfield.1 hfield.2.1 (hfc ' ' (by decide)) (hfc ':' (by decide))
    hvalue.1 hvalue.2.1 (fits_token_ne _ _ hvalue ' ' (by decide))
  rw [hat, if_neg (by omega)] at hel
  rcases hv : fill_stats_items_vals field value (id - 1) s with f | s1
  · exfalso
    unfold fill_stats_items_vals at hv
    rw [dif_pos hrange] at hv
    cases hv
  · have hslot := fill_stats_items_vals_slot _ _ _ _ _ hv
    refine ⟨s1, by rw [hel, hv], rfl, ?_, ?_, fill_stats_items_vals_frame _ _ _ _ _ hv, ?_,
      e0, e3, e4⟩
    · intro j hj
      rw [(hslot j).1 hj]; omega
    · intro j hj
      exact (hslot j).2 hj
    · intro hfn j hj
      have hb : (id - 1).toNat < MAX_SLABS := by omega
      have hjj : j = ⟨(id - 1).toNat, hb⟩ := Fin.ext (by simp only []; omega)
      unfold fill_stats_items_vals at hv
      rw [dif_pos hrange] at hv
      injection hv with hv
      rw [← hv, hjj]
      simp only [Function.update_same, hfn, if_true]

/-- Witness for C20 (as amended): `STAT items:7:evicted_time 42` on the initial snapshot
sets `si[6].slab = 7` and `si[6].evicted_time = 42`. -/
theorem item_line_updates_slot_witness :
    ∃ s1, fill_stats_items_element "STAT items:7:evicted_time 42".toList empty_stats = .ok s1 ∧
      (s1.si 6).slab = 7 ∧ (s1.si 6).evicted_time = 42 := by
  obtain ⟨s1, h1, _, h3, _, _, h6, _⟩ :=
    item_line_updates_slot 7 "evicted_time".toList "42".toList empty_stats
      (by decide) (by decide) (by decide)
  exact ⟨s1, h1, h3 6 (by decide), by rw [h6 rfl 6 (by decide)]; decide⟩

/-- C20 (counterexample): the line `STAT items:7:evicted_time <value>` whose
value is 42 written with 64 digits names slab 7, yet `fill_stats_items_element`
does not apply the record: its `strcpy` into `char value[64]` is unchecked and
the run ends in the buffer overflow, while `fill_stats_items_vals` on the same
record sets `si[6].slab = 7` and `si[6].evicted_time = 42`.  A field name of 64
characters ends the run the same way at the `strcpy` into `char name[64]`. -/
theorem long_token_overflows_item_line :
    (List.replicate 62 '0' ++ "42".toList).length = 64 ∧
    (∀ c ∈ List.replicate 62 '0' ++ "42".toList, c ∉ " ".toList) ∧
    fill_stats_items_element
        (item_line (lld 7) "evicted_time".toList (List.replicate 62 '0' ++ "42".toList))
        empty_stats = .error .bufferOverflow ∧
    (∃ s1, fill_stats_items_vals "evicted_time".toList (List.replicate 62 '0' ++ "42".toList)
        (7 - 1) empty_stats = .ok s1 ∧ (s1.si 6).slab = 7 ∧ (s1.si 6).evicted_time = 42) ∧
    (List.replicate 64 'x').length = 64 ∧
    (∀ c ∈ List.replicate 64 'x', c ∉ " :".toList) ∧
    fill_stats_items_element (item_line (lld 7) (List.replicate 64 'x') "42".toList)
        empty_stats = .error .bufferOverflow ∧
    (∃ s1, fill_stats_items_vals (List.replicate 64 'x') "42".toList (7 - 1) empty_stats = .ok s1 ∧
      (s1.si 6).slab = 7) :=
  ⟨by decide, by decide, rfl, ⟨_, rfl, by decide, by decide!⟩, by decide, by decide,
    rfl, ⟨_, rfl, by decide⟩⟩

/-! ## What the per-cycle reset keeps -/

theorem apply_lines_slabs_untouched (lines : List CStr) (s s1 : STATS)
    (h : apply_lines fill_stats_slabs_element lines s = .ok s1) (j : Fin MAX_SLABS)
    (hin : (s1.ss j).slab = -1) : s1.ss j = s.ss j := by
  induction lines generalizing s with
  | nil =>
    simp only [apply_lines] at h
    cases h; rfl
  | cons line rest ih =>
    rw [apply_lines] at h
    rcases he : fill_stats_slabs_element line s with f | s2
    · rw [he] at h; cases h
    rw [he] at h; dsimp only at h
    have e := ih s2 h
    rcases fill_stats_slabs_element_slot line s s2 he j with hs | ⟨_, hs⟩
    · rw [e, hs]
    · exfalso
      rw [e, hs] at hin
      have : (0 : Int) ≤ ((j : Nat) : Int) := Int.ofNat_nonneg _
      omega

theorem fill_stats_items_element_slot (line : CStr) (s s1 : STATS)
    (h : fill_stats_items_element line s = .ok s1) (j : Fin MAX_SLABS) :
    s1.si j = s.si j ∨ (s1.si j).slab = ((j : Nat) : Int) + 1 := by
  rcases fill_stats_items_element_ok line s s1 h with h1 | ⟨name, value, slab, _, hv⟩
  · left; rw [h1]
  · have hs := fill_stats_items_vals_slot _ _ _ _ _ hv j
    by_cases hj : ((j : Nat) : Int) = slab - 1
    · right; rw [hs.1 hj]; omega
    · left; exact hs.2 hj

theorem apply_lines_items_untouched (lines : List CStr) (s s1 : STATS)
    (h : apply_lines fill_stats_items_element lines s = .ok s1) (j : Fin MAX_SLABS)
    (hin : (s1.si j).slab = -1) : s1.si j = s.si j := by
  induction lines generalizing s with
  | nil =>
    simp only [apply_lines] at h
    cases h; rfl
  | cons line rest ih =>
    rw [apply_lines] at h
    rcases he : fill_stats_items_element line s with f | s2
    · rw [he] at h; cases h
    rw [he] at h; dsimp only at h
    have e := ih s2 h
    rcases fill_stats_items_element_slot line s s2 he j with hs | hs
    · rw [e, hs]
    · exfalso
      rw [e, hs] at hin
      have : (0 : Int) ≤ ((j : Nat) : Int) := Int.ofNat_nonneg _
      omega

theorem fill_stats_slabs_absent (blob : CStr) (s s1 : STATS) (i : Fin MAX_SLABS)
    (h : fill_stats_slabs blob s = .ok s1) (hin : (s1.ss i).slab = -1) :
    s1.ss i = { s.ss i with slab := -1 } := by
  unfold fill_stats_slabs at h
  rw [stat_lines_loop_fuel _ _ _ _ (le_refl _)] at h
  exact apply_lines_slabs_untouched _ _ _ h i hin

theorem fill_stats_items_absent (blob : CStr) (s s1 : STATS) (i : Fin MAX_SLABS)
    (h : fill_stats_items blob s = .ok s1) (hin : (s1.si i).slab = -1) :
    s1.si i = { s.si i with slab := -1 } := by
  unfold fill_stats_items at h
  rw [stat_lines_loop_fuel _ _ _ _ (le_refl _)] at h
  exact apply_lines_items_untouched _ _ _ h i hin

theorem load_stats_absent (c : Cycle) (s s1 : STATS) (i : Fin MAX_SLABS)
    (h : load_stats c s = .ok s1)
    (hno : ∀ line ∈ blob_lines c.slabs, line_slab_id line ≠ some (((i : Nat) : Int) + 1)) :
    s1.ss i = { s.ss i with slab := -1 } ∧ s1.time_prev = c.now := by
  refine ⟨?_, (load_stats_time c s s1 h).2⟩
  unfold load_stats at h
  rcases h1 : fill_stats_slabs c.slabs (start_cycle c.now s) with f | a
  · rw [h1] at h; cases h
  rw [h1] at h; dsimp only at h
  rcases h2 : fill_stats_items c.items a with f | b
  · rw [h2] at h; cases h
  rw [h2] at h; dsimp only at h
  rcases h3 : fill_stats c.stats b with f | d
  · rw [h3] at h; cases h
  rw [h3] at h; dsimp only at h
  have e2 := fill_stats_items_frame _ _ _ h2
  have e3 := fill_stats_frame _ _ _ h3
  have hss : s1.ss = a.ss := by
    cases h
    rw [e3, e2]
    rfl
  have hin : (a.ss i).slab = -1 := by
    have h1' := h1
    unfold fill_stats_slabs at h1'
    rw [stat_lines_loop_fuel _ _ _ _ (le_refl _)] at h1'
    by_contra hact
    rcases (apply_lines_active _ _ _ h1' i).1 hact with hb | ⟨line, hl, hid⟩
    · exact hb rfl
    · exact hno line hl hid
  rw [hss, fill_stats_slabs_absent _ _ _ i h1 hin]
  rfl

theorem load_cycles_absent (cs : List Cycle) (s s1 : STATS) (i : Fin MAX_SLABS)
    (hne : cs ≠ [])
    (hno : ∀ c ∈ cs, ∀ line ∈ blob_lines c.slabs,
      line_slab_id line ≠ some (((i : Nat) : Int) + 1))
    (h : load_cycles cs s = .ok s1) :
    s1.ss i = { s.ss i with slab := -1 } := by
  induction cs generalizing s with
  | nil => exact absurd rfl hne
  | cons c rest ih =>
    rw [load_cycles] at h
    rcases hl : load_stats c s with f | sa
    · rw [hl] at h; cases h
    rw [hl] at h; dsimp only at h
    have ha := (load_stats_absent c s sa i hl (hno c (List.mem_cons_self _ _))).1
    cases rest with
    | nil =>
      simp only [load_cycles] at h
      cases h
      exact ha
    | cons c2 rest2 =>
      have := ih sa (by simp) (fun x hx => hno x (List.mem_cons_of_mem _ hx)) h
      rw [this, ha]

theorem fill_stats_slabs_one_line (i : Fin MAX_SLABS) (field value : CStr) (s : STATS)
    (hf : fits_token " :\n\r".toList field) (hv : fits_token " \n\r".toList value) :
    fill_stats_slabs (slab_line (lld (((i : Nat) : Int) + 1)) field value ++ "\r\n".toList) s
      = fill_stats_slabs_vals field value i
          { s with ss := fun j => { s.ss j with slab := -1 } } := by
  have hi := fin_index i
  simp only [MAX_SLABS] at hi
  have hfc := fits_token_ne _ _ hf
  have hvc := fits_token_ne _ _ hv
  have hlc := lld_chars (((i : Nat) : Int) + 1)
  have hline : ∀ c ∈ slab_line (lld (((i : Nat) : Int) + 1)) field value,
      c ≠ '\n' ∧ c ≠ '\r' := fun c hc =>
    ⟨slab_line_chars _ field value '\n' (by decide) (fun x hx => (hlc x hx).2.2.1)
        (hfc '\n' (by decide)) (hvc '\n' (by decide)) c hc,
     slab_line_chars _ field value '\r' (by decide) (fun x hx => (hlc x hx).2.2.2)
        (hfc '\r' (by decide)) (hvc '\r' (by decide)) c hc⟩
  have hl := blob_lines_single (slab_line (lld (((i : Nat) : Int) + 1)) field value)
    "\r\n".toList (by simp [slab_line]) hline (by decide)
  unfold fill_stats_slabs
  rw [stat_lines_loop_fuel _ _ _ _ (le_refl _), hl]
  simp only [apply_lines]
  rw [fill_stats_slabs_element_line _ field value _ (lld_ne_nil _)
    (fun c hc => (hlc c hc).1) (fun c hc => (hlc c hc).2.1)
    hf.1 hf.2.1 (hfc ' ' (by decide)) (hfc ':' (by decide))
    hv.1 hv.2.1 (hvc ' ' (by decide)), atoi_lld _ (by omega), if_neg (by omega)]
  have e : ((i : Nat) : Int) + 1 - 1 = ((i : Nat) : Int) := by omega
  rw [e]
  rcases fill_stats_slabs_vals field value i _ with f | s1 <;> rfl

/-- C19: the reset loops of `fill_stats_slabs` and `fill_stats_items` change
nothing but the `slab` id of each slot (shown by the empty response); a slot
that is inactive after `fill_stats_slabs` or `fill_stats_items` still holds
every metric value and rate baseline it held before the call; and after any
number of refresh cycles whose slab responses do not name slab `i+1`, a line
`STAT <i+1>:cmd_set <v1>` or `STAT <i+1>:get_hits <v1>` in a cycle at time `t`
computes the rate from the `value_prev` stored before those cycles. -/
theorem reset_keeps_metrics (s : STATS) (i : Fin MAX_SLABS) :
    fill_stats_slabs [] s = .ok { s with ss := fun j => { s.ss j with slab := -1 } } ∧
    fill_stats_items [] s = .ok { s with si := fun j => { s.si j with slab := -1 } } ∧
    (∀ (blob : CStr) (s1 : STATS), fill_stats_slabs blob s = .ok s1 → (s1.ss i).slab = -1 →
      s1.ss i = { s.ss i with slab := -1 }) ∧
    (∀ (blob : CStr) (s1 : STATS), fill_stats_items blob s = .ok s1 → (s1.si i).slab = -1 →
      s1.si i = { s.si i with slab := -1 }) ∧
    (∀ (cs : List Cycle) (s1 : STATS) (v1 t : Int), cs ≠ [] →
      (∀ c ∈ cs, ∀ line ∈ blob_lines c.slabs,
        line_slab_id line ≠ some (((i : Nat) : Int) + 1)) →
      load_cycles cs s = .ok s1 →
      -9223372036854775808 ≤ v1 ∧ v1 ≤ 9223372036854775807 →
      s1.ss i = { s.ss i with slab := -1 } ∧
      (∃ s2, fill_stats_slabs
            (slab_line (lld (((i : Nat) : Int) + 1)) "cmd_set".toList (lld v1) ++ "\r\n".toList)
            (start_cycle t s1) = .ok s2 ∧
          (s2.ss i).slab = ((i : Nat) : Int) + 1 ∧
          (s2.ss i).cmd_set = rate_update (s.ss i).cmd_set (lld v1) t s1.time_prev ∧
          (s2.ss i).cmd_set.rate = LongDouble.fdiv
            (LongDouble.ofInt (wrap64 (v1 - (s.ss i).cmd_set.value_prev)))
            (LongDouble.fdiv (LongDouble.ofInt (wrap64 (t - s1.time_prev))) (.finite 1000))) ∧
      (∃ s2, fill_stats_slabs
            (slab_line (lld (((i : Nat) : Int) + 1)) "get_hits".toList (lld v1) ++ "\r\n".toList)
            (start_cycle t s1) = .ok s2 ∧
          (s2.ss i).slab = ((i : Nat) : Int) + 1 ∧
          (s2.ss i).get_hits = rate_update (s.ss i).get_hits (lld v1) t s1.time_prev ∧
          (s2.ss i).get_hits.rate = LongDouble.fdiv
            (LongDouble.ofInt (wrap64 (v1 - (s.ss i).get_hits.value_prev)))
            (LongDouble.fdiv (LongDouble.ofInt (wrap64 (t - s1.time_prev))) (.finite 1000)))) := by
  refine ⟨rfl, rfl, fun blob s1 h hin => fill_stats_slabs_absent blob s s1 i h hin,
    fun blob s1 h hin => fill_stats_items_absent blob s s1 i h hin, ?_⟩
  intro cs s1 v1 t hne hno hrun hv
  have hkeep := load_cycles_absent cs s s1 i hne hno hrun
  have hat := atoll_lld v1 hv
  have hvt : fits_token " \n\r".toList (lld v1) :=
    ⟨lld_ne_nil v1, lld_length v1 hv, fun c hc => by
      have := lld_chars v1 c hc
      simp only [String.toList, List.mem_cons, List.mem_singleton, List.not_mem_nil, or_false,
        not_or]
      exact ⟨this.1, this.2.2.1, this.2.2.2⟩⟩
  refine ⟨hkeep, ?_, ?_⟩
  · have e := fill_stats_slabs_one_line i "cmd_set".toList (lld v1) (start_cycle t s1)
      (by decide) hvt
    rw [fill_stats_slabs_vals_cmd_set] at e
    refine ⟨_, e, ?_, ?_, ?_⟩
    · simp only [Function.update_same]
    · simp only [Function.update_same, start_cycle, hkeep]
    · simp only [Function.update_same, start_cycle, hkeep, rate_update, hat]
  · have e := fill_stats_slabs_one_line i "get_hits".toList (lld v1) (start_cycle t s1)
      (by decide) hvt
    rw [fill_stats_slabs_vals_get_hits] at e
    refine ⟨_, e, ?_, ?_, ?_⟩
    · simp only [Function.update_same]
    · simp only [Function.update_same, start_cycle, hkeep]
    · simp only [Function.update_same, start_cycle, hkeep, rate_update, hat]

/-- Witness for C19: slab 3 last reported `cmd_set 100`, is absent from the
cycles at 6000 ms and 11000 ms, and is reported again with `cmd_set 150` at
16000 ms: the rate is `(150 - 100) / 5 = 10`. -/
theorem reset_keeps_metrics_witness :
    ∃ s1 s2,
      load_cycles [⟨6000, "STAT 1:chunk_size 96\r\nEND\r\n".toList, [], []⟩,
        ⟨11000, "STAT 1:chunk_size 96\r\nEND\r\n".toList, [], []⟩] slab_three_seen = .ok s1 ∧
      (s1.ss 2).slab = -1 ∧ (s1.ss 2).cmd_set.value_prev = 100 ∧
      fill_stats_slabs "STAT 3:cmd_set 150\r\n".toList (start_cycle 16000 s1) = .ok s2 ∧
      (s2.ss 2).cmd_set.rate = .finite 10 := by
  have key := (reset_keeps_metrics slab_three_seen 2).2.2.2.2
    [⟨6000, "STAT 1:chunk_size 96\r\nEND\r\n".toList, [], []⟩,
      ⟨11000, "STAT 1:chunk_size 96\r\nEND\r\n".toList, [], []⟩] _ 150 16000
    (by simp) (by decide) rfl (by decide)
  obtain ⟨h1, ⟨s2, h2, _, _, h4⟩, _⟩ := key
  refine ⟨_, s2, rfl, by rw [h1], by rw [h1]; rfl, h2, ?_⟩
  rw [h4]
  decide!

/-! ## Page rotation -/

theorem filter_le_range' (start a n : Nat) :
    (List.range' a n).filter (fun m => decide (start ≤ m))
      = List.range' (max a start) (a + n - max a start) := by
  induction n generalizing a with
  | zero =>
    have : a + 0 - max a start = 0 := by omega
    simp [this]
  | succ n ih =>
    rw [List.range'_succ]
    by_cases h : start ≤ a
    · rw [List.filter_cons_of_pos (by simpa using h), ih (a + 1)]
      have e1 : max a start = a := by omega
      have e2 : max (a + 1) start = a + 1 := by omega
      have e3 : a + (n + 1) - a = (a + 1 + n - (a + 1)) + 1 := by omega
      rw [e1, e2, e3, List.range'_succ]
    · rw [List.filter_cons_of_neg (by simpa using h), ih (a + 1)]
      have e1 : max a start = start := by omega
      have e2 : max (a + 1) start = start := by omega
      have e3 : a + 1 + n - start = a + (n + 1) - start := by omega
      rw [e1, e2, e3]

theorem sorted_filter_ge (pre rest : List Nat) (a : Nat)
    (h : (pre ++ a :: rest).Pairwise (· < ·)) :
    (pre ++ a :: rest).filter (fun m => decide (a ≤ m)) = a :: rest := by
  obtain ⟨_, h2, h3⟩ := List.pairwise_append.1 h
  rw [List.filter_append]
  have e1 : pre.filter (fun m => decide (a ≤ m)) = [] := by
    rw [List.filter_eq_nil_iff]
    intro x hx
    have := h3 x hx a (List.mem_cons_self _ _)
    simp only [decide_eq_true_eq]; omega
  have e2 : (a :: rest).filter (fun m => decide (a ≤ m)) = a :: rest := by
    rw [List.filter_eq_self]
    intro x hx
    rcases List.mem_cons.1 hx with rfl | hx
    · simp
    · have := (List.pairwise_cons.1 h2).1 x hx
      simp only [decide_eq_true_eq]; omega
  rw [e1, e2, List.nil_append]

theorem flatten_blocks (A : List Nat) (c k : Nat) :
    ((List.range k).map (fun j => (A.drop (c * j)).take c)).flatten = A.take (c * k) := by
  induction k with
  | zero => simp
  | succ k ih =>
    rw [List.range_succ, List.map_append, List.flatten_append, ih, Nat.mul_succ, List.take_add]
    simp

theorem active_from_filter (s : STATS) (start : Nat) :
    active_from s start = (active_from s 0).filter (fun m => decide (start ≤ m)) := by
  unfold active_from
  have e : List.range' start (MAX_SLABS - start)
      = (List.range' 0 (MAX_SLABS - 0)).filter (fun m => decide (start ≤ m)) := by
    rw [filter_le_range']
    congr 1 <;> omega
  rw [e, List.filter_filter, List.filter_filter]
  apply List.filter_congr
  intro x _
  exact Bool.and_comm _ _

theorem active_from_drop (s : STATS) (k a : Nat) (rest : List Nat)
    (h : (active_from s 0).drop k = a :: rest) :
    active_from s a = (active_from s 0).drop k := by
  have hasc := active_from_ascending s 0
  rw [← List.take_append_drop k (active_from s 0), h] at hasc
  rw [active_from_filter, h]
  conv_lhs => rw [← List.take_append_drop k (active_from s 0), h]
  exact sorted_filter_ge _ _ _ hasc

theorem advance_page_fields (s : STATS) :
    (advance_page s).ss = s.ss ∧
    (advance_page s).max_slabs_per_page = s.max_slabs_per_page ∧
    (advance_page s).more_slabs = false ∧
    (s.more_slabs = true → s.last_slab_shown + 1 < (MAX_SLABS : Int) →
      (advance_page s).start_slab = s.last_slab_shown + 1) ∧
    (s.more_slabs = false → (advance_page s).start_slab = 0) := by
  unfold advance_page
  dsimp only
  refine ⟨?_, ?_, ?_, ?_, ?_⟩
  · split_ifs <;> rfl
  · split_ifs <;> rfl
  · split_ifs with h1 h2
    · rfl
    · rfl
    · simpa using h1
  · intro h1 h2
    rw [if_pos h1, if_neg (by omega)]
  · intro h1
    rw [if_neg (by rw [h1]; decide)]

theorem page_round (A : List Nat) (c p : Nat) (cyc : Cycle) (s : STATS)
    (hinv : page_state A c p s)
    (hload : ∀ x, ∃ y, load_stats cyc x = .ok y ∧ active_from y 0 = A) :
    ∃ scr s1 s2, draw_screen s = .ok (scr, s1) ∧ refresh cyc s1 = .ok s2 ∧
      scr.slab_rows.map (fun r => r.index.val) = (A.drop p).take c ∧
      page_state A c (next_pos A.length c p) s2 := by
  obtain ⟨i1, i2, i3, i4, i5⟩ := hinv
  obtain ⟨scr, s1, e0, h2, h3, h4, h5, _⟩ := draw_screen_spec s i1
  have hcn : s.max_slabs_per_page.toNat = c := by rw [i3]; exact Int.toNat_natCast c
  rw [hcn, i5] at h2 h3 h4
  rw [i2, Bool.false_or, List.length_drop] at h3
  rw [List.drop_drop] at h4
  obtain ⟨y, hl, hy⟩ := hload s1
  obtain ⟨_, f2, f3, f4, _⟩ := load_stats_frame cyc s1 y hl
  obtain ⟨a1, a2, a3, a4, a5⟩ := advance_page_fields y
  have hcap : s1.max_slabs_per_page = (c : Int) := by rw [h5]; exact i3
  have hA0 : active_from (advance_page y) 0 = A := by
    rw [active_from_congr y _ 0 a1]; exact hy
  refine ⟨scr, s1, advance_page y, e0, by unfold refresh; rw [hl], h2, ?_⟩
  by_cases hlt : p + c < A.length
  · have hnp : next_pos A.length c p = p + c := by unfold next_pos; rw [if_pos hlt]
    rcases hd : A.drop (p + c) with _ | ⟨a, rest⟩
    · have := congrArg List.length hd
      rw [List.length_drop, List.length_nil] at this
      omega
    rw [hd] at h4
    have h4 : s1.last_slab_shown = (a : Int) - 1 := h4
    have h100 : ((MAX_SLABS : Nat) : Int) = 100 := rfl
    have hmem : a ∈ active_from y 0 := by
      rw [hy]
      exact List.mem_of_mem_drop (by rw [hd]; exact List.mem_cons_self _ _)
    obtain ⟨_, hlt100, _⟩ := (mem_active_from y 0 a).1 hmem
    have hmore : y.more_slabs = true := by
      rw [f2, h3]; simp only [decide_eq_true_eq]; omega
    have hst : (advance_page y).start_slab = (a : Int) := by
      have hlt100 : a < 100 := hlt100
      rw [a4 hmore (by rw [f3, h4, h100]; omega), f3, h4]
      omega
    refine ⟨by rw [hst]; omega, a3, by rw [a2, f4, hcap], hA0, ?_⟩
    rw [hst, Int.toNat_natCast, hnp, active_from_congr y _ a a1]
    have hd3 : (active_from y 0).drop (p + c) = a :: rest := by rw [hy]; exact hd
    rw [active_from_drop y (p + c) a rest hd3, hy]
  · have hnp : next_pos A.length c p = 0 := by unfold next_pos; rw [if_neg hlt]
    have hmore : y.more_slabs = false := by
      rw [f2, h3]; simp only [decide_eq_false_iff_not]; omega
    have hst : (advance_page y).start_slab = 0 := a5 hmore
    refine ⟨by rw [hst], a3, by rw [a2, f4, hcap], hA0, ?_⟩
    rw [hst, hnp, List.drop_zero]
    exact hA0

theorem page_rounds_windows (A : List Nat) (c : Nat) (cs : List Cycle) :
    ∀ (p : Nat) (s : STATS), page_state A c p s →
      (∀ cyc ∈ cs, ∀ x, ∃ y, load_stats cyc x = .ok y ∧ active_from y 0 = A) →
      ∃ scrs sN, page_rounds cs s = .ok (scrs, sN) ∧
        scrs.map (fun scr => scr.slab_rows.map (fun r => r.index.val))
          = (List.range cs.length).map
              (fun j => (A.drop ((next_pos A.length c)^[j] p)).take c) := by
  induction cs with
  | nil =>
    intro p s _ _
    exact ⟨[], s, rfl, rfl⟩
  | cons cyc rest ih =>
    intro p s hinv hload
    obtain ⟨scr, s1, s2, e1, e2, e3, hnext⟩ :=
      page_round A c p cyc s hinv (hload cyc (List.mem_cons_self _ _))
    obtain ⟨scrs, sN, e4, e5⟩ := ih _ s2 hnext (fun c hc => hload c (List.mem_cons_of_mem _ hc))
    refine ⟨scr :: scrs, sN, ?_, ?_⟩
    · rw [page_rounds, e1]; dsimp only; rw [e2]; dsimp only; rw [e4]
    · rw [List.map_cons, e3, e5, List.length_cons, List.range_succ_eq_map, List.map_cons,
        List.map_map]
      rfl

theorem ceil_div_bounds (n c : Nat) (hc : 1 ≤ c) (hn : 1 ≤ n) :
    1 ≤ (n + c - 1) / c ∧ c * ((n + c - 1) / c - 1) < n ∧ n ≤ c * ((n + c - 1) / c) := by
  have h1 : c * ((n + c - 1) / c) ≤ n + c - 1 := Nat.mul_div_le _ _
  have h2 : n + c - 1 < c * ((n + c - 1) / c) + c := by
    have := Nat.lt_mul_div_succ (n + c - 1) (by omega : 0 < c)
    rw [Nat.mul_succ] at this
    exact this
  have hw : 1 ≤ (n + c - 1) / c := by
    rw [Nat.one_le_div_iff (by omega)]
    omega
  refine ⟨hw, ?_, by omega⟩
  have h3 : c * ((n + c - 1) / c - 1) + c = c * ((n + c - 1) / c) := by
    rw [← Nat.mul_succ]
    congr 1
    omega
  omega

theorem succ_mod_cases (j w : Nat) (hw : 1 ≤ w) :
    (j % w + 1 < w ∧ (j + 1) % w = j % w + 1) ∨ (j % w + 1 = w ∧ (j + 1) % w = 0) := by
  have hm : j % w < w := Nat.mod_lt _ (by omega)
  have hd := Nat.div_add_mod j w
  by_cases h : j % w + 1 < w
  · left
    refine ⟨h, ?_⟩
    have : j + 1 = w * (j / w) + (j % w + 1) := by omega
    rw [this, Nat.mul_add_mod, Nat.mod_eq_of_lt h]
  · right
    have he : j % w + 1 = w := by omega
    refine ⟨he, ?_⟩
    have : j + 1 = w * (j / w + 1) := by
      rw [Nat.mul_succ]; omega
    rw [this, Nat.mul_mod_right]

theorem iterate_next_pos (n c : Nat) (hc : 1 ≤ c) (hn : 1 ≤ n) (j : Nat) :
    (next_pos n c)^[j] 0 = c * (j % ((n + c - 1) / c)) := by
  obtain ⟨hw, hlo, hhi⟩ := ceil_div_bounds n c hc hn
  induction j with
  | zero => simp
  | succ j ih =>
    rw [Function.iterate_succ_apply', ih]
    generalize hwd : (n + c - 1) / c = w at hw hlo hhi ⊢
    rcases succ_mod_cases j w hw with ⟨h1, h2⟩ | ⟨h1, h2⟩
    · rw [h2]
      have hle : c * (j % w + 1) ≤ c * (w - 1) := Nat.mul_le_mul_left c (by omega)
      have hexp : c * (j % w + 1) = c * (j % w) + c := Nat.mul_succ _ _
      unfold next_pos
      rw [if_pos (by omega), hexp]
    · rw [h2]
      have hexp : c * (j % w) + c = c * w := by
        rw [← Nat.mul_succ]; congr 1
      unfold next_pos
      rw [if_neg (by omega), Nat.mul_zero]

/-- C18: start with `start_slab = 0`, `more_slabs` false and page capacity
`c ≥ 1` in a snapshot whose active slots are the ascending list `A`, and let
every refresh cycle return and leave the active slots `A`.  Alternate
`draw_screen` and the refresh step, once for each cycle.  Then every step
returns, and with `w = ⌈|A| / c⌉`: (1) draw number `j` (from 0) shows the `c`
members of `A` from position `c * (j mod w)` on, fewer when `A` ends before;
(2) the position after `p = c * (j mod w)` is `p + c` when members remain beyond
the window, so the next window begins at the first active slot the previous one
did not show, and 0 otherwise, so the window after the last block starts again
at the lowest active slot; (3) the first `w` windows, one after the other, are
exactly `A`; (4) `A` is strictly ascending, so every active slot is in exactly
one of the first `w` windows. -/
theorem page_rotation_covers_slabs (cs : List Cycle) (s0 : STATS) (A : List Nat) (c : Nat)
    (hc : 1 ≤ c) (hcap : s0.max_slabs_per_page = (c : Int)) (hstart : s0.start_slab = 0)
    (hmore : s0.more_slabs = false) (hA : active_from s0 0 = A)
    (hload : ∀ cyc ∈ cs, ∀ x, ∃ y, load_stats cyc x = .ok y ∧ active_from y 0 = A) :
    ∃ scrs sN, page_rounds cs s0 = .ok (scrs, sN) ∧
      scrs.map shown_slots
        = (List.range cs.length).map
            (fun j => (A.drop (c * (j % ((A.length + c - 1) / c)))).take c) ∧
      (A ≠ [] → ∀ j, c * ((j + 1) % ((A.length + c - 1) / c))
        = if c * (j % ((A.length + c - 1) / c)) + c < A.length
          then c * (j % ((A.length + c - 1) / c)) + c else 0) ∧
      ((A.length + c - 1) / c ≤ cs.length →
        ((scrs.take ((A.length + c - 1) / c)).map shown_slots).flatten = A) ∧
      A.Pairwise (· < ·) := by
  have hinv : page_state A c 0 s0 :=
    ⟨by rw [hstart], hmore, hcap, hA, by rw [hstart]; exact hA⟩
  obtain ⟨scrs, sN, e1, e2⟩ := page_rounds_windows A c cs 0 s0 hinv hload
  have hpos : ∀ j, (A.drop ((next_pos A.length c)^[j] 0)).take c
      = (A.drop (c * (j % ((A.length + c - 1) / c)))).take c := by
    intro j
    rcases Nat.eq_zero_or_pos A.length with h0 | h0
    · rw [List.length_eq_zero.1 h0]; simp
    · rw [iterate_next_pos A.length c hc h0 j]
  have e3 : scrs.map shown_slots = (List.range cs.length).map
      (fun j => (A.drop (c * (j % ((A.length + c - 1) / c)))).take c) := by
    rw [← List.map_congr_left (fun j _ => hpos j)]
    exact e2
  refine ⟨scrs, sN, e1, e3, ?_, ?_, ?_⟩
  · intro hne j
    have h0 : 1 ≤ A.length := by
      rcases Nat.eq_zero_or_pos A.length with h0 | h0
      · exact absurd (List.length_eq_zero.1 h0) hne
      · exact h0
    have ha := iterate_next_pos A.length c hc h0 (j + 1)
    rw [Function.iterate_succ_apply', iterate_next_pos A.length c hc h0 j] at ha
    rw [← ha]
    rfl
  · intro hw
    rw [List.map_take, e3, ← List.map_take, List.take_range, Nat.min_eq_left hw]
    have hcong : (List.range ((A.length + c - 1) / c)).map
          (fun j => (A.drop (c * (j % ((A.length + c - 1) / c)))).take c)
        = (List.range ((A.length + c - 1) / c)).map (fun j => (A.drop (c * j)).take c) := by
      apply List.map_congr_left
      intro j hj
      rw [Nat.mod_eq_of_lt (List.mem_range.1 hj)]
    rw [hcong, flatten_blocks]
    apply List.take_of_length_le
    rcases Nat.eq_zero_or_pos A.length with h0 | h0
    · omega
    · exact (ceil_div_bounds A.length c hc h0).2.2
  · rw [← hA]
    exact active_from_ascending s0 0

set_option maxRecDepth 100000 in
/-- Witness for C18: 25 active slabs at the default capacity 20 and three
cycles that each report the slabs 1 to 25: the draws show the slots 0–19,
then 20–24 (slab 21 first), then 0–19 again. -/
theorem page_rotation_covers_slabs_witness :
    ∃ scrs sN,
      page_rounds [⟨1000, twenty_five_slab_lines, [], []⟩, ⟨6000, twenty_five_slab_lines, [], []⟩,
        ⟨11000, twenty_five_slab_lines, [], []⟩] twenty_five_slabs = .ok (scrs, sN) ∧
      scrs.map shown_slots = [List.range 20, List.range' 20 5, List.range 20] ∧
      ((scrs.take 2).map shown_slots).flatten = List.range 25 := by
  have hload : ∀ cyc ∈ ([⟨1000, twenty_five_slab_lines, [], []⟩,
      ⟨6000, twenty_five_slab_lines, [], []⟩, ⟨11000, twenty_five_slab_lines, [], []⟩] : List Cycle),
      ∀ x, ∃ y, load_stats cyc x = .ok y ∧ active_from y 0 = List.range 25 := by
    intro cyc hcyc x
    simp only [List.mem_cons, List.mem_singleton, List.not_mem_nil, or_false] at hcyc
    rcases hcyc with rfl | rfl | rfl <;> exact ⟨_, rfl, rfl⟩
  obtain ⟨scrs, sN, h1, h2, _, h3, _⟩ := page_rotation_covers_slabs _ twenty_five_slabs
    (List.range 25) 20 (by decide) rfl rfl rfl rfl hload
  exact ⟨scrs, sN, h1, by rw [h2]; decide, h3 (by decide)⟩

end Howsit
